import Mathlib

/-!
# OpenCTM tools, `dae.cpp`: the COLLADA importer and exporter

A shallow embedding of `tools/dae.cpp`.  Every function of the file is a Lean
function of the same name.  The conventions of the embedding:

* a C++ `float` is a value of an arbitrary type `F` with a zero; the code only
  copies floats, converts them from text (`atof`) and to text (`operator<<`),
  and these two conversions are parameters of the importer and the exporter;
* `size_t` is a natural number below `2 ^ 64`; sums and products that the code
  forms from parsed numbers are reduced modulo `2 ^ 64`;
* `std::map` is an association list that is only searched by key;
* the TinyXML document tree is the inductive type `TiXmlNode`; the functions
  of the TinyXML interface that `dae.cpp` calls are modelled on that tree;
* an execution that throws, or that leaves defined behaviour (null or `end()`
  dereference, `operator[]` beyond the size of a vector, a loop that never
  ends), yields `Except.error` with the `Failure` that names the event.
-/

namespace DAE

/-! ## Outcomes of an execution -/

/-- Events that keep an execution of the C++ code from returning normally. -/
inductive Failure where
  /-- a C++ exception with the given message -/
  | thrown (what : String)
  /-- a null pointer is dereferenced -/
  | nullDeref
  /-- the `end()` iterator of a map is dereferenced -/
  | endDeref
  /-- `operator[]` of a vector is used beyond its size -/
  | outOfRange
  /-- a buffer is read before it was written -/
  | uninitialized
  /-- more than 100 bytes are written to `char val[100]` -/
  | bufferOverflow
  /-- `atoi` of a number that `int` cannot represent -/
  | intOverflow
  /-- a loop whose condition never becomes false -/
  | nonterminating
  deriving DecidableEq, Repr

/-- Equality of two outcomes is decidable. -/
instance instDecidableEqExcept {ε α : Type} [DecidableEq ε] [DecidableEq α] :
    DecidableEq (Except ε α)
  | .ok a, .ok b =>
    if h : a = b then isTrue (by rw [h]) else isFalse (fun h2 => h (by cases h2; rfl))
  | .error a, .error b =>
    if h : a = b then isTrue (by rw [h]) else isFalse (fun h2 => h (by cases h2; rfl))
  | .ok _, .error _ => isFalse (fun h => by cases h)
  | .error _, .ok _ => isFalse (fun h => by cases h)

/-- Number of values of `size_t`. -/
def SIZE_MODULUS : Nat := 2 ^ 64

/-- Conversion of an `int` to `size_t`. -/
def toSizeT (v : Int) : Nat := (v % (SIZE_MODULUS : Int)).toNat

/-- Sum of two `size_t`. -/
def sizeAdd (a b : Nat) : Nat := (a + b) % SIZE_MODULUS

/-- Product of two `size_t`. -/
def sizeMul (a b : Nat) : Nat := (a * b) % SIZE_MODULUS

/-- `v[i]` of a `std::vector`. -/
def vectorAt {α : Type} (v : List α) (i : Nat) : Except Failure α :=
  match v.get? i with
  | some x => .ok x
  | none => .error .outOfRange

/-- `v.resize(n)` of a `std::vector`, `d` being the value-initialised element. -/
def vectorResize {α : Type} (v : List α) (n : Nat) (d : α) : List α :=
  v.take n ++ List.replicate (n - v.length) d

/-! ## `std::map` -/

/-- `m.find(k)`: the mapped value, `none` standing for `m.end()`. -/
def mapFind {κ ν : Type} [DecidableEq κ] : List (κ × ν) → κ → Option ν
  | [], _ => none
  | (k', v) :: m, k => if k' = k then some v else mapFind m k

/-- Replace the value mapped to `k`, or add the pair when `k` is not a key. -/
def mapSet {κ ν : Type} [DecidableEq κ] : List (κ × ν) → κ → ν → List (κ × ν)
  | [], k, v => [(k, v)]
  | (k', v') :: m, k, v => if k' = k then (k', v) :: m else (k', v') :: mapSet m k v

/-- `m.insert(make_pair(k, v))`: an existing key keeps its value. -/
def mapInsert {κ ν : Type} [DecidableEq κ] (m : List (κ × ν)) (k : κ) (v : ν) :
    List (κ × ν) :=
  match mapFind m k with
  | some _ => m
  | none => mapSet m k v

/-- `m[k]` read: the mapped value, or the value-initialised `d` for a new key. -/
def mapAt {κ ν : Type} [DecidableEq κ] (m : List (κ × ν)) (k : κ) (d : ν) : ν :=
  (mapFind m k).getD d

/-! ## The data of `dae.cpp` -/

/-- `class Source`. -/
structure Source (F : Type) where
  array : List F
  stride : Nat
  count : Nat
  offset : Nat
  params : List String
  deriving DecidableEq, Repr

/-- `Source::Source()`. -/
def Source.new {F : Type} : Source F :=
  { array := [], stride := 0, count := 0, offset := 0, params := [] }

/-- `class Indexes`. -/
structure Indexes where
  vertIndex : Nat
  normalIndex : Nat
  texcoordIndex : Nat
  deriving DecidableEq, Repr

/-- `enum Semantic`. -/
inductive Semantic where
  | VERTEX
  | NORMAL
  | TEXCOORD
  | POSITIONS
  | UNKNOWN
  deriving DecidableEq, Repr

/-- `struct Input`. -/
structure Input where
  source : String
  semantic : Semantic
  offset : Nat
  deriving DecidableEq, Repr

/-- `Input()`: the value-initialised input. -/
def Input.new : Input := { source := "", semantic := .VERTEX, offset := 0 }

/-- Modelled from the spec: the 3-vector of `mesh.h` (§3), of which `dae.cpp` uses the
three components. -/
structure Vector3 (F : Type) where
  x : F
  y : F
  z : F
  deriving DecidableEq, Repr

/-- Modelled from the spec: the 2-vector of `mesh.h` (§3), of which `dae.cpp` uses the
two components. -/
structure Vector2 (F : Type) where
  u : F
  v : F
  deriving DecidableEq, Repr

/-- Modelled from the spec: the class `Mesh` of `mesh.h` (§3), of which `dae.cpp` uses the
index array, the three attribute arrays and the comment.  An index is kept as the natural
number that the code stores; the width of the element type of the index array is not
visible from `dae.cpp`. -/
structure Mesh (F : Type) where
  mIndices : List Nat
  mVertices : List (Vector3 F)
  mNormals : List (Vector3 F)
  mTexCoords : List (Vector2 F)
  mComment : String
  deriving DecidableEq, Repr

/-- `Mesh::Clear()`. -/
def Mesh.Clear {F : Type} : Mesh F :=
  { mIndices := [], mVertices := [], mNormals := [], mTexCoords := [], mComment := "" }

/-- `ToSemantic`. -/
def ToSemantic (semantic : String) : Semantic :=
  if semantic = "VERTEX" then .VERTEX
  else if semantic = "NORMAL" then .NORMAL
  else if semantic = "TEXCOORD" then .TEXCOORD
  else if semantic = "POSITIONS" then .POSITIONS
  else .UNKNOWN

/-! ## `GetSource` -/

/-- The `for` loop of `GetSource` over the inputs of a `<vertices>` element: the first
input whose source is a key of `sources`; `none` when the loop ends with
`srcIterator == sources.end()`. -/
def GetSource.loop {F : Type} (sources : List (String × Source F)) :
    List Input → Option (Source F)
  | [] => none
  | i :: rest =>
    match mapFind sources i.source with
    | some s => some s
    | none => GetSource.loop sources rest

/-- `GetSource`. -/
def GetSource {F : Type} (sources : List (String × Source F))
    (vertices : List (String × List Input)) (source : String) :
    Except Failure (Source F) :=
  match mapFind sources source with
  | some s => .ok s
  | none =>
    match mapFind vertices source with
    | some inputs =>
      match GetSource.loop sources inputs with
      | some s => .ok s
      -- the final `return srcIterator->second;` with `srcIterator == sources.end()`
      | none => .error .endDeref
    | none => .error (.thrown "Error")

/-! ## `InsertVertNormalTexcoord` -/

/-- Component `c` of element `k` of a source, as the three `if (src.stride >= ...)`
statements read it: `src.array[src.offset + k*src.stride + c]` when
`src.stride >= c + 1`, and the initial `0` otherwise. -/
def component {F : Type} [Zero F] (src : Source F) (k c : Nat) : Except Failure F :=
  if src.stride ≥ c + 1 then
    vectorAt src.array
      (if c = 0 then sizeAdd src.offset (sizeMul k src.stride)
       else sizeAdd (sizeAdd src.offset (sizeMul k src.stride)) c)
  else .ok 0

/-- The three output arrays that `InsertVertNormalTexcoord` appends to. -/
structure Attributes (F : Type) where
  vertVector : List (Vector3 F)
  normalVector : List (Vector3 F)
  texcoordVector : List (Vector2 F)
  deriving DecidableEq, Repr

/-- The presence flags and source names that `ReadInputs` reports. -/
structure Flags where
  hasVerts : Bool
  hasNormals : Bool
  hasTexcoords : Bool
  vertSource : String
  normalSource : String
  texcoordSource : String
  deriving DecidableEq, Repr

/-- `InsertVertNormalTexcoord`. -/
def InsertVertNormalTexcoord {F : Type} [Zero F] (a : Attributes F) (fl : Flags)
    (vertIndex normalIndex texcoordIndex : Nat) (sources : List (String × Source F))
    (vertices : List (String × List Input)) : Except Failure (Attributes F) := do
  let a ←
    if fl.hasVerts then do
      let src ← GetSource sources vertices fl.vertSource
      let x ← component src vertIndex 0
      let y ← component src vertIndex 1
      let z ← component src vertIndex 2
      pure { a with vertVector := a.vertVector ++ [⟨x, y, z⟩] }
    else pure a
  let a ←
    if fl.hasNormals then do
      let src ← GetSource sources vertices fl.normalSource
      let x ← component src normalIndex 0
      let y ← component src normalIndex 1
      let z ← component src normalIndex 2
      pure { a with normalVector := a.normalVector ++ [⟨x, y, z⟩] }
    else pure a
  if fl.hasTexcoords then do
    let src ← GetSource sources vertices fl.texcoordSource
    let s ← component src texcoordIndex 0
    let t ← component src texcoordIndex 1
    pure { a with texcoordVector := a.texcoordVector ++ [⟨s, t⟩] }
  else pure a

/-! ## The welding loop of `Import_DAE` -/

/-- The inner `for` loop over the inputs: every input of semantic `VERTEX`, `NORMAL`
or `TEXCOORD` assigns `pArray[i + j->offset]` to its index, in list order. -/
def decodeTuple (pArray : List Nat) (i : Nat) : List Input → Indexes → Except Failure Indexes
  | [], ix => .ok ix
  | j :: rest, ix =>
    match j.semantic with
    | .VERTEX => do
      let v ← vectorAt pArray (sizeAdd i j.offset)
      decodeTuple pArray i rest { ix with vertIndex := v }
    | .NORMAL => do
      let v ← vectorAt pArray (sizeAdd i j.offset)
      decodeTuple pArray i rest { ix with normalIndex := v }
    | .TEXCOORD => do
      let v ← vectorAt pArray (sizeAdd i j.offset)
      decodeTuple pArray i rest { ix with texcoordIndex := v }
    | _ => decodeTuple pArray i rest ix

/-- The type of `prevIndices`. -/
abbrev PrevIndices := List (Nat × List (Nat × List (Nat × Nat)))

/-- The variables of the welding loop. -/
structure WeldState (F : Type) where
  indexVector : List Nat
  attrs : Attributes F
  prevIndices : PrevIndices
  index : Nat
  deriving DecidableEq, Repr

/-- The state before the first iteration. -/
def WeldState.init {F : Type} : WeldState F :=
  { indexVector := [], attrs := ⟨[], [], []⟩, prevIndices := [], index := 0 }

/-- The branch shared by the three cache misses: `indexVector.push_back(index)`, the
call of `InsertVertNormalTexcoord` and `++index`, with the updated cache `prev`. -/
def weldMiss {F : Type} [Zero F] (fl : Flags) (sources : List (String × Source F))
    (vertices : List (String × List Input)) (st : WeldState F) (ix : Indexes)
    (prev : PrevIndices) : Except Failure (WeldState F) := do
  let attrs ← InsertVertNormalTexcoord st.attrs fl ix.vertIndex ix.normalIndex
    ix.texcoordIndex sources vertices
  pure { indexVector := st.indexVector ++ [st.index], attrs := attrs, prevIndices := prev,
         index := st.index + 1 }

/-- The cache lookup of one iteration, with its three nested `find` calls. -/
def weldStep {F : Type} [Zero F] (fl : Flags) (sources : List (String × Source F))
    (vertices : List (String × List Input)) (st : WeldState F) (ix : Indexes) :
    Except Failure (WeldState F) :=
  match mapFind st.prevIndices ix.vertIndex with
  | some m1 =>
    match mapFind m1 ix.normalIndex with
    | some m2 =>
      match mapFind m2 ix.texcoordIndex with
      | some u => .ok { st with indexVector := st.indexVector ++ [u] }
      | none =>
        -- prevIt2->second.insert(make_pair(texcoordIndex, index));
        weldMiss fl sources vertices st ix
          (mapSet st.prevIndices ix.vertIndex
            (mapSet m1 ix.normalIndex (mapInsert m2 ix.texcoordIndex st.index)))
    | none =>
      -- prevIt1->second.insert(make_pair(normalIndex, map()));
      -- prevIt1->second[normalIndex].insert(make_pair(texcoordIndex, index));
      let m1a := mapInsert m1 ix.normalIndex []
      let m1b := mapSet m1a ix.normalIndex
        (mapInsert (mapAt m1a ix.normalIndex []) ix.texcoordIndex st.index)
      weldMiss fl sources vertices st ix (mapSet st.prevIndices ix.vertIndex m1b)
  | none =>
    -- prevIndices.insert(make_pair(vertIndex, map()));
    -- prevIndices[vertIndex].insert(make_pair(normalIndex, map()));
    -- prevIndices[vertIndex][normalIndex].insert(make_pair(texcoordIndex, index));
    let p1 := mapInsert st.prevIndices ix.vertIndex []
    let p2 := mapSet p1 ix.vertIndex (mapInsert (mapAt p1 ix.vertIndex []) ix.normalIndex [])
    let m1 := mapAt p2 ix.vertIndex []
    let p3 := mapSet p2 ix.vertIndex
      (mapSet m1 ix.normalIndex
        (mapInsert (mapAt m1 ix.normalIndex []) ix.texcoordIndex st.index))
    weldMiss fl sources vertices st ix p3

/-- The loop `for (size_t i = 0; i < pArray.size(); i += inputs.size())`, started at `i`
and given `fuel` iterations.  A loop that still runs after `fuel` iterations is reported
as `nonterminating`; with `fuel = pArray.size()` this happens exactly when
`inputs.size() == 0` and `pArray` is not empty, where `i` never grows. -/
def weldLoop {F : Type} [Zero F] (inputs : List Input) (pArray : List Nat) (fl : Flags)
    (sources : List (String × Source F)) (vertices : List (String × List Input)) :
    Nat → Nat → WeldState F → Except Failure (WeldState F)
  | 0, i, st => if i < pArray.length then .error .nonterminating else .ok st
  | fuel + 1, i, st =>
    if i < pArray.length then do
      let ix ← decodeTuple pArray i inputs ⟨0, 0, 0⟩
      let st ← weldStep fl sources vertices st ix
      weldLoop inputs pArray fl sources vertices fuel (i + inputs.length) st
    else .ok st

/-- The welding of one `<triangles>` element: the whole loop from `i = 0`. -/
def weld {F : Type} [Zero F] (inputs : List Input) (pArray : List Nat) (fl : Flags)
    (sources : List (String × Source F)) (vertices : List (String × List Input)) :
    Except Failure (WeldState F) :=
  weldLoop inputs pArray fl sources vertices pArray.length 0 WeldState.init

/-! ## The TinyXML interface used by `dae.cpp` -/

/-- Modelled from the spec: a node of the document of the XML library (TinyXML), which
the spec names as an external collaborator: an element with its attributes and child
nodes, a text node, or any other node (comment, declaration, unknown). -/
inductive TiXmlNode where
  | element (value : String) (attributes : List (String × String))
      (children : List TiXmlNode)
  | text (value : String)
  | other (value : String)

/-- A `TiXmlDocument`: its top-level nodes. -/
abbrev TiXmlDocument := List TiXmlNode

/-- `TiXmlNode::Value()`. -/
def TiXmlNode.Value : TiXmlNode → String
  | .element v _ _ => v
  | .text v => v
  | .other v => v

/-- Whether `ToElement()` is not null. -/
def TiXmlNode.isElement : TiXmlNode → Bool
  | .element _ _ _ => true
  | _ => false

/-- The child nodes. -/
def TiXmlNode.children : TiXmlNode → List TiXmlNode
  | .element _ _ cs => cs
  | _ => []

/-- `TiXmlElement::Attribute(name)`, `none` standing for the null pointer. -/
def TiXmlNode.Attribute : TiXmlNode → String → Option String
  | .element _ as _, name => mapFind as name
  | _, _ => none

/-- `TiXmlElement::GetText()`: the value of the first child when it is a text node. -/
def TiXmlNode.GetText (n : TiXmlNode) : Option String :=
  match n.children with
  | .text v :: _ => some v
  | _ => none

/-- `FirstChild(value)`: the first child node of that value. -/
def TiXmlNode.FirstChild (n : TiXmlNode) (value : String) : Option TiXmlNode :=
  n.children.find? (fun c => c.Value = value)

/-- `ToElement()` of a node pointer that may be null. -/
def ToElement (n : Option TiXmlNode) : Option TiXmlNode :=
  match n with
  | some c => if c.isElement then some c else none
  | none => none

/-- The elements that `for (e = FirstChild(value).ToElement(); e; e =
e->NextSiblingElement())` visits among the child nodes `siblings`: the first node of
that value, when it is an element, and every element after it, whatever its name. -/
def elementsFrom (value : String) (siblings : List TiXmlNode) : List TiXmlNode :=
  match siblings.dropWhile (fun c => c.Value ≠ value) with
  | [] => []
  | c :: rest => if c.isElement then c :: rest.filter TiXmlNode.isElement else []

/-- `n->FirstChild(value)->ToElement()` followed by a use of the element: a null
pointer is dereferenced when there is no such child or when it is no element. -/
def childElement (n : TiXmlNode) (value : String) : Except Failure TiXmlNode :=
  match ToElement (n.FirstChild value) with
  | some c => .ok c
  | none => .error .nullDeref

/-- A `const char*` handed to a function that reads it. -/
def deref (s : Option String) : Except Failure String :=
  match s with
  | some v => .ok v
  | none => .error .nullDeref

/-! ## The C library and `std::istringstream` -/

/-- `isspace` in the C locale. -/
def isspace (c : Char) : Bool :=
  c = ' ' || c = '\t' || c = '\n' || c = '\r' || c = Char.ofNat 11 || c = Char.ofNat 12

/-- The decimal digits at the head of a text, accumulated on `acc`. -/
def atoi.digits : List Char → Nat → Nat
  | [], acc => acc
  | c :: cs, acc => if c.isDigit then atoi.digits cs (acc * 10 + (c.toNat - 48)) else acc

/-- `atoi`: white space, an optional sign and decimal digits.  The behaviour is
undefined when `int` cannot represent the number. -/
def atoi (s : List Char) : Except Failure Int :=
  let v : Int :=
    match s.dropWhile isspace with
    | '-' :: r => - (atoi.digits r 0 : Int)
    | '+' :: r => (atoi.digits r 0 : Int)
    | r => (atoi.digits r 0 : Int)
  if -2 ^ 31 ≤ v ∧ v < 2 ^ 31 then .ok v else .error .intOverflow

/-- A `std::istringstream`: the characters not yet read and two state bits. -/
structure IStringStream where
  rest : List Char
  eofbit : Bool
  failbit : Bool
  deriving DecidableEq, Repr

/-- `strStream >> val` for `char val[100]`; `val` is `none` as long as the buffer has
not been written.  On a stream that is not good, or that ends before a character that
is no white space, the extraction fails and leaves `val` as it was. -/
def IStringStream.extract (s : IStringStream) (val : Option (List Char)) :
    Except Failure (IStringStream × Option (List Char)) :=
  if s.eofbit || s.failbit then .ok ({ s with failbit := true }, val)
  else
    match s.rest.dropWhile isspace with
    | [] => .ok ({ rest := [], eofbit := true, failbit := true }, val)
    | c :: cs =>
      let token := (c :: cs).takeWhile (fun c => !isspace c)
      let rest := (c :: cs).dropWhile (fun c => !isspace c)
      if token.length ≥ 100 then .error .bufferOverflow
      else .ok ({ rest := rest, eofbit := rest.isEmpty, failbit := false }, some token)

/-- The loop `while (!strStream.eof()) { strStream >> val; value = convert(val);
array.push_back(value); }` shared by `ReadIndexArray` and the reading of a
`<float_array>`, given `fuel` iterations. -/
def readLoop {α : Type} (convert : List Char → Except Failure α) :
    Nat → IStringStream → Option (List Char) → List α → Except Failure (List α)
  | 0, s, _, array => if s.eofbit then .ok array else .error .nonterminating
  | fuel + 1, s, val, array =>
    if s.eofbit then .ok array
    else do
      let (s, val) ← s.extract val
      match val with
      | none => .error .uninitialized
      | some t =>
        let value ← convert t
        readLoop convert fuel s val (array ++ [value])

/-- The whole reading loop on `std::istringstream strStream(text)`. -/
def readArray {α : Type} (convert : List Char → Except Failure α) (text : String)
    (array : List α) : Except Failure (List α) :=
  readLoop convert (text.data.length + 1) ⟨text.data, false, false⟩ none array

/-! ## `ReadIndexArray` and `ReadInputs` -/

/-- `ReadIndexArray`. -/
def ReadIndexArray (p : Option TiXmlNode) (array : List Nat) : Except Failure (List Nat) :=
  match p with
  | none => .error .nullDeref
  | some p => do
    let text ← deref p.GetText
    readArray (fun val => do let value ← atoi val; pure (toSizeT value)) text array

/-- `string(elem->Attribute("source")).substr(1)`. -/
def sourceName (elem : TiXmlNode) : Except Failure String := do
  let s ← deref (elem.Attribute "source")
  if s.data.length < 1 then .error (.thrown "basic_string::substr")
  else pure (String.mk (s.data.drop 1))

/-- The body of the loop of `ReadInputs` for one sibling element. -/
def ReadInputs.step (acc : Flags × List Input) (inputElem : TiXmlNode) :
    Except Failure (Flags × List Input) :=
  if inputElem.Value ≠ "input" then .ok acc
  else do
    let source ← sourceName inputElem
    let offset ← atoi (← deref (inputElem.Attribute "offset")).data
    let semantic := ToSemantic (← deref (inputElem.Attribute "semantic"))
    let input : Input := { source := source, semantic := semantic, offset := toSizeT offset }
    let fl := acc.1
    let fl :=
      match semantic with
      | .VERTEX => { fl with hasVerts := true, vertSource := source }
      | .NORMAL => { fl with hasNormals := true, normalSource := source }
      | .TEXCOORD => { fl with hasTexcoords := true, texcoordSource := source }
      | _ => fl
    pure (fl, acc.2 ++ [input])

/-- The flags and names as the callers of `ReadInputs` initialise them. -/
def Flags.init : Flags := ⟨false, false, false, "", "", ""⟩

/-- `ReadInputs`, called with the initial flags and an empty `inputs`. -/
def ReadInputs (rootElem : TiXmlNode) : Except Failure (Flags × List Input) :=
  (elementsFrom "input" rootElem.children).foldlM ReadInputs.step (Flags.init, [])

/-! ## `Import_DAE` -/

/-- The statements of the source loop that store the attributes of the accessor in
`sources[id]`, the entry `src`: `stride` and `count`, and `offset` when the attribute is
there. -/
def readAccessor {F : Type} (accessorElem : TiXmlNode) (src : Source F) :
    Except Failure (Source F) := do
  let stride ← atoi (← deref (accessorElem.Attribute "stride")).data
  let src := { src with stride := toSizeT stride }
  let count ← atoi (← deref (accessorElem.Attribute "count")).data
  let src := { src with count := toSizeT count }
  match accessorElem.Attribute "offset" with
  | some o => do
    let offset ← atoi o.data
    pure { src with offset := toSizeT offset }
  | none => pure src

/-- The body of the loop over the `<source>` children of a `<mesh>`.  After
`sources.insert(make_pair(id, Source()))`, which keeps an entry that is already there,
every `sources[id]` is that one entry: it is read once, as `src`, and written back with
the floats pushed to its `array`. -/
def readSource {F : Type} (atof : List Char → F) (sources : List (String × Source F))
    (sourceElem : TiXmlNode) : Except Failure (List (String × Source F)) :=
  if sourceElem.Value ≠ "source" then .ok sources
  else do
    let id ← deref (sourceElem.Attribute "id")
    let arr ← childElement sourceElem "float_array"
    let str ← deref arr.GetText
    let sources := mapInsert sources id Source.new
    let techniqueElem ← childElement sourceElem "technique_common"
    let accessorElem ← childElement techniqueElem "accessor"
    let src ← readAccessor accessorElem (mapAt sources id Source.new)
    let array ← readArray (fun val => pure (atof val)) str src.array
    pure (mapSet sources id { src with array := array })

/-- The body of the loop over the `<input>` children of `<vertices>`. -/
def readVerticesInput (inputs : List Input) (inputElem : TiXmlNode) :
    Except Failure (List Input) :=
  if inputElem.Value ≠ "input" then .ok inputs
  else do
    let source ← sourceName inputElem
    let semantic := ToSemantic (← deref (inputElem.Attribute "semantic"))
    pure (inputs ++ [{ Input.new with source := source, semantic := semantic }])

/-- The `vertices` map of one `<mesh>`. -/
def readVertices (mesh : TiXmlNode) : Except Failure (List (String × List Input)) :=
  match ToElement (mesh.FirstChild "vertices") with
  | none => .ok []
  | some verticesElem => do
    let id ← deref (verticesElem.Attribute "id")
    match verticesElem.FirstChild "input" with
    | none => .error .nullDeref
    | some _ => do
      let inputs ←
        (elementsFrom "input" verticesElem.children).foldlM readVerticesInput []
      pure [(id, inputs)]

/-- The reads of `pArray` for one corner of a polygon of a `<polylist>`. -/
def polylistCorner (pArray : List Nat) (offset : Nat) : List Input → Except Failure Unit
  | [] => .ok ()
  | j :: rest =>
    match j.semantic with
    | .VERTEX | .NORMAL | .TEXCOORD => do
      let _ ← vectorAt pArray (sizeAdd offset j.offset)
      polylistCorner pArray offset rest
    | _ => polylistCorner pArray offset rest

/-- The loop over `vcountArray` of the `<polylist>` block, from stream offset `offset`. -/
def polylistLoop (inputs : List Input) (pArray : List Nat) :
    List Nat → Nat → Except Failure Unit
  | [], _ => .ok ()
  | vcount :: rest, offset => do
    (List.range vcount).forM (fun _ => polylistCorner pArray offset inputs)
    polylistLoop inputs pArray rest (sizeAdd offset vcount)

/-- The `<polylist>` block: its arrays and inputs are read, nothing is kept. -/
def readPolylist (mesh : TiXmlNode) : Except Failure Unit :=
  match ToElement (mesh.FirstChild "polylist") with
  | none => .ok ()
  | some polylistElem => do
    let vcountArray ← ReadIndexArray (ToElement (polylistElem.FirstChild "vcount")) []
    let pArray ← ReadIndexArray (ToElement (polylistElem.FirstChild "p")) []
    let (_, inputs) ← ReadInputs polylistElem
    polylistLoop inputs pArray vcountArray 0

/-- The `for` loop `dst[off + i] = src[i]` over all `i < src.size()`. -/
def assignFrom {α : Type} : List α → Nat → List α → List α
  | dst, _, [] => dst
  | dst, off, x :: xs => assignFrom (dst.set off x) (off + 1) xs

/-- The variables of `Import_DAE` that outlive one `<geometry>`. -/
structure ImportState (F : Type) where
  aMesh : Mesh F
  sources : List (String × Source F)
  indicesOffset : Nat
  vertexOffset : Nat
  texcoordOffset : Nat
  normalOffset : Nat
  deriving DecidableEq, Repr

/-- The state before the first `<geometry>`: the cleared mesh, no source, offsets 0. -/
def ImportState.init {F : Type} : ImportState F :=
  { aMesh := Mesh.Clear, sources := [], indicesOffset := 0, vertexOffset := 0,
    texcoordOffset := 0, normalOffset := 0 }

/-- The statements that append the arrays of one `<triangles>` to the mesh. -/
def aggregate {F : Type} [Zero F] (st : ImportState F) (w : WeldState F) : ImportState F :=
  let indicesOff := st.indicesOffset
  let vertexOff := st.vertexOffset
  let normalOff := st.normalOffset
  let texcoordOff := st.texcoordOffset
  let indicesOffset := st.indicesOffset + w.indexVector.length
  let vertexOffset := st.vertexOffset + w.attrs.vertVector.length
  let normalOffset := st.normalOffset + w.attrs.normalVector.length
  let texcoordOffset := st.texcoordOffset + w.attrs.texcoordVector.length
  { st with
    indicesOffset := indicesOffset
    vertexOffset := vertexOffset
    normalOffset := normalOffset
    texcoordOffset := texcoordOffset
    aMesh :=
      { st.aMesh with
        mIndices := assignFrom (vectorResize st.aMesh.mIndices indicesOffset 0)
          indicesOff w.indexVector
        mVertices := assignFrom (vectorResize st.aMesh.mVertices vertexOffset ⟨0, 0, 0⟩)
          vertexOff w.attrs.vertVector
        mNormals := assignFrom (vectorResize st.aMesh.mNormals normalOffset ⟨0, 0, 0⟩)
          normalOff w.attrs.normalVector
        mTexCoords := assignFrom (vectorResize st.aMesh.mTexCoords texcoordOffset ⟨0, 0⟩)
          texcoordOff w.attrs.texcoordVector } }

/-- The body of the loop over the `<geometry>` elements. -/
def importGeometry {F : Type} [Zero F] (atof : List Char → F) (st : ImportState F)
    (elem : TiXmlNode) : Except Failure (ImportState F) :=
  match ToElement (elem.FirstChild "mesh") with
  | none => .ok st
  | some mesh => do
    let sources ← (elementsFrom "source" mesh.children).foldlM (readSource atof) st.sources
    let st := { st with sources := sources }
    let vertices ← readVertices mesh
    match ToElement (mesh.FirstChild "triangles") with
    | none => .ok st
    | some trianglesElem => do
      let (fl, inputs) ← ReadInputs trianglesElem
      let pArray ← ReadIndexArray (ToElement (trianglesElem.FirstChild "p")) []
      let w ← weld inputs pArray fl st.sources vertices
      readPolylist mesh
      pure (aggregate st w)

/-- The `<geometry>` elements that the outer loop of `Import_DAE` visits. -/
def geometryElements (doc : TiXmlDocument) : List TiXmlNode :=
  match doc.find? TiXmlNode.isElement with
  | none => []
  | some root =>
    match root.FirstChild "library_geometries" with
    | none => []
    | some lib => elementsFrom "geometry" lib.children

/-- `Import_DAE`.  The argument is the document that `doc.LoadFile()` has read, or
`none` when `LoadFile` returns false. -/
def Import_DAE {F : Type} [Zero F] (atof : List Char → F) (file : Option TiXmlDocument) :
    Except Failure (Mesh F) :=
  match file with
  | none => .error (.thrown "Could not open input file.")
  | some doc => do
    let st ← (geometryElements doc).foldlM (importGeometry atof) ImportState.init
    pure st.aMesh

/-! ## Notions used to state the properties of the importer -/

/-- The value that the nested cache `prevIndices` maps a triple to. -/
def lookup3 (prev : PrevIndices) (ix : Indexes) : Option Nat :=
  (mapFind prev ix.vertIndex).bind fun m1 =>
    (mapFind m1 ix.normalIndex).bind fun m2 => mapFind m2 ix.texcoordIndex

/-- The distinct elements of a list (the distinct triples of a list of corners), in the
order of their first occurrence. -/
def firsts {α : Type} [DecidableEq α] (cs : List α) : List α :=
  cs.foldl (fun ds c => if c ∈ ds then ds else ds ++ [c]) []

/-- The triples of the corners that the welding loop decodes from position `i` on, one
per iteration, in stream order. -/
def cornersLoop (inputs : List Input) (pArray : List Nat) :
    Nat → Nat → Except Failure (List Indexes)
  | 0, i => if i < pArray.length then .error .nonterminating else .ok []
  | fuel + 1, i =>
    if i < pArray.length then do
      let ix ← decodeTuple pArray i inputs ⟨0, 0, 0⟩
      let rest ← cornersLoop inputs pArray fuel (i + inputs.length)
      pure (ix :: rest)
    else .ok []

/-- The triples of all corners of an index stream. -/
def corners (inputs : List Input) (pArray : List Nat) : Except Failure (List Indexes) :=
  cornersLoop inputs pArray pArray.length 0

/-- The 3-vector that `InsertVertNormalTexcoord` reads for element `k` of the source
that `name` resolves to. -/
def fetchVector3 {F : Type} [Zero F] (sources : List (String × Source F))
    (vertices : List (String × List Input)) (name : String) (k : Nat) :
    Except Failure (Vector3 F) := do
  let src ← GetSource sources vertices name
  let x ← component src k 0
  let y ← component src k 1
  let z ← component src k 2
  pure ⟨x, y, z⟩

/-- The 2-vector that `InsertVertNormalTexcoord` reads for element `k` of the source
that `name` resolves to. -/
def fetchVector2 {F : Type} [Zero F] (sources : List (String × Source F))
    (vertices : List (String × List Input)) (name : String) (k : Nat) :
    Except Failure (Vector2 F) := do
  let src ← GetSource sources vertices name
  let s ← component src k 0
  let t ← component src k 1
  pure ⟨s, t⟩

/-- The `<triangles>` element that `Import_DAE` welds for a `<geometry>` element. -/
def trianglesOf (elem : TiXmlNode) : Option TiXmlNode :=
  (ToElement (elem.FirstChild "mesh")).bind fun mesh =>
    ToElement (mesh.FirstChild "triangles")

/-- The `<triangles>` elements that `Import_DAE` welds, in document order. -/
def trianglesOfDocument (doc : TiXmlDocument) : List TiXmlNode :=
  (geometryElements doc).filterMap trianglesOf

/-- Whether a primitives element has an `<input>` that `ReadInputs` visits and whose
semantic attribute is `sem`. -/
def declares (sem : String) (prim : TiXmlNode) : Bool :=
  (elementsFrom "input" prim.children).any fun e =>
    decide (e.Value = "input") && decide (e.Attribute "semantic" = some sem)

/-- The triples of the corners of a `<triangles>` element: its inputs and its index
array, read as `Import_DAE` reads them, and decoded. -/
def trianglesCorners (tri : TiXmlNode) : Except Failure (List Indexes) := do
  let (_, inputs) ← ReadInputs tri
  let pArray ← ReadIndexArray (ToElement (tri.FirstChild "p")) []
  corners inputs pArray

/-- The attribute arrays hold, for each distinct triple in `ds` and in that order, the
values that `InsertVertNormalTexcoord` fetches for it; an attribute that is absent has an
empty array. -/
def AttrsMatch {F : Type} [Zero F] (fl : Flags) (sources : List (String × Source F))
    (vertices : List (String × List Input)) (ds : List Indexes) (a : Attributes F) : Prop :=
  (if fl.hasVerts then
      List.Forall₂ (fun c p => fetchVector3 sources vertices fl.vertSource c.vertIndex = .ok p)
        ds a.vertVector
    else a.vertVector = []) ∧
  (if fl.hasNormals then
      List.Forall₂
        (fun c p => fetchVector3 sources vertices fl.normalSource c.normalIndex = .ok p)
        ds a.normalVector
    else a.normalVector = []) ∧
  (if fl.hasTexcoords then
      List.Forall₂
        (fun c p => fetchVector2 sources vertices fl.texcoordSource c.texcoordIndex = .ok p)
        ds a.texcoordVector
    else a.texcoordVector = [])

/-- The state of the welding loop after the corners `cs`: the counter is the number of
distinct triples, each corner got the rank of its triple among the distinct triples in
first-occurrence order, the cache maps exactly the triples seen to their ranks, and the
attribute arrays hold one entry per distinct triple. -/
def WeldInv {F : Type} [Zero F] (fl : Flags) (sources : List (String × Source F))
    (vertices : List (String × List Input)) (cs : List Indexes) (st : WeldState F) : Prop :=
  st.index = (firsts cs).length ∧
  st.indexVector = cs.map (fun c => (firsts cs).indexOf c) ∧
  (∀ t, lookup3 st.prevIndices t
      = if t ∈ firsts cs then some ((firsts cs).indexOf t) else none) ∧
  AttrsMatch fl sources vertices (firsts cs) st.attrs

/-! ## Concrete data: the index stream of two triangles that share an edge -/

/-- Inputs VERTEX at offset 0 and NORMAL at offset 1. -/
def exInputs : List Input := [⟨"V", .VERTEX, 0⟩, ⟨"N", .NORMAL, 1⟩]
/-- The index stream of two triangles sharing an edge. -/
def exStream : List Nat := [0, 0, 1, 0, 2, 0, 2, 0, 1, 0, 3, 0]
/-- The flags that go with `exInputs`. -/
def exFlags : Flags := ⟨true, true, false, "V", "N", ""⟩
/-- A position source of four points and a normal source of one normal. -/
def exSources : List (String × Source Int) :=
  [("P", { array := [0, 0, 0, 1, 0, 0, 0, 1, 0, 1, 1, 0], stride := 3, count := 4, offset := 0,
           params := [] }),
   ("N", { array := [0, 0, 1], stride := 3, count := 1, offset := 0, params := [] })]
/-- The `<vertices>` element `V`, which names the position source. -/
def exVertices : List (String × List Input) := [("V", [⟨"P", .UNKNOWN, 0⟩])]
/-- The state of the welding loop at its end on this stream. -/
def exWelded : WeldState Int :=
  { indexVector := [0, 1, 2, 2, 1, 3],
    attrs :=
      { vertVector := [⟨0, 0, 0⟩, ⟨1, 0, 0⟩, ⟨0, 1, 0⟩, ⟨1, 1, 0⟩],
        normalVector := [⟨0, 0, 1⟩, ⟨0, 0, 1⟩, ⟨0, 0, 1⟩, ⟨0, 0, 1⟩],
        texcoordVector := [] },
    prevIndices := [(0, [(0, [(0, 0)])]), (1, [(0, [(0, 1)])]), (2, [(0, [(0, 2)])]),
      (3, [(0, [(0, 3)])])],
    index := 4 }

/-- The offsets of `Import_DAE` equal the sizes of the arrays of the mesh. -/
def OffsetsOk {F : Type} (st : ImportState F) : Prop :=
  st.indicesOffset = st.aMesh.mIndices.length ∧
  st.vertexOffset = st.aMesh.mVertices.length ∧
  st.normalOffset = st.aMesh.mNormals.length ∧
  st.texcoordOffset = st.aMesh.mTexCoords.length

/-- The `<triangles>` element `tri` is welded to `w` under the flags `fl`: its inputs and
its index array are read, and the welding loop, run on them with some source table and
some `<vertices>` map, ends in `w`. -/
def Welded {F : Type} [Zero F] (tri : TiXmlNode) (fl : Flags) (w : WeldState F) : Prop :=
  ∃ inputs pArray sources vertices,
    ReadInputs tri = .ok (fl, inputs) ∧
    ReadIndexArray (ToElement (tri.FirstChild "p")) [] = .ok pArray ∧
    weld inputs pArray fl sources vertices = .ok w

/-! ## Concrete documents -/

/-- The conversion of the text of a float used in the concrete documents, whose floats
are whole numbers: the value that `atoi` reads. -/
def atofInt (val : List Char) : Int :=
  match atoi val with
  | .ok v => v
  | .error _ => 0

/-- A `<source>` element with a `<float_array>` and an accessor of the given stride and
count, without an offset attribute. -/
def sourceElement (id text stride count : String) : TiXmlNode :=
  .element "source" [("id", id)]
    [.element "float_array" [] [.text text],
     .element "technique_common" []
       [.element "accessor" [("stride", stride), ("count", count)] []]]

/-- An `<input>` element of a primitives element. -/
def inputElement (semantic source offset : String) : TiXmlNode :=
  .element "input" [("semantic", semantic), ("source", source), ("offset", offset)] []

/-- A `<vertices>` element with one input of semantic POSITION. -/
def verticesElement (id source : String) : TiXmlNode :=
  .element "vertices" [("id", id)]
    [.element "input" [("semantic", "POSITION"), ("source", source)] []]

/-- A `<triangles>` element with the given inputs and the text of its `<p>`. -/
def trianglesElement (inputs : List TiXmlNode) (p : String) : TiXmlNode :=
  .element "triangles" [] (inputs ++ [.element "p" [] [.text p]])

/-- A COLLADA document with one `<geometry>` per list of `<mesh>` children. -/
def colladaDocument (meshes : List (List TiXmlNode)) : TiXmlDocument :=
  [.other "xml",
   .element "COLLADA" []
     [.element "library_geometries" []
        (meshes.map fun m => .element "geometry" [] [.element "mesh" [] m])]]

/-- One triangle with positions only (scenario S1). -/
def docTriangle : TiXmlDocument :=
  colladaDocument
    [[sourceElement "P" "0 0 0 1 0 0 0 1 0" "3" "3", verticesElement "V" "#P",
      trianglesElement [inputElement "VERTEX" "#V" "0"] "0 1 2"]]

/-- One triangle with one shared normal (scenario S2). -/
def docTriangleNormal : TiXmlDocument :=
  colladaDocument
    [[sourceElement "P" "0 0 0 1 0 0 0 1 0" "3" "3", sourceElement "N" "0 0 1" "3" "1",
      verticesElement "V" "#P",
      trianglesElement [inputElement "VERTEX" "#V" "0", inputElement "NORMAL" "#N" "1"]
        "0 0 1 0 2 0"]]

/-- A `<triangles>` element whose only input has semantic NORMAL. -/
def docNoVertexInput : TiXmlDocument :=
  colladaDocument
    [[sourceElement "N" "0 0 1" "3" "1",
      trianglesElement [inputElement "NORMAL" "#N" "0"] "0 0 0"]]

/-- Two geometries: the triangles of the first declare VERTEX and NORMAL, those of the
second declare VERTEX only. -/
def docMixedInputs : TiXmlDocument :=
  colladaDocument
    [[sourceElement "P" "0 0 0 1 0 0 0 1 0" "3" "3", sourceElement "N" "0 0 1" "3" "1",
      verticesElement "V" "#P",
      trianglesElement [inputElement "VERTEX" "#V" "0", inputElement "NORMAL" "#N" "1"]
        "0 0 1 0 2 0"],
     [sourceElement "Q" "5 5 5 6 6 6 7 7 7" "3" "3", verticesElement "W" "#Q",
      trianglesElement [inputElement "VERTEX" "#W" "0"] "0 1 2"]]

/-- Two geometries of one triangle each, with the same index stream `0 1 2`. -/
def docTwoGeometries : TiXmlDocument :=
  colladaDocument
    [[sourceElement "P" "0 0 0 1 0 0 0 1 0" "3" "3", verticesElement "V" "#P",
      trianglesElement [inputElement "VERTEX" "#V" "0"] "0 1 2"],
     [sourceElement "Q" "5 5 5 6 6 6 7 7 7" "3" "3", verticesElement "W" "#Q",
      trianglesElement [inputElement "VERTEX" "#W" "0"] "0 1 2"]]

/-- Two geometries; the input of the triangles of the second has the semantic POSITION,
which `ToSemantic` does not know. -/
def docSecondWithoutVertex : TiXmlDocument :=
  colladaDocument
    [[sourceElement "P" "0 0 0 1 0 0 0 1 0" "3" "3", verticesElement "V" "#P",
      trianglesElement [inputElement "VERTEX" "#V" "0"] "0 1 2"],
     [sourceElement "Q" "5 5 5 6 6 6 7 7 7" "3" "3",
      trianglesElement [inputElement "POSITION" "#Q" "0"] "0 1 2"]]

/-- The document of scenario S1 with the accessor stride `0`. -/
def docStrideZero : TiXmlDocument :=
  colladaDocument
    [[sourceElement "P" "0 0 0 1 0 0 0 1 0" "0" "3", verticesElement "V" "#P",
      trianglesElement [inputElement "VERTEX" "#V" "0"] "0 1 2"]]

/-! ## `Export_DAE` -/

/-- The decimal digits of `n`, most significant first, put before `acc`. -/
def utoa.go : Nat → Nat → List Char → List Char
  | 0, _, acc => acc
  | fuel + 1, n, acc =>
    if n < 10 then Char.ofNat (48 + n) :: acc
    else utoa.go fuel (n / 10) (Char.ofNat (48 + n % 10) :: acc)

/-- The text of an unsigned number, as `operator<<` and `%u` write it. -/
def utoa (n : Nat) : List Char := utoa.go (n + 1) n []

/-- The text of an `int`, as `%d` writes it. -/
def itoa (v : Int) : List Char :=
  if v < 0 then '-' :: utoa v.natAbs else utoa v.toNat

/-- Conversion of a `size_t` to `int`. -/
def toInt (n : Nat) : Int :=
  ((n : Int) + 2 ^ 31) % 2 ^ 32 - 2 ^ 31

/-- `elem->SetAttribute(name, int)`: the attribute with the text of the number. -/
def intAttribute (name : String) (v : Int) : String × String :=
  (name, String.mk (itoa v))

/-- The floats of an array of `Vector3`, one after the other. -/
def floats3 {F : Type} (vs : List (Vector3 F)) : List F :=
  vs.flatMap fun v => [v.x, v.y, v.z]

/-- The floats of an array of `Vector2`, one after the other. -/
def floats2 {F : Type} (vs : List (Vector2 F)) : List F :=
  vs.flatMap fun v => [v.u, v.v]

/-- `FloatArrayToXML`: the text node with the first `aCount` floats of `aArray`, each
followed by a blank.  `aCount` is an `unsigned int`. -/
def FloatArrayToXML {F : Type} (ftoa : F → List Char) (aArray : List F) (aCount : Nat) :
    TiXmlNode :=
  .text (String.mk ((aArray.take (aCount % 2 ^ 32)).flatMap fun x => ftoa x ++ [' ']))

/-- A `<param>` element of an accessor. -/
def paramElement (name : String) : TiXmlNode :=
  .element "param" [("name", name), ("type", "float")] []

/-- The `<source>` element that `Export_DAE` writes for one attribute array. -/
def exportSource {F : Type} (ftoa : F → List Char) (id name : String) (arrayCount : Nat)
    (aArray : List F) (aCount : Nat) (accessorCount : Nat) (stride : Int)
    (params : List String) : TiXmlNode :=
  .element "source" [("id", id), ("name", name)]
    [.element "float_array"
       [("id", id ++ "-array"), intAttribute "count" (toInt arrayCount)]
       [FloatArrayToXML ftoa aArray aCount],
     .element "technique_common" []
       [.element "accessor"
          [intAttribute "count" (toInt accessorCount), intAttribute "offset" 0,
           ("source", "#" ++ id ++ "-array"), intAttribute "stride" stride]
          (params.map paramElement)]]

/-- The loop that writes the text of `<p>` to the stream `ss`, given `fuel` iterations
of the outer loop:
`for (unsigned int i = 0; i < aMesh.mIndices.size(); ++ i)
   for (int j = 0; j < triangleInputCount; ++ j) ss << aMesh.mIndices[i] << " ";`.
The counter `i` is an `unsigned int` and is compared with a `size_t`: `++ i` takes
`2^32 - 1` to 0. -/
def exportPLoop (mIndices : List Nat) (triangleInputCount : Nat) :
    Nat → Nat → List Char → Except Failure (List Char)
  | 0, i, ss => if i < mIndices.length then .error .nonterminating else .ok ss
  | fuel + 1, i, ss =>
    if i < mIndices.length then do
      let v ← vectorAt mIndices i
      exportPLoop mIndices triangleInputCount fuel ((i + 1) % 2 ^ 32)
        (ss ++ (List.replicate triangleInputCount (utoa v ++ [' '])).flatten)
    else .ok ss

/-- The text node of the `<p>` element: the stream of the whole loop.  A loop that ends
has made one iteration per index, so `mIndices.size()` iterations are enough fuel; a loop
that has not ended by then never ends (`exportPLoop_never_ends`). -/
def exportP (mIndices : List Nat) (triangleInputCount : Nat) : Except Failure TiXmlNode := do
  let ss ← exportPLoop mIndices triangleInputCount mIndices.length 0 []
  pure (.text (String.mk ss))

/-- `Export_DAE`: the document `xmlDoc` that is handed to `SaveFile`; writing the file is
the work of the XML library.  Taking the address of element 0 of an empty vector
(`&aMesh.mVertices[0].x`) is `operator[]` beyond its size.  The loop that writes the text
of `<p>` does not end for an index array of `2^32` or more elements, and then `SaveFile`
is never reached. -/
def Export_DAE {F : Type} (ftoa : F → List Char) (aMesh : Mesh F) :
    Except Failure TiXmlDocument :=
  if aMesh.mVertices.length = 0 then .error .outOfRange
  else do
    let n := aMesh.mVertices.length
    let asset : TiXmlNode :=
      .element "asset" []
        [.element "contributor" []
           [.element "authoring_tool" [] [.text "ctmconv"],
            .element "comments" [] [.text aMesh.mComment]],
         .element "up_axis" [] [.text "Z_UP"]]
    let source_position :=
      exportSource ftoa "Mesh-1-positions" "position" (n * 3) (floats3 aMesh.mVertices) (n * 3)
        n 3 ["X", "Y", "Z"]
    let hasNormals : Bool := aMesh.mNormals.length = n
    let source_normal :=
      exportSource ftoa "Mesh-1-normals" "normal" (n * 3) (floats3 aMesh.mNormals)
        (aMesh.mNormals.length * 3) n 3 ["X", "Y", "Z"]
    let hasTexCoords : Bool := aMesh.mTexCoords.length = n
    let source_map1 :=
      exportSource ftoa "Mesh-1-map1" "map1" (n * 3) (floats2 aMesh.mTexCoords)
        (aMesh.mTexCoords.length * 2) n 2 ["S", "T"]
    let vertices : TiXmlNode :=
      .element "vertices" [("id", "Mesh-1-vertices")]
        [.element "input" [("semantic", "POSITION"), ("source", "#Mesh-1-positions")] []]
    let triangleInputCount : Nat :=
      1 + (if hasNormals then 1 else 0) + (if hasTexCoords then 1 else 0)
    let p ← exportP aMesh.mIndices triangleInputCount
    let triangles : TiXmlNode :=
      .element "triangles" [intAttribute "count" (toInt (aMesh.mIndices.length / 3))]
        ([.element "input"
            [intAttribute "offset" 0, ("semantic", "VERTEX"), ("source", "#Mesh-1-vertices")] []]
          ++ (if hasNormals then
                [.element "input"
                   [intAttribute "offset" 1, ("semantic", "NORMAL"),
                    ("source", "#Mesh-1-normals")] []]
              else [])
          ++ (if hasTexCoords then
                [.element "input"
                   [intAttribute "offset" (if hasNormals then 2 else 1),
                    ("semantic", "TEXCOORD"), ("source", "#Mesh-1-map1"),
                    intAttribute "set" 0] []]
              else [])
          ++ [.element "p" [] [p]])
    let mesh : TiXmlNode :=
      .element "mesh" []
        ([source_position] ++ (if hasNormals then [source_normal] else [])
          ++ (if hasTexCoords then [source_map1] else []) ++ [vertices, triangles])
    pure
      [.other "",
       .element "COLLADA"
         [("xmlns", "http://www.collada.org/2005/11/COLLADASchema"), ("version", "1.4.1")]
         [asset,
          .element "library_geometries" []
            [.element "geometry" [("id", "Mesh-1"), ("name", "Mesh-1")] [mesh]]]]

/-! ## The file between `Export_DAE` and `Import_DAE` -/

/-- The maximal runs of characters that are no white space, in order; `cur` holds the
run that is being read, last character first. -/
def words.go : List Char → List Char → List (List Char)
  | [], cur => if cur.isEmpty then [] else [cur.reverse]
  | c :: cs, cur =>
    if isspace c then
      if cur.isEmpty then words.go cs [] else cur.reverse :: words.go cs []
    else words.go cs (c :: cur)

/-- The white-space-separated tokens of a text. -/
def words (s : List Char) : List (List Char) := words.go s []

/-- Modelled from the spec: the text of an element as the XML library delivers it after
the file is read, which is code outside `dae.cpp`: the white-space-separated tokens of the
text that was written (§4.1), with one blank between two tokens and no white space before
the first or after the last. -/
def condenseWhiteSpace (s : String) : String :=
  String.mk (List.intercalate [' '] (words s.data))

mutual
/-- Modelled from the spec: a node as it is read back from the file that `SaveFile`
wrote, which is the work of the XML library: an element keeps its name and attributes,
a text keeps its tokens, and a text without a token yields no node. -/
def reloadNode : TiXmlNode → List TiXmlNode
  | .element v as cs => [.element v as (reloadNodes cs)]
  | .text v => if (words v.data).isEmpty then [] else [.text (condenseWhiteSpace v)]
  | .other v => [.other v]
/-- Modelled from the spec: the child nodes as they are read back from the file. -/
def reloadNodes : List TiXmlNode → List TiXmlNode
  | [] => []
  | c :: cs => reloadNode c ++ reloadNodes cs
end

/-- `Export_DAE` to a file followed by `Import_DAE` from that file. -/
def exportThenImport {F : Type} [Zero F] (ftoa : F → List Char) (atof : List Char → F)
    (aMesh : Mesh F) : Except Failure (Mesh F) := do
  let doc ← Export_DAE ftoa aMesh
  Import_DAE atof (some (reloadNodes doc))

/-! ## Concrete meshes -/

/-- The floats of the concrete meshes: the whole numbers from 0 to 999. -/
abbrev Small := Fin 1000

/-- The text of a float of the concrete meshes: its decimal digits. -/
def ftoaSmall (x : Small) : List Char := utoa x.val

/-- The float that the text of a whole number stands for, in the concrete meshes. -/
def atofSmall (val : List Char) : Small :=
  match atoi val with
  | .ok v => Fin.ofNat v.toNat
  | .error _ => 0

/-- The mesh of scenario S5: one triangle with three normals. -/
def meshS5 : Mesh Small :=
  { mIndices := [0, 1, 2], mVertices := [⟨0, 0, 0⟩, ⟨1, 0, 0⟩, ⟨0, 1, 0⟩],
    mNormals := [⟨0, 0, 1⟩, ⟨0, 0, 1⟩, ⟨0, 0, 1⟩], mTexCoords := [], mComment := "" }

/-- One triangle with normals and texture coordinates. -/
def meshTextured : Mesh Small :=
  { mIndices := [0, 1, 2], mVertices := [⟨0, 0, 0⟩, ⟨1, 0, 0⟩, ⟨0, 1, 0⟩],
    mNormals := [⟨0, 0, 1⟩, ⟨0, 0, 1⟩, ⟨0, 0, 1⟩], mTexCoords := [⟨0, 0⟩, ⟨1, 0⟩, ⟨0, 1⟩],
    mComment := "" }

/-- One triangle and a fourth vertex that no index refers to. -/
def meshUnreferenced : Mesh Small :=
  { mIndices := [0, 1, 2], mVertices := [⟨0, 0, 0⟩, ⟨1, 0, 0⟩, ⟨0, 1, 0⟩, ⟨5, 5, 5⟩],
    mNormals := [⟨0, 0, 1⟩, ⟨0, 0, 1⟩, ⟨0, 0, 1⟩, ⟨0, 0, 1⟩],
    mTexCoords := [⟨0, 0⟩, ⟨1, 0⟩, ⟨0, 1⟩, ⟨1, 1⟩], mComment := "" }

/-- The triangle of scenario S5 with its corners in the order 2, 1, 0. -/
def meshReversed : Mesh Small :=
  { mIndices := [2, 1, 0], mVertices := [⟨0, 0, 0⟩, ⟨1, 0, 0⟩, ⟨0, 1, 0⟩],
    mNormals := [⟨0, 0, 1⟩, ⟨0, 0, 1⟩, ⟨0, 0, 1⟩], mTexCoords := [], mComment := "" }

/-! ## Notions used to state the properties of the exporter followed by the importer -/

/-- A text that `operator>>` reads as one token into `char val[100]`: not empty, without
white space, and shorter than 100 characters. -/
def TokenOk (t : List Char) : Prop :=
  t ≠ [] ∧ (∀ c ∈ t, isspace c = false) ∧ t.length < 100

/-- The `<source>` element of `Export_DAE` as it is read back from the file: the text of
its `<float_array>` is the list of the texts of the floats, separated by blanks. -/
def reloadedSource {F : Type} (ftoa : F → List Char) (id name : String) (arrayCount : Nat)
    (aArray : List F) (aCount : Nat) (accessorCount : Nat) (stride : Int)
    (params : List String) : TiXmlNode :=
  .element "source" [("id", id), ("name", name)]
    [.element "float_array"
       [("id", id ++ "-array"), intAttribute "count" (toInt arrayCount)]
       [.text (String.mk (List.intercalate [' '] ((aArray.take (aCount % 2 ^ 32)).map ftoa)))],
     .element "technique_common" []
       [.element "accessor"
          [intAttribute "count" (toInt accessorCount), intAttribute "offset" 0,
           ("source", "#" ++ id ++ "-array"), intAttribute "stride" stride]
          (params.map paramElement)]]

/-- The text node of `<p>` that `exportP` returns when its loop ends: every index,
`triangleInputCount` times, each followed by a blank. -/
def exportedP (mIndices : List Nat) (triangleInputCount : Nat) : TiXmlNode :=
  .text (String.mk
    (mIndices.flatMap fun v => (List.replicate triangleInputCount (utoa v ++ [' '])).flatten))

/-- The index stream that `Export_DAE` writes: every index, once per input. -/
def exportedStream (mIndices : List Nat) (triangleInputCount : Nat) : List Nat :=
  mIndices.flatMap fun v => List.replicate triangleInputCount v

/-- The inputs that `ReadInputs` returns for the `<triangles>` element that `Export_DAE`
writes for a mesh with normals, with or without texture coordinates. -/
def exportedInputs (hasTexCoords : Bool) : List Input :=
  [⟨"Mesh-1-vertices", .VERTEX, 0⟩, ⟨"Mesh-1-normals", .NORMAL, 1⟩]
    ++ (if hasTexCoords then [⟨"Mesh-1-map1", .TEXCOORD, 2⟩] else [])

/-- The flags that `ReadInputs` returns with `exportedInputs`. -/
def exportedFlags (hasTexCoords : Bool) : Flags :=
  { hasVerts := true, hasNormals := true, hasTexcoords := hasTexCoords,
    vertSource := "Mesh-1-vertices", normalSource := "Mesh-1-normals",
    texcoordSource := if hasTexCoords then "Mesh-1-map1" else "" }

/-- The triple of a corner that `Export_DAE` writes for the index `v`. -/
def exportedTriple (hasTexCoords : Bool) (v : Nat) : Indexes :=
  ⟨v, v, if hasTexCoords then v else 0⟩

/-- The `<vertices>` map that `Import_DAE` reads from the exported document. -/
def exportedVertices : List (String × List Input) :=
  [("Mesh-1-vertices", [⟨"Mesh-1-positions", .UNKNOWN, 0⟩])]

/-- A 3-vector with `g` applied to its components. -/
def Vector3.map {F : Type} (g : F → F) (v : Vector3 F) : Vector3 F := ⟨g v.x, g v.y, g v.z⟩

/-- A 2-vector with `g` applied to its components. -/
def Vector2.map {F : Type} (g : F → F) (v : Vector2 F) : Vector2 F := ⟨g v.u, g v.v⟩

/-- The source table that `Import_DAE` reads from the exported document of a mesh with
normals; `g` is the conversion of a float to text and back. -/
def exportedSources {F : Type} (g : F → F) (aMesh : Mesh F) (hasTexCoords : Bool) :
    List (String × Source F) :=
  [("Mesh-1-positions",
      { array := (floats3 aMesh.mVertices).map g, stride := 3,
        count := aMesh.mVertices.length, offset := 0, params := [] }),
   ("Mesh-1-normals",
      { array := (floats3 aMesh.mNormals).map g, stride := 3,
        count := aMesh.mVertices.length, offset := 0, params := [] })]
    ++ (if hasTexCoords then
          [("Mesh-1-map1",
              { array := (floats2 aMesh.mTexCoords).map g, stride := 2,
                count := aMesh.mVertices.length, offset := 0, params := [] })]
        else [])

/-- The `<triangles>` element that `Export_DAE` writes for a mesh with normals, as it is
read back from the file: the text of `<p>` is the index stream, separated by blanks. -/
def reloadedTriangles (mIndices : List Nat) (hasTexCoords : Bool) : TiXmlNode :=
  .element "triangles" [intAttribute "count" (toInt (mIndices.length / 3))]
    ([.element "input"
        [intAttribute "offset" 0, ("semantic", "VERTEX"), ("source", "#Mesh-1-vertices")] [],
      .element "input"
        [intAttribute "offset" 1, ("semantic", "NORMAL"), ("source", "#Mesh-1-normals")] []]
      ++ (if hasTexCoords then
            [.element "input"
               [intAttribute "offset" 2, ("semantic", "TEXCOORD"), ("source", "#Mesh-1-map1"),
                intAttribute "set" 0] []]
          else [])
      ++ [.element "p" []
            [.text (String.mk (List.intercalate [' ']
              ((exportedStream mIndices (if hasTexCoords then 3 else 2)).map utoa)))]])

/-- The `<mesh>` element that `Export_DAE` writes for a mesh with normals, as it is read
back from the file. -/
def reloadedMesh {F : Type} (ftoa : F → List Char) (aMesh : Mesh F) (hasTexCoords : Bool) :
    TiXmlNode :=
  .element "mesh" []
    ([reloadedSource ftoa "Mesh-1-positions" "position" (aMesh.mVertices.length * 3)
        (floats3 aMesh.mVertices) (aMesh.mVertices.length * 3) aMesh.mVertices.length 3
        ["X", "Y", "Z"],
      reloadedSource ftoa "Mesh-1-normals" "normal" (aMesh.mVertices.length * 3)
        (floats3 aMesh.mNormals) (aMesh.mNormals.length * 3) aMesh.mVertices.length 3
        ["X", "Y", "Z"]]
      ++ (if hasTexCoords then
            [reloadedSource ftoa "Mesh-1-map1" "map1" (aMesh.mVertices.length * 3)
              (floats2 aMesh.mTexCoords) (aMesh.mTexCoords.length * 2) aMesh.mVertices.length 2
              ["S", "T"]]
          else [])
      ++ [.element "vertices" [("id", "Mesh-1-vertices")]
            [.element "input" [("semantic", "POSITION"), ("source", "#Mesh-1-positions")] []],
          reloadedTriangles aMesh.mIndices hasTexCoords])

/-! ## Notions used to state the properties of the reading loop -/

/-- Whether a text is empty or ends in white space. -/
def endsInSpace (s : List Char) : Bool :=
  match s.getLast? with
  | some c => isspace c
  | none => true

/-! ## Notions used to state the properties of the exporter -/

/-- The `<input>` children of a primitives element, in document order. -/
def inputChildren (prim : TiXmlNode) : List TiXmlNode :=
  prim.children.filter fun c => c.isElement && decide (c.Value = "input")

/-- The semantic, source and offset attributes of the `<input>` children of a primitives
element, in document order. -/
def declaredInputs (prim : TiXmlNode) : List (Option String × Option String × Option String) :=
  (inputChildren prim).map fun e =>
    (e.Attribute "semantic", e.Attribute "source", e.Attribute "offset")

/-- The text of the `<p>` child of a primitives element. -/
def pText (prim : TiXmlNode) : Option String :=
  (ToElement (prim.FirstChild "p")).bind TiXmlNode.GetText

/-- One triangle with texture coordinates and without normals. -/
def meshTexturedOnly : Mesh Small :=
  { mIndices := [0, 1, 2], mVertices := [⟨0, 0, 0⟩, ⟨1, 0, 0⟩, ⟨0, 1, 0⟩],
    mNormals := [], mTexCoords := [⟨0, 0⟩, ⟨1, 0⟩, ⟨0, 1⟩], mComment := "" }

/-! ## The welding loop, iteration by iteration -/

/-- The state of the welding loop after at most `n` iterations; iteration `n` (counted
from 0) starts at `i = n * inputs.size()` and runs when `i < pArray.size()`. -/
def weldPrefix {F : Type} [Zero F] (inputs : List Input) (pArray : List Nat) (fl : Flags)
    (sources : List (String × Source F)) (vertices : List (String × List Input)) :
    Nat → Except Failure (WeldState F)
  | 0 => .ok WeldState.init
  | n + 1 => do
    let st ← weldPrefix inputs pArray fl sources vertices n
    if n * inputs.length < pArray.length then do
      let ix ← decodeTuple pArray (n * inputs.length) inputs ⟨0, 0, 0⟩
      weldStep fl sources vertices st ix
    else pure st

/-- Inputs with a NORMAL input only. -/
def exNormalOnlyInputs : List Input := [⟨"N", .NORMAL, 0⟩]
/-- The flags that go with `exNormalOnlyInputs`. -/
def exNormalOnlyFlags : Flags := ⟨false, true, false, "", "N", ""⟩
/-- A normal source of two normals. -/
def exNormalOnlySources : List (String × Source Int) :=
  [("N", { array := [0, 0, 1, 0, 1, 0], stride := 3, count := 2, offset := 0, params := [] })]

/-! ## The accessor semantics of the specification -/

/-- The accessor semantics of the specification (§3): reading component `c` of element `k`
of a source returns `values[offset + k*stride + c]` when `c < stride`, else zero. -/
def accessorRead {F : Type} [Zero F] (src : Source F) (k c : Nat) : F :=
  if c < src.stride then src.array.getD (src.offset + k * src.stride + c) 0 else 0

/-- The reads of the components below `n` of element `k` of a source stay within its
array, whose size is a `size_t`. -/
def accessorInBounds {F : Type} (src : Source F) (k n : Nat) : Bool :=
  decide (src.array.length ≤ SIZE_MODULUS) &&
  (List.range n).all fun c =>
    decide (c < src.stride → src.offset + k * src.stride + c < src.array.length)

/-- The document of scenario S4: texture coordinates of stride 2. -/
def docStrideTwoTexcoords : TiXmlDocument :=
  colladaDocument
    [[sourceElement "P" "0 0 0 1 0 0 0 1 0" "3" "3", sourceElement "N" "0 0 1" "3" "1",
      sourceElement "T" "0 0 1 0 0 1" "2" "3", verticesElement "V" "#P",
      trianglesElement
        [inputElement "VERTEX" "#V" "0", inputElement "NORMAL" "#N" "1",
         inputElement "TEXCOORD" "#T" "2"]
        "0 0 0 1 0 1 2 0 2"]]

/-- The source table of scenario S4. -/
def exTexSources : List (String × Source Int) :=
  [("P", { array := [0, 0, 0, 1, 0, 0, 0, 1, 0], stride := 3, count := 3, offset := 0,
           params := [] }),
   ("N", { array := [0, 0, 1], stride := 3, count := 1, offset := 0, params := [] }),
   ("T", { array := [0, 0, 1, 0, 0, 1], stride := 2, count := 3, offset := 0, params := [] })]

/-! ## Notions used to state the properties of the source table -/

/-- The record of the specification (§4.4) for one `<input>` element: the source
attribute without its first character, the offset attribute as a number and the semantic
attribute as a semantic. -/
def inputRecord (e : TiXmlNode) : Except Failure Input := do
  let source ← sourceName e
  let offset ← atoi (← deref (e.Attribute "offset")).data
  let semantic ← deref (e.Attribute "semantic")
  pure { source := source, semantic := ToSemantic semantic, offset := toSizeT offset }

/-- Whether a semantic is one of VERTEX, NORMAL and TEXCOORD. -/
def drives (sem : Semantic) : Bool :=
  sem = .VERTEX || sem = .NORMAL || sem = .TEXCOORD

/-- The source of the last input of the semantic `sem`, and the empty name when there is
none. -/
def lastSource (sem : Semantic) (inputs : List Input) : String :=
  match (inputs.filter fun j => j.semantic = sem).getLast? with
  | some j => j.source
  | none => ""

/-- The presence flags and source names that a list of inputs stands for: an attribute
is present when an input has its semantic, and its source is that of the last such
input. -/
def flagsOf (inputs : List Input) : Flags :=
  { hasVerts := inputs.any fun j => j.semantic = .VERTEX
    hasNormals := inputs.any fun j => j.semantic = .NORMAL
    hasTexcoords := inputs.any fun j => j.semantic = .TEXCOORD
    vertSource := lastSource .VERTEX inputs
    normalSource := lastSource .NORMAL inputs
    texcoordSource := lastSource .TEXCOORD inputs }

/-! ## Notions used to state the properties of the `<polylist>` block -/

/-- A node with `f` applied to each of its child nodes. -/
def mapChildren (f : TiXmlNode → TiXmlNode) : TiXmlNode → TiXmlNode
  | .element v as cs => .element v as (cs.map f)
  | n => n

/-- A `<mesh>` element without its child nodes named `polylist`. -/
def removePolylist : TiXmlNode → TiXmlNode
  | .element v as cs => .element v as (cs.filter fun c => decide (c.Value ≠ "polylist"))
  | n => n

/-- A `<geometry>` element whose `<mesh>` children are without `<polylist>`. -/
def removePolylistGeometry (geom : TiXmlNode) : TiXmlNode :=
  mapChildren (fun c => if c.Value = "mesh" then removePolylist c else c) geom

/-- A document with the `<polylist>` elements of all meshes removed. -/
def removePolylists (doc : TiXmlDocument) : TiXmlDocument :=
  doc.map (mapChildren fun lib =>
    if lib.Value = "library_geometries" then mapChildren removePolylistGeometry lib else lib)

/-- A well-formed `<polylist>`: its `<vcount>`, its `<p>` and its inputs are read, `<p>`
has `sum(vcount) * k` entries for the `k` inputs, whose offsets are below `k`; the number
of entries is a `size_t`. -/
def WellFormedPolylist (poly : TiXmlNode) : Bool :=
  match ReadIndexArray (ToElement (poly.FirstChild "vcount")) [],
    ReadIndexArray (ToElement (poly.FirstChild "p")) [], ReadInputs poly with
  | .ok vcountArray, .ok pArray, .ok (_, inputs) =>
    decide (pArray.length = vcountArray.sum * inputs.length) &&
    inputs.all (fun j => decide (j.offset < inputs.length)) &&
    decide (pArray.length < SIZE_MODULUS)
  | _, _, _ => false

/-- A `<polylist>` of one quadrilateral with a VERTEX input. -/
def polylistElement : TiXmlNode :=
  .element "polylist" []
    [inputElement "VERTEX" "#V" "0", .element "vcount" [] [.text "4"],
     .element "p" [] [.text "0 1 2 0"]]

/-- The document of scenario S1 with a `<polylist>` after the `<triangles>`. -/
def docWithPolylist : TiXmlDocument :=
  colladaDocument
    [[sourceElement "P" "0 0 0 1 0 0 0 1 0" "3" "3", verticesElement "V" "#P",
      trianglesElement [inputElement "VERTEX" "#V" "0"] "0 1 2", polylistElement]]

/-! ## Notions used to state the properties of the sources of the exporter -/

/-- The `<mesh>` elements that `Import_DAE` reads, in document order. -/
def meshesOfDocument (doc : TiXmlDocument) : List TiXmlNode :=
  (geometryElements doc).filterMap fun g => ToElement (g.FirstChild "mesh")

/-- The accessor of a `<source>` element. -/
def accessorOf (src : TiXmlNode) : Option TiXmlNode :=
  (ToElement (src.FirstChild "technique_common")).bind fun t =>
    ToElement (t.FirstChild "accessor")

/-- The stride and the count attribute of the accessor of a `<source>` element and the
text of its `<float_array>`. -/
def sourceSummary (src : TiXmlNode) : Option String × Option String × Option String :=
  ((accessorOf src).bind fun a => a.Attribute "stride",
   (accessorOf src).bind fun a => a.Attribute "count",
   (ToElement (src.FirstChild "float_array")).bind TiXmlNode.GetText)

/-- Whether a node is a `<source>` element with the given id. -/
def isSourceWithId (id : String) (c : TiXmlNode) : Bool :=
  c.isElement && decide (c.Value = "source") && decide (c.Attribute "id" = some id)

/-- The `<source>` child of a `<mesh>` with the given id, when there is one: the stride
and the count attribute of its accessor and the text of its `<float_array>`. -/
def writtenSource (mesh : TiXmlNode) (id : String) :
    Option (Option String × Option String × Option String) :=
  (mesh.children.find? (isSourceWithId id)).map sourceSummary

/-- The text of a `<float_array>` that holds the given floats in order: the text of each
float, followed by a blank. -/
def floatsText {F : Type} (ftoa : F → List Char) (floats : List F) : String :=
  String.mk (floats.flatMap fun x => ftoa x ++ [' '])

/-! ## Concrete data: streams on which an iteration of the welding loop fails -/

/-- One VERTEX input whose source `X` does not exist. -/
def exUnresolvedInputs : List Input := [⟨"X", .VERTEX, 0⟩]
/-- The flags that go with `exUnresolvedInputs`. -/
def exUnresolvedFlags : Flags := ⟨true, false, false, "X", "", ""⟩

/-! ## The exported document of a mesh without normals, as it is read back -/

/-- The inputs that `ReadInputs` returns for the `<triangles>` element that `Export_DAE`
writes for a mesh without normals, with or without texture coordinates. -/
def bareInputs (hasTexCoords : Bool) : List Input :=
  [⟨"Mesh-1-vertices", .VERTEX, 0⟩]
    ++ (if hasTexCoords then [⟨"Mesh-1-map1", .TEXCOORD, 1⟩] else [])

/-- The flags that `ReadInputs` returns with `bareInputs`. -/
def bareFlags (hasTexCoords : Bool) : Flags :=
  { hasVerts := true, hasNormals := false, hasTexcoords := hasTexCoords,
    vertSource := "Mesh-1-vertices", normalSource := "",
    texcoordSource := if hasTexCoords then "Mesh-1-map1" else "" }

/-- The triple of a corner that `Export_DAE` writes for the index `v` of a mesh without
normals. -/
def bareTriple (hasTexCoords : Bool) (v : Nat) : Indexes :=
  ⟨v, 0, if hasTexCoords then v else 0⟩

/-- The source table that `Import_DAE` reads from the exported document of a mesh
without normals; `g` is the conversion of a float to text and back. -/
def bareSources {F : Type} (g : F → F) (aMesh : Mesh F) (hasTexCoords : Bool) :
    List (String × Source F) :=
  [("Mesh-1-positions",
      { array := (floats3 aMesh.mVertices).map g, stride := 3,
        count := aMesh.mVertices.length, offset := 0, params := [] })]
    ++ (if hasTexCoords then
          [("Mesh-1-map1",
              { array := (floats2 aMesh.mTexCoords).map g, stride := 2,
                count := aMesh.mVertices.length, offset := 0, params := [] })]
        else [])

/-- The `<triangles>` element that `Export_DAE` writes for a mesh without normals, as it
is read back from the file. -/
def bareTriangles (mIndices : List Nat) (hasTexCoords : Bool) : TiXmlNode :=
  .element "triangles" [intAttribute "count" (toInt (mIndices.length / 3))]
    ([.element "input"
        [intAttribute "offset" 0, ("semantic", "VERTEX"), ("source", "#Mesh-1-vertices")] []]
      ++ (if hasTexCoords then
            [.element "input"
               [intAttribute "offset" 1, ("semantic", "TEXCOORD"), ("source", "#Mesh-1-map1"),
                intAttribute "set" 0] []]
          else [])
      ++ [.element "p" []
            [.text (String.mk (List.intercalate [' ']
              ((exportedStream mIndices (if hasTexCoords then 2 else 1)).map utoa)))]])

/-- The `<mesh>` element that `Export_DAE` writes for a mesh without normals, as it is
read back from the file. -/
def bareMesh {F : Type} (ftoa : F → List Char) (aMesh : Mesh F) (hasTexCoords : Bool) :
    TiXmlNode :=
  .element "mesh" []
    ([reloadedSource ftoa "Mesh-1-positions" "position" (aMesh.mVertices.length * 3)
        (floats3 aMesh.mVertices) (aMesh.mVertices.length * 3) aMesh.mVertices.length 3
        ["X", "Y", "Z"]]
      ++ (if hasTexCoords then
            [reloadedSource ftoa "Mesh-1-map1" "map1" (aMesh.mVertices.length * 3)
              (floats2 aMesh.mTexCoords) (aMesh.mTexCoords.length * 2) aMesh.mVertices.length 2
              ["S", "T"]]
          else [])
      ++ [.element "vertices" [("id", "Mesh-1-vertices")]
            [.element "input" [("semantic", "POSITION"), ("source", "#Mesh-1-positions")] []],
          bareTriangles aMesh.mIndices hasTexCoords])

theorem mapFind_mapSet {κ ν : Type} [DecidableEq κ] (m : List (κ × ν)) (k k' : κ) (v : ν) :
    mapFind (mapSet m k v) k' = if k = k' then some v else mapFind m k' := by
  induction m with
  | nil => simp [mapSet, mapFind]
  | cons p m ih =>
    obtain ⟨a, b⟩ := p
    by_cases h : a = k
    · subst h
      by_cases h2 : a = k' <;> simp [mapSet, mapFind, h2]
    · by_cases h2 : a = k'
      · subst h2
        have h3 : ¬ k = a := fun e => h e.symm
        simp [mapSet, mapFind, h, h3]
      · simp [mapSet, mapFind, h, h2, ih]

theorem mapFind_mapInsert_of_none {κ ν : Type} [DecidableEq κ] (m : List (κ × ν)) (k k' : κ)
    (v : ν) (h : mapFind m k = none) :
    mapFind (mapInsert m k v) k' = if k = k' then some v else mapFind m k' := by
  simp [mapInsert, h, mapFind_mapSet]

theorem mapAt_of_find {κ ν : Type} [DecidableEq κ] (m : List (κ × ν)) (k : κ) (d v : ν)
    (h : mapFind m k = some v) : mapAt m k d = v := by
  simp [mapAt, h]

/-! ## Outcomes and first occurrences -/

theorem bind_eq_ok {ε α β : Type} (x : Except ε α) (f : α → Except ε β) (b : β) :
    (x >>= f) = .ok b ↔ ∃ a, x = .ok a ∧ f a = .ok b := by
  cases x <;> simp [bind, Except.bind]

theorem pure_eq_ok {ε α : Type} (a b : α) : (pure a : Except ε α) = .ok b ↔ a = b := by
  simp [pure, Except.pure]

theorem firsts_append_singleton {α : Type} [DecidableEq α] (cs : List α) (c : α) :
    firsts (cs ++ [c]) = if c ∈ firsts cs then firsts cs else firsts cs ++ [c] := by
  simp [firsts, List.foldl_append]

theorem mem_firsts {α : Type} [DecidableEq α] (cs : List α) (x : α) :
    x ∈ firsts cs ↔ x ∈ cs := by
  induction cs using List.reverseRecOn with
  | nil => simp [firsts]
  | append_singleton cs c ih =>
    rw [firsts_append_singleton]
    by_cases h : c ∈ firsts cs
    · simp only [h, if_true, List.mem_append, List.mem_singleton]
      constructor
      · intro hx; exact Or.inl (ih.mp hx)
      · rintro (hx | hx)
        · exact ih.mpr hx
        · rw [hx]; exact h
    · simp [h, ih]

theorem nodup_firsts {α : Type} [DecidableEq α] (cs : List α) : (firsts cs).Nodup := by
  induction cs using List.reverseRecOn with
  | nil => simp [firsts]
  | append_singleton cs c ih =>
    rw [firsts_append_singleton]
    by_cases h : c ∈ firsts cs
    · simpa [h] using ih
    · simp only [h, if_false]
      rw [List.nodup_append]
      refine ⟨ih, by simp, ?_⟩
      intro a ha hb
      simp at hb
      subst hb
      exact h ha

theorem InsertVertNormalTexcoord_ok {F : Type} [Zero F] (a a' : Attributes F) (fl : Flags)
    (v n t : Nat) (sources : List (String × Source F)) (vertices : List (String × List Input))
    (h : InsertVertNormalTexcoord a fl v n t sources vertices = .ok a') :
    (if fl.hasVerts then
        ∃ p, fetchVector3 sources vertices fl.vertSource v = .ok p ∧
          a'.vertVector = a.vertVector ++ [p]
      else a'.vertVector = a.vertVector) ∧
    (if fl.hasNormals then
        ∃ p, fetchVector3 sources vertices fl.normalSource n = .ok p ∧
          a'.normalVector = a.normalVector ++ [p]
      else a'.normalVector = a.normalVector) ∧
    (if fl.hasTexcoords then
        ∃ p, fetchVector2 sources vertices fl.texcoordSource t = .ok p ∧
          a'.texcoordVector = a.texcoordVector ++ [p]
      else a'.texcoordVector = a.texcoordVector) := by
  cases hv : fl.hasVerts <;> cases hn : fl.hasNormals <;> cases ht : fl.hasTexcoords <;>
    simp only [InsertVertNormalTexcoord, hv, hn, ht, fetchVector3, fetchVector2, bind_eq_ok,
      pure_eq_ok, if_true, if_false, Bool.false_eq_true] at h ⊢
  all_goals aesop

/-! ## The cache of the welding loop -/

theorem mapInsert_of_none {κ ν : Type} [DecidableEq κ] (m : List (κ × ν)) (k : κ)
    (v : ν) (h : mapFind m k = none) : mapInsert m k v = mapSet m k v := by
  simp [mapInsert, h]

theorem mapAt_mapSet {κ ν : Type} [DecidableEq κ] (m : List (κ × ν)) (k : κ) (v d : ν) :
    mapAt (mapSet m k v) k d = v := by
  simp [mapAt, mapFind_mapSet]

theorem mapFind_nil {κ ν : Type} [DecidableEq κ] (k : κ) :
    mapFind ([] : List (κ × ν)) k = none := rfl

theorem weldStep_hit {F : Type} [Zero F] (fl : Flags) (sources : List (String × Source F))
    (vertices : List (String × List Input)) (st : WeldState F) (ix : Indexes) (u : Nat)
    (h : lookup3 st.prevIndices ix = some u) :
    weldStep fl sources vertices st ix
      = .ok { st with indexVector := st.indexVector ++ [u] } := by
  obtain ⟨v, n, c⟩ := ix
  simp only [lookup3] at h
  simp only [weldStep]
  cases h1 : mapFind st.prevIndices v with
  | none => simp [h1] at h
  | some m1 =>
    simp only [h1, Option.bind] at h
    cases h2 : mapFind m1 n with
    | none => simp [h2] at h
    | some m2 =>
      simp only [h2] at h
      simp only [h2, h]

theorem lookup3_mapSet (prev : PrevIndices) (v : Nat) (m1 : List (Nat × List (Nat × Nat)))
    (t : Indexes) :
    lookup3 (mapSet prev v m1) t
      = if v = t.vertIndex then
          (mapFind m1 t.normalIndex).bind fun m2 => mapFind m2 t.texcoordIndex
        else lookup3 prev t := by
  unfold lookup3
  rw [mapFind_mapSet]
  by_cases e : v = t.vertIndex <;> simp [e]

theorem weldStep_miss {F : Type} [Zero F] (fl : Flags) (sources : List (String × Source F))
    (vertices : List (String × List Input)) (st : WeldState F) (ix : Indexes)
    (h : lookup3 st.prevIndices ix = none) :
    ∃ prev : PrevIndices,
      weldStep fl sources vertices st ix = weldMiss fl sources vertices st ix prev ∧
      ∀ t, lookup3 prev t = if t = ix then some st.index else lookup3 st.prevIndices t := by
  obtain ⟨v, n, c⟩ := ix
  simp only [weldStep]
  cases h1 : mapFind st.prevIndices v with
  | none =>
    refine ⟨_, rfl, ?_⟩
    rintro ⟨tv, tn, tt⟩
    simp only [mapInsert_of_none _ _ _ h1, mapAt_mapSet, mapInsert_of_none _ _ _ (mapFind_nil _),
      lookup3_mapSet, mapFind_mapSet, mapFind_nil, Indexes.mk.injEq]
    by_cases e1 : v = tv
    · subst e1
      by_cases e2 : n = tn
      · subst e2
        by_cases e3 : c = tt
        · subst e3; simp [mapFind_mapSet, mapFind_nil]
        · have e3' : ¬ tt = c := fun e => e3 e.symm
          simp [e3, e3', lookup3, h1, mapFind_mapSet, mapFind_nil]
      · have e2' : ¬ tn = n := fun e => e2 e.symm
        simp [e2, e2', lookup3, h1]
    · have e1' : ¬ tv = v := fun e => e1 e.symm
      simp [e1, e1']
  | some m1 =>
    dsimp only
    cases h2 : mapFind m1 n with
    | none =>
      dsimp only
      refine ⟨_, rfl, ?_⟩
      rintro ⟨tv, tn, tt⟩
      simp only [mapInsert_of_none _ _ _ h2, mapAt_mapSet,
        mapInsert_of_none _ _ _ (mapFind_nil _),
        lookup3_mapSet, mapFind_mapSet, mapFind_nil, Indexes.mk.injEq]
      by_cases e1 : v = tv
      · subst e1
        by_cases e2 : n = tn
        · subst e2
          by_cases e3 : c = tt
          · subst e3; simp [mapFind_mapSet, mapFind_nil]
          · have e3' : ¬ tt = c := fun e => e3 e.symm
            simp [e3, e3', lookup3, h1, h2, mapFind_mapSet, mapFind_nil]
        · have e2' : ¬ tn = n := fun e => e2 e.symm
          simp [e2, e2', lookup3, h1]
      · have e1' : ¬ tv = v := fun e => e1 e.symm
        simp [e1, e1']
    | some m2 =>
      have h3 : mapFind m2 c = none := by simpa [lookup3, h1, h2] using h
      simp only [h3]
      refine ⟨_, rfl, ?_⟩
      rintro ⟨tv, tn, tt⟩
      simp only [lookup3_mapSet, mapFind_mapSet, mapInsert_of_none _ _ _ h3,
        Indexes.mk.injEq]
      by_cases e1 : v = tv
      · subst e1
        by_cases e2 : n = tn
        · subst e2
          by_cases e3 : c = tt
          · subst e3; simp [mapFind_mapSet, mapFind_nil]
          · have e3' : ¬ tt = c := fun e => e3 e.symm
            simp [e3, e3', lookup3, h1, h2, mapFind_mapSet, mapFind_nil]
        · have e2' : ¬ tn = n := fun e => e2 e.symm
          simp [e2, e2', lookup3, h1]
      · have e1' : ¬ tv = v := fun e => e1 e.symm
        simp [e1, e1']

/-! ## The welding loop in closed form -/

theorem forall₂_concat {α β : Type} (R : α → β → Prop) (l₁ : List α) (l₂ : List β) (a : α)
    (b : β) (h : List.Forall₂ R l₁ l₂) (hab : R a b) :
    List.Forall₂ R (l₁ ++ [a]) (l₂ ++ [b]) := by
  induction h with
  | nil => exact List.Forall₂.cons hab List.Forall₂.nil
  | cons h1 _ ih => exact List.Forall₂.cons h1 ih

theorem weldMiss_ok {F : Type} [Zero F] (fl : Flags) (sources : List (String × Source F))
    (vertices : List (String × List Input)) (st st' : WeldState F) (ix : Indexes)
    (prev : PrevIndices) (h : weldMiss fl sources vertices st ix prev = .ok st') :
    ∃ attrs, InsertVertNormalTexcoord st.attrs fl ix.vertIndex ix.normalIndex ix.texcoordIndex
        sources vertices = .ok attrs ∧
      st' = { indexVector := st.indexVector ++ [st.index], attrs := attrs,
              prevIndices := prev, index := st.index + 1 } := by
  simp only [weldMiss, bind_eq_ok, pure_eq_ok] at h
  obtain ⟨attrs, h1, h2⟩ := h
  exact ⟨attrs, h1, h2.symm⟩

theorem AttrsMatch_concat {F : Type} [Zero F] (fl : Flags) (sources : List (String × Source F))
    (vertices : List (String × List Input)) (ds : List Indexes) (a a' : Attributes F)
    (c : Indexes) (hm : AttrsMatch fl sources vertices ds a)
    (h : InsertVertNormalTexcoord a fl c.vertIndex c.normalIndex c.texcoordIndex
        sources vertices = .ok a') :
    AttrsMatch fl sources vertices (ds ++ [c]) a' := by
  have hi := InsertVertNormalTexcoord_ok a a' fl _ _ _ sources vertices h
  obtain ⟨m1, m2, m3⟩ := hm
  obtain ⟨i1, i2, i3⟩ := hi
  refine ⟨?_, ?_, ?_⟩
  · by_cases hv : fl.hasVerts = true
    · simp only [hv, if_true] at m1 i1 ⊢
      obtain ⟨p, hp, e⟩ := i1
      rw [e]
      exact forall₂_concat _ _ _ _ _ m1 hp
    · rw [if_neg hv] at m1 i1 ⊢
      rw [i1, m1]
  · by_cases hv : fl.hasNormals = true
    · simp only [hv, if_true] at m2 i2 ⊢
      obtain ⟨p, hp, e⟩ := i2
      rw [e]
      exact forall₂_concat _ _ _ _ _ m2 hp
    · rw [if_neg hv] at m2 i2 ⊢
      rw [i2, m2]
  · by_cases hv : fl.hasTexcoords = true
    · simp only [hv, if_true] at m3 i3 ⊢
      obtain ⟨p, hp, e⟩ := i3
      rw [e]
      exact forall₂_concat _ _ _ _ _ m3 hp
    · rw [if_neg hv] at m3 i3 ⊢
      rw [i3, m3]

theorem weldStep_inv {F : Type} [Zero F] (fl : Flags) (sources : List (String × Source F))
    (vertices : List (String × List Input)) (cs : List Indexes) (st st' : WeldState F)
    (c : Indexes) (hinv : WeldInv fl sources vertices cs st)
    (h : weldStep fl sources vertices st c = .ok st') :
    WeldInv fl sources vertices (cs ++ [c]) st' := by
  obtain ⟨hidx, hvec, hlook, hattr⟩ := hinv
  by_cases hc : c ∈ firsts cs
  · have hl : lookup3 st.prevIndices c = some ((firsts cs).indexOf c) := by
      rw [hlook]; simp [hc]
    rw [weldStep_hit fl sources vertices st c _ hl] at h
    simp only [Except.ok.injEq] at h
    subst h
    have hf : firsts (cs ++ [c]) = firsts cs := by
      rw [firsts_append_singleton]; simp [hc]
    refine ⟨?_, ?_, ?_, ?_⟩
    · rw [hf]; exact hidx
    · rw [hf]; simp [hvec]
    · rw [hf]; exact hlook
    · rw [hf]; exact hattr
  · have hl : lookup3 st.prevIndices c = none := by
      rw [hlook]; simp [hc]
    obtain ⟨prev, hstep, hprev⟩ := weldStep_miss fl sources vertices st c hl
    rw [hstep] at h
    obtain ⟨attrs, hins, rfl⟩ := weldMiss_ok fl sources vertices st st' c prev h
    have hf : firsts (cs ++ [c]) = firsts cs ++ [c] := by
      rw [firsts_append_singleton]; simp [hc]
    refine ⟨?_, ?_, ?_, ?_⟩
    · rw [hf]; simp [hidx]
    · rw [hf]
      simp only [List.map_append, List.map_cons, List.map_nil]
      congr 1
      · rw [hvec]
        apply List.map_congr_left
        intro x hx
        rw [List.indexOf_append_of_mem ((mem_firsts cs x).mpr hx)]
      · rw [List.indexOf_append_of_not_mem hc]
        simp [hidx]
    · intro t
      rw [hf, hprev t, hlook t]
      by_cases e : t = c
      · subst e
        rw [List.indexOf_append_of_not_mem hc]
        simp [hidx]
      · by_cases ht : t ∈ firsts cs
        · simp [e, ht, List.indexOf_append_of_mem ht]
        · simp [e, ht]
    · rw [hf]
      exact AttrsMatch_concat fl sources vertices _ _ _ c hattr hins

theorem weldLoop_inv {F : Type} [Zero F] (inputs : List Input) (pArray : List Nat) (fl : Flags)
    (sources : List (String × Source F)) (vertices : List (String × List Input))
    (fuel : Nat) : ∀ (i : Nat) (pre : List Indexes) (st w : WeldState F),
      WeldInv fl sources vertices pre st →
      weldLoop inputs pArray fl sources vertices fuel i st = .ok w →
      ∃ cs, cornersLoop inputs pArray fuel i = .ok cs ∧
        WeldInv fl sources vertices (pre ++ cs) w := by
  induction fuel with
  | zero =>
    intro i pre st w hinv h
    by_cases hi : i < pArray.length
    · simp [weldLoop, hi] at h
    · simp only [weldLoop, hi, if_false, Except.ok.injEq] at h
      subst h
      exact ⟨[], by simp [cornersLoop, hi], by simpa using hinv⟩
  | succ fuel ih =>
    intro i pre st w hinv h
    by_cases hi : i < pArray.length
    · simp only [weldLoop, hi, if_true, bind_eq_ok] at h
      obtain ⟨ix, hix, st1, hst1, hrest⟩ := h
      have hinv1 := weldStep_inv fl sources vertices pre st st1 ix hinv hst1
      obtain ⟨cs, hcs, hw⟩ := ih _ _ _ _ hinv1 hrest
      refine ⟨ix :: cs, ?_, ?_⟩
      · simp [cornersLoop, hi, hix, hcs, bind, Except.bind, pure, Except.pure]
      · simpa using hw
    · simp only [weldLoop, hi, if_false, Except.ok.injEq] at h
      subst h
      exact ⟨[], by simp [cornersLoop, hi], by simpa using hinv⟩

theorem WeldInv_init {F : Type} [Zero F] (fl : Flags) (sources : List (String × Source F))
    (vertices : List (String × List Input)) :
    WeldInv fl sources vertices [] (WeldState.init : WeldState F) := by
  refine ⟨rfl, rfl, ?_, ?_⟩
  · intro t; simp [WeldState.init, lookup3, mapFind, firsts]
  · simp [AttrsMatch, WeldState.init, firsts]

/-- The welding loop in closed form: when it succeeds, all corners of the stream decode,
and the result satisfies `WeldInv` for them. -/
theorem weld_spec {F : Type} [Zero F] (inputs : List Input) (pArray : List Nat) (fl : Flags)
    (sources : List (String × Source F)) (vertices : List (String × List Input))
    (w : WeldState F) (h : weld inputs pArray fl sources vertices = .ok w) :
    ∃ cs, corners inputs pArray = .ok cs ∧ WeldInv fl sources vertices cs w := by
  obtain ⟨cs, hcs, hw⟩ :=
    weldLoop_inv inputs pArray fl sources vertices pArray.length 0 [] _ w
      (WeldInv_init fl sources vertices) h
  exact ⟨cs, hcs, by simpa using hw⟩

/-! ## Claims about one index stream -/

theorem WeldInv_length_eq {F : Type} [Zero F] {fl : Flags} {sources : List (String × Source F)}
    {vertices : List (String × List Input)} {cs : List Indexes} {w : WeldState F}
    (h : WeldInv fl sources vertices cs w) : w.indexVector.length = cs.length := by
  rw [h.2.1]; simp

theorem WeldInv_index_at {F : Type} [Zero F] {fl : Flags}
    {sources : List (String × Source F)} {vertices : List (String × List Input)}
    {cs : List Indexes} {w : WeldState F} (h : WeldInv fl sources vertices cs w) (a : Nat)
    (ha : a < cs.length) :
    w.indexVector.get? a = some ((firsts cs).indexOf (cs.get ⟨a, ha⟩)) := by
  rw [h.2.1]
  simp [List.getElem?_map, List.getElem?_eq_getElem ha]

/-- C3. Within one index stream, two corners get the same unified index if and only if
their (position-index, normal-index, texcoord-index) triples are equal: when the welding
loop succeeds, every corner of the stream decodes to a triple, there is one output index
per corner, and the output indices at two corners `a` and `b` are equal exactly when the
triples at `a` and `b` are. -/
theorem weld_same_index_iff_same_triple {F : Type} [Zero F] (inputs : List Input)
    (pArray : List Nat) (fl : Flags) (sources : List (String × Source F))
    (vertices : List (String × List Input)) (w : WeldState F)
    (h : weld inputs pArray fl sources vertices = .ok w) :
    ∃ cs, corners inputs pArray = .ok cs ∧ w.indexVector.length = cs.length ∧
      ∀ (a b : Nat) (ha : a < cs.length) (hb : b < cs.length),
        w.indexVector.get? a = w.indexVector.get? b ↔ cs.get ⟨a, ha⟩ = cs.get ⟨b, hb⟩ := by
  obtain ⟨cs, hcs, hinv⟩ := weld_spec inputs pArray fl sources vertices w h
  refine ⟨cs, hcs, WeldInv_length_eq hinv, ?_⟩
  intro a b ha hb
  rw [WeldInv_index_at hinv a ha, WeldInv_index_at hinv b hb, Option.some_inj]
  have ma : cs.get ⟨a, ha⟩ ∈ firsts cs := (mem_firsts cs _).mpr (List.get_mem cs a ha)
  have mb : cs.get ⟨b, hb⟩ ∈ firsts cs := (mem_firsts cs _).mpr (List.get_mem cs b hb)
  exact List.indexOf_inj ma mb

/-- C3, witness: the stream of two triangles that share an edge. -/
theorem weld_same_index_iff_same_triple_witness :
    weld exInputs exStream exFlags exSources exVertices = .ok exWelded ∧
    ∃ cs, corners exInputs exStream = .ok cs ∧ exWelded.indexVector.length = cs.length ∧
      ∀ (a b : Nat) (ha : a < cs.length) (hb : b < cs.length),
        exWelded.indexVector.get? a = exWelded.indexVector.get? b
          ↔ cs.get ⟨a, ha⟩ = cs.get ⟨b, hb⟩ :=
  ⟨by decide,
    weld_same_index_iff_same_triple exInputs exStream exFlags exSources exVertices exWelded
      (by decide)⟩

theorem WeldInv_aligned {F : Type} [Zero F] {fl : Flags}
    {sources : List (String × Source F)} {vertices : List (String × List Input)}
    {cs : List Indexes} {w : WeldState F} (h : WeldInv fl sources vertices cs w)
    (c : Indexes) (hc : c ∈ cs) :
    (fl.hasVerts = true → ∃ p, fetchVector3 sources vertices fl.vertSource c.vertIndex = .ok p ∧
      w.attrs.vertVector.get? ((firsts cs).indexOf c) = some p) ∧
    (fl.hasNormals = true →
      ∃ p, fetchVector3 sources vertices fl.normalSource c.normalIndex = .ok p ∧
        w.attrs.normalVector.get? ((firsts cs).indexOf c) = some p) ∧
    (fl.hasTexcoords = true →
      ∃ p, fetchVector2 sources vertices fl.texcoordSource c.texcoordIndex = .ok p ∧
        w.attrs.texcoordVector.get? ((firsts cs).indexOf c) = some p) := by
  have mc : c ∈ firsts cs := (mem_firsts cs c).mpr hc
  have hlt : (firsts cs).indexOf c < (firsts cs).length := List.indexOf_lt_length.mpr mc
  have hget : (firsts cs).get ⟨(firsts cs).indexOf c, hlt⟩ = c := List.indexOf_get hlt
  obtain ⟨_, _, _, m1, m2, m3⟩ := h
  refine ⟨?_, ?_, ?_⟩
  · intro hv
    rw [if_pos hv] at m1
    have hl := m1.length_eq
    have := m1.get hlt (hl ▸ hlt)
    rw [hget] at this
    exact ⟨_, this, by rw [List.get?_eq_get]⟩
  · intro hv
    rw [if_pos hv] at m2
    have hl := m2.length_eq
    have := m2.get hlt (hl ▸ hlt)
    rw [hget] at this
    exact ⟨_, this, by rw [List.get?_eq_get]⟩
  · intro hv
    rw [if_pos hv] at m3
    have hl := m3.length_eq
    have := m3.get hlt (hl ▸ hlt)
    rw [hget] at this
    exact ⟨_, this, by rw [List.get?_eq_get]⟩

/-- C4. The welded output is aligned with the sources: when the welding loop succeeds,
every corner `a` of the stream has a unified index `u` in the output index array, and for
each attribute that is present the output array holds at `u` the value fetched from the
resolved source of that attribute at the corner's own index for it (position-index for
VERTEX, normal-index for NORMAL, texcoord-index for TEXCOORD). -/
theorem weld_output_aligned_with_sources {F : Type} [Zero F] (inputs : List Input)
    (pArray : List Nat) (fl : Flags) (sources : List (String × Source F))
    (vertices : List (String × List Input)) (w : WeldState F)
    (h : weld inputs pArray fl sources vertices = .ok w) :
    ∃ cs, corners inputs pArray = .ok cs ∧
      ∀ (a : Nat) (ha : a < cs.length), ∃ u, w.indexVector.get? a = some u ∧
        (fl.hasVerts = true →
          ∃ p, fetchVector3 sources vertices fl.vertSource (cs.get ⟨a, ha⟩).vertIndex = .ok p ∧
            w.attrs.vertVector.get? u = some p) ∧
        (fl.hasNormals = true →
          ∃ p, fetchVector3 sources vertices fl.normalSource (cs.get ⟨a, ha⟩).normalIndex
              = .ok p ∧
            w.attrs.normalVector.get? u = some p) ∧
        (fl.hasTexcoords = true →
          ∃ p, fetchVector2 sources vertices fl.texcoordSource (cs.get ⟨a, ha⟩).texcoordIndex
              = .ok p ∧
            w.attrs.texcoordVector.get? u = some p) := by
  obtain ⟨cs, hcs, hinv⟩ := weld_spec inputs pArray fl sources vertices w h
  refine ⟨cs, hcs, ?_⟩
  intro a ha
  exact ⟨_, WeldInv_index_at hinv a ha, WeldInv_aligned hinv _ (List.get_mem cs a ha)⟩

/-- C4, witness: the stream of two triangles that share an edge. -/
theorem weld_output_aligned_with_sources_witness :
    weld exInputs exStream exFlags exSources exVertices = .ok exWelded ∧
    ∃ cs, corners exInputs exStream = .ok cs ∧
      ∀ (a : Nat) (ha : a < cs.length), ∃ u, exWelded.indexVector.get? a = some u ∧
        (exFlags.hasVerts = true →
          ∃ p, fetchVector3 exSources exVertices exFlags.vertSource (cs.get ⟨a, ha⟩).vertIndex
              = .ok p ∧
            exWelded.attrs.vertVector.get? u = some p) ∧
        (exFlags.hasNormals = true →
          ∃ p, fetchVector3 exSources exVertices exFlags.normalSource
              (cs.get ⟨a, ha⟩).normalIndex = .ok p ∧
            exWelded.attrs.normalVector.get? u = some p) ∧
        (exFlags.hasTexcoords = true →
          ∃ p, fetchVector2 exSources exVertices exFlags.texcoordSource
              (cs.get ⟨a, ha⟩).texcoordIndex = .ok p ∧
            exWelded.attrs.texcoordVector.get? u = some p) :=
  ⟨by decide,
    weld_output_aligned_with_sources exInputs exStream exFlags exSources exVertices exWelded
      (by decide)⟩

/-! ## Aggregation and the input flags -/

theorem assignFrom_append {α : Type} (d : α) (xs : List α) : ∀ l : List α,
    assignFrom (l ++ List.replicate xs.length d) l.length xs = l ++ xs := by
  induction xs with
  | nil => intro l; simp [assignFrom]
  | cons x xs ih =>
    intro l
    have h := ih (l ++ [x])
    simp only [List.length_append, List.length_singleton, List.append_assoc,
      List.singleton_append] at h
    simp only [assignFrom, List.length_cons, List.replicate_succ]
    rw [List.set_append_right _ _ (le_refl _)]
    simpa using h

theorem resize_assign {α : Type} (d : α) (l xs : List α) :
    assignFrom (vectorResize l (l.length + xs.length) d) l.length xs = l ++ xs := by
  have : vectorResize l (l.length + xs.length) d = l ++ List.replicate xs.length d := by
    simp [vectorResize, List.take_of_length_le]
  rw [this, assignFrom_append]

theorem aggregate_ok {F : Type} [Zero F] (st : ImportState F) (w : WeldState F)
    (h : OffsetsOk st) :
    OffsetsOk (aggregate st w) ∧
    (aggregate st w).sources = st.sources ∧
    (aggregate st w).aMesh.mIndices = st.aMesh.mIndices ++ w.indexVector ∧
    (aggregate st w).aMesh.mVertices = st.aMesh.mVertices ++ w.attrs.vertVector ∧
    (aggregate st w).aMesh.mNormals = st.aMesh.mNormals ++ w.attrs.normalVector ∧
    (aggregate st w).aMesh.mTexCoords = st.aMesh.mTexCoords ++ w.attrs.texcoordVector := by
  obtain ⟨h1, h2, h3, h4⟩ := h
  simp only [aggregate, OffsetsOk, h1, h2, h3, h4, resize_assign, List.length_append]
  simp

theorem ToSemantic_VERTEX (s : String) : ToSemantic s = .VERTEX ↔ s = "VERTEX" := by
  unfold ToSemantic
  split_ifs with h1 <;> simp [h1]

theorem ToSemantic_NORMAL (s : String) : ToSemantic s = .NORMAL ↔ s = "NORMAL" := by
  unfold ToSemantic
  split_ifs with h1 h2 <;> simp_all

theorem ToSemantic_TEXCOORD (s : String) : ToSemantic s = .TEXCOORD ↔ s = "TEXCOORD" := by
  unfold ToSemantic
  split_ifs with h1 h2 h3 <;> simp_all

theorem deref_eq_ok (s : Option String) (v : String) : deref s = .ok v ↔ s = some v := by
  cases s <;> simp [deref]

theorem ReadInputs_step_flags (acc acc' : Flags × List Input) (e : TiXmlNode)
    (h : ReadInputs.step acc e = .ok acc') :
    acc'.1.hasVerts = (acc.1.hasVerts ||
      (decide (e.Value = "input") && decide (e.Attribute "semantic" = some "VERTEX"))) ∧
    acc'.1.hasNormals = (acc.1.hasNormals ||
      (decide (e.Value = "input") && decide (e.Attribute "semantic" = some "NORMAL"))) ∧
    acc'.1.hasTexcoords = (acc.1.hasTexcoords ||
      (decide (e.Value = "input") && decide (e.Attribute "semantic" = some "TEXCOORD"))) := by
  unfold ReadInputs.step at h
  by_cases hv : e.Value = "input"
  · simp only [hv, ne_eq, not_true_eq_false, if_false, bind_eq_ok, deref_eq_ok, pure_eq_ok] at h
    obtain ⟨source, _, o, _, off, _, sem, hsem, rfl⟩ := h
    have h1 := ToSemantic_VERTEX sem
    have h2 := ToSemantic_NORMAL sem
    have h3 := ToSemantic_TEXCOORD sem
    simp only [hsem, hv, decide_True, Bool.true_and, Option.some.injEq]
    cases hs : ToSemantic sem <;> simp only [hs] at h1 h2 h3 ⊢ <;> simp_all
  · simp only [ne_eq, hv, not_false_eq_true, if_true, Except.ok.injEq] at h
    subst h
    simp [hv]

theorem ReadInputs_fold_flags (l : List TiXmlNode) : ∀ (acc acc' : Flags × List Input),
    l.foldlM ReadInputs.step acc = .ok acc' →
    acc'.1.hasVerts = (acc.1.hasVerts || l.any fun e =>
      decide (e.Value = "input") && decide (e.Attribute "semantic" = some "VERTEX")) ∧
    acc'.1.hasNormals = (acc.1.hasNormals || l.any fun e =>
      decide (e.Value = "input") && decide (e.Attribute "semantic" = some "NORMAL")) ∧
    acc'.1.hasTexcoords = (acc.1.hasTexcoords || l.any fun e =>
      decide (e.Value = "input") && decide (e.Attribute "semantic" = some "TEXCOORD")) := by
  induction l with
  | nil =>
    intro acc acc' h
    simp only [List.foldlM_nil, pure_eq_ok] at h
    subst h
    simp
  | cons e l ih =>
    intro acc acc' h
    simp only [List.foldlM_cons, bind_eq_ok] at h
    obtain ⟨acc1, h1, h2⟩ := h
    obtain ⟨a1, a2, a3⟩ := ReadInputs_step_flags acc acc1 e h1
    obtain ⟨b1, b2, b3⟩ := ih acc1 acc' h2
    simp only [List.any_cons, b1, b2, b3, a1, a2, a3, Bool.or_assoc, and_self]

theorem ReadInputs_flags (prim : TiXmlNode) (fl : Flags) (inputs : List Input)
    (h : ReadInputs prim = .ok (fl, inputs)) :
    fl.hasVerts = declares "VERTEX" prim ∧ fl.hasNormals = declares "NORMAL" prim ∧
      fl.hasTexcoords = declares "TEXCOORD" prim := by
  have := ReadInputs_fold_flags _ _ _ h
  simpa [Flags.init, declares] using this

theorem importGeometry_ok {F : Type} [Zero F] (atof : List Char → F) (st st' : ImportState F)
    (elem : TiXmlNode) (h : importGeometry atof st elem = .ok st') :
    (trianglesOf elem = none ∧ st'.aMesh = st.aMesh ∧ st'.indicesOffset = st.indicesOffset ∧
      st'.vertexOffset = st.vertexOffset ∧ st'.normalOffset = st.normalOffset ∧
      st'.texcoordOffset = st.texcoordOffset) ∨
    ∃ tri fl inputs pArray sources vertices w,
      trianglesOf elem = some tri ∧ ReadInputs tri = .ok (fl, inputs) ∧
      ReadIndexArray (ToElement (tri.FirstChild "p")) [] = .ok pArray ∧
      weld inputs pArray fl sources vertices = .ok w ∧
      st' = aggregate { st with sources := sources } w := by
  unfold importGeometry at h
  cases hm : ToElement (elem.FirstChild "mesh") with
  | none =>
    simp only [hm, Except.ok.injEq] at h
    subst h
    exact Or.inl ⟨by simp [trianglesOf, hm], rfl, rfl, rfl, rfl, rfl⟩
  | some mesh =>
    simp only [hm, bind_eq_ok] at h
    obtain ⟨sources, _, vertices, _, h⟩ := h
    cases ht : ToElement (mesh.FirstChild "triangles") with
    | none =>
      simp only [ht, Except.ok.injEq] at h
      subst h
      exact Or.inl ⟨by simp [trianglesOf, hm, ht], rfl, rfl, rfl, rfl, rfl⟩
    | some tri =>
      simp only [ht, bind_eq_ok, pure_eq_ok] at h
      obtain ⟨⟨fl, inputs⟩, hri, pArray, hp, w, hw, _, _, rfl⟩ := h
      exact Or.inr ⟨tri, fl, inputs, pArray, sources, vertices, w,
        by simp [trianglesOf, hm, ht], hri, hp, hw, rfl⟩

/-! ## The importer in closed form -/

theorem import_fold_spec {F : Type} [Zero F] (atof : List Char → F) (l : List TiXmlNode) :
    ∀ (st st' : ImportState F), OffsetsOk st →
      l.foldlM (importGeometry atof) st = .ok st' →
      ∃ ws : List (Flags × WeldState F),
        List.Forall₂ (fun tri p => Welded tri p.1 p.2) (l.filterMap trianglesOf) ws ∧
        OffsetsOk st' ∧
        st'.aMesh.mIndices = st.aMesh.mIndices ++ (ws.map fun p => p.2.indexVector).flatten ∧
        st'.aMesh.mVertices
          = st.aMesh.mVertices ++ (ws.map fun p => p.2.attrs.vertVector).flatten ∧
        st'.aMesh.mNormals
          = st.aMesh.mNormals ++ (ws.map fun p => p.2.attrs.normalVector).flatten ∧
        st'.aMesh.mTexCoords
          = st.aMesh.mTexCoords ++ (ws.map fun p => p.2.attrs.texcoordVector).flatten := by
  induction l with
  | nil =>
    intro st st' hst h
    simp only [List.foldlM_nil, pure_eq_ok] at h
    subst h
    exact ⟨[], by simp, hst, by simp, by simp, by simp, by simp⟩
  | cons elem l ih =>
    intro st st' hst h
    simp only [List.foldlM_cons, bind_eq_ok] at h
    obtain ⟨st1, h1, h2⟩ := h
    rcases importGeometry_ok atof st st1 elem h1 with
      ⟨hnone, hm, o1, o2, o3, o4⟩ | ⟨tri, fl, inputs, pArray, sources, vertices, w, htri, hri,
        hp, hw, rfl⟩
    · have hst1 : OffsetsOk st1 := by
        obtain ⟨a1, a2, a3, a4⟩ := hst
        exact ⟨by rw [o1, hm, a1], by rw [o2, hm, a2], by rw [o3, hm, a3], by rw [o4, hm, a4]⟩
      obtain ⟨ws, hws, hok, e1, e2, e3, e4⟩ := ih st1 st' hst1 h2
      refine ⟨ws, ?_, hok, ?_, ?_, ?_, ?_⟩
      · simpa [List.filterMap_cons, hnone] using hws
      · rw [e1, hm]
      · rw [e2, hm]
      · rw [e3, hm]
      · rw [e4, hm]
    · have hst0 : OffsetsOk { st with sources := sources } := hst
      obtain ⟨k0, _, k1, k2, k3, k4⟩ := aggregate_ok { st with sources := sources } w hst0
      obtain ⟨ws, hws, hok, e1, e2, e3, e4⟩ := ih _ st' k0 h2
      refine ⟨(fl, w) :: ws, ?_, hok, ?_, ?_, ?_, ?_⟩
      · simp only [List.filterMap_cons, htri]
        exact List.Forall₂.cons ⟨inputs, pArray, sources, vertices, hri, hp, hw⟩ hws
      · rw [e1, k1]; simp
      · rw [e2, k2]; simp
      · rw [e3, k3]; simp
      · rw [e4, k4]; simp

/-- `Import_DAE` in closed form: the mesh of a successful import is the concatenation, in
document order, of the arrays welded from the `<triangles>` elements. -/
theorem import_spec {F : Type} [Zero F] (atof : List Char → F) (doc : TiXmlDocument)
    (mesh : Mesh F) (h : Import_DAE atof (some doc) = .ok mesh) :
    ∃ ws : List (Flags × WeldState F),
      List.Forall₂ (fun tri p => Welded tri p.1 p.2) (trianglesOfDocument doc) ws ∧
      mesh.mIndices = (ws.map fun p => p.2.indexVector).flatten ∧
      mesh.mVertices = (ws.map fun p => p.2.attrs.vertVector).flatten ∧
      mesh.mNormals = (ws.map fun p => p.2.attrs.normalVector).flatten ∧
      mesh.mTexCoords = (ws.map fun p => p.2.attrs.texcoordVector).flatten := by
  simp only [Import_DAE, bind_eq_ok, pure_eq_ok] at h
  obtain ⟨st, hst, rfl⟩ := h
  obtain ⟨ws, hws, _, e1, e2, e3, e4⟩ :=
    import_fold_spec atof _ ImportState.init st ⟨rfl, rfl, rfl, rfl⟩ hst
  exact ⟨ws, hws, by simpa [ImportState.init, Mesh.Clear] using e1,
    by simpa [ImportState.init, Mesh.Clear] using e2,
    by simpa [ImportState.init, Mesh.Clear] using e3,
    by simpa [ImportState.init, Mesh.Clear] using e4⟩

theorem card_firsts {α : Type} [DecidableEq α] (cs : List α) :
    (firsts cs).length = cs.toFinset.card := by
  rw [← List.toFinset_card_of_nodup (nodup_firsts cs)]
  congr 1
  ext x
  simp [mem_firsts]

/-- What a successful welding says about the sizes of its arrays and about its indices. -/
theorem Welded_sizes {F : Type} [Zero F] (tri : TiXmlNode) (fl : Flags) (w : WeldState F)
    (h : Welded tri fl w) :
    ∃ cs, trianglesCorners tri = .ok cs ∧
      w.indexVector.length = cs.length ∧
      (∀ u ∈ w.indexVector, u < cs.toFinset.card) ∧
      w.attrs.vertVector.length = (if declares "VERTEX" tri then cs.toFinset.card else 0) ∧
      w.attrs.normalVector.length = (if declares "NORMAL" tri then cs.toFinset.card else 0) ∧
      w.attrs.texcoordVector.length
        = (if declares "TEXCOORD" tri then cs.toFinset.card else 0) := by
  obtain ⟨inputs, pArray, sources, vertices, hri, hp, hw⟩ := h
  obtain ⟨cs, hcs, hinv⟩ := weld_spec inputs pArray fl sources vertices w hw
  obtain ⟨f1, f2, f3⟩ := ReadInputs_flags tri fl inputs hri
  refine ⟨cs, ?_, WeldInv_length_eq hinv, ?_, ?_, ?_, ?_⟩
  · simp [trianglesCorners, hri, hp, hcs, bind, Except.bind]
  · intro u hu
    rw [hinv.2.1, List.mem_map] at hu
    obtain ⟨c, hc, rfl⟩ := hu
    rw [← card_firsts]
    exact List.indexOf_lt_length.mpr ((mem_firsts cs c).mpr hc)
  · obtain ⟨_, _, _, m1, _, _⟩ := hinv
    rw [← f1, ← card_firsts]
    by_cases hv : fl.hasVerts = true
    · rw [if_pos hv] at m1 ⊢; exact m1.length_eq.symm
    · rw [if_neg hv] at m1 ⊢; rw [m1]; rfl
  · obtain ⟨_, _, _, _, m2, _⟩ := hinv
    rw [← f2, ← card_firsts]
    by_cases hv : fl.hasNormals = true
    · rw [if_pos hv] at m2 ⊢; exact m2.length_eq.symm
    · rw [if_neg hv] at m2 ⊢; rw [m2]; rfl
  · obtain ⟨_, _, _, _, _, m3⟩ := hinv
    rw [← f3, ← card_firsts]
    by_cases hv : fl.hasTexcoords = true
    · rw [if_pos hv] at m3 ⊢; exact m3.length_eq.symm
    · rw [if_neg hv] at m3 ⊢; rw [m3]; rfl

/-! ## Claims about the imported mesh -/

theorem welded_list_sizes {F : Type} [Zero F] (T : List TiXmlNode)
    (ws : List (Flags × WeldState F))
    (h : List.Forall₂ (fun tri p => Welded tri p.1 p.2) T ws) :
    ∃ css : List (List Indexes),
      List.Forall₂ (fun tri cs => trianglesCorners tri = .ok cs) T css ∧
      (ws.map fun p => p.2.indexVector).flatten.length = (css.map List.length).sum ∧
      ((∀ tri ∈ T, declares "VERTEX" tri = true) →
        (ws.map fun p => p.2.attrs.vertVector).flatten.length
            = (css.map fun cs => cs.toFinset.card).sum ∧
          ∀ i ∈ (ws.map fun p => p.2.indexVector).flatten,
            i < (css.map fun cs => cs.toFinset.card).sum) ∧
      ((∀ tri ∈ T, declares "NORMAL" tri = true) →
        (ws.map fun p => p.2.attrs.normalVector).flatten.length
            = (css.map fun cs => cs.toFinset.card).sum) ∧
      ((∀ tri ∈ T, declares "NORMAL" tri = false) →
        (ws.map fun p => p.2.attrs.normalVector).flatten = []) ∧
      ((∀ tri ∈ T, declares "TEXCOORD" tri = true) →
        (ws.map fun p => p.2.attrs.texcoordVector).flatten.length
            = (css.map fun cs => cs.toFinset.card).sum) ∧
      ((∀ tri ∈ T, declares "TEXCOORD" tri = false) →
        (ws.map fun p => p.2.attrs.texcoordVector).flatten = []) := by
  induction h with
  | nil => exact ⟨[], by simp⟩
  | @cons tri p T ws hw _ ih =>
    obtain ⟨css, c1, c2, c3, c4, c5, c6, c7⟩ := ih
    obtain ⟨cs, s1, s2, s3, s4, s5, s6⟩ := Welded_sizes tri p.1 p.2 hw
    refine ⟨cs :: css, List.Forall₂.cons s1 c1, ?_, ?_, ?_, ?_, ?_, ?_⟩
    · simp [c2, s2]
    · intro hv
      have hv1 := hv tri (List.mem_cons_self _ _)
      obtain ⟨d1, d2⟩ := c3 (fun t ht => hv t (List.mem_cons_of_mem _ ht))
      rw [hv1, if_pos rfl] at s4
      refine ⟨by simp [d1, s4], ?_⟩
      intro i hi
      simp only [List.map_cons, List.flatten_cons, List.mem_append, List.sum_cons] at hi ⊢
      rcases hi with hi | hi
      · have := s3 i hi; omega
      · have := d2 i hi; omega
    · intro hv
      have hv1 := hv tri (List.mem_cons_self _ _)
      have d1 := c4 (fun t ht => hv t (List.mem_cons_of_mem _ ht))
      rw [hv1, if_pos rfl] at s5
      simp [d1, s5]
    · intro hv
      have hv1 := hv tri (List.mem_cons_self _ _)
      have d1 := c5 (fun t ht => hv t (List.mem_cons_of_mem _ ht))
      rw [hv1] at s5
      simp only [Bool.false_eq_true, if_false, List.length_eq_zero] at s5
      simp [d1, s5]
    · intro hv
      have hv1 := hv tri (List.mem_cons_self _ _)
      have d1 := c6 (fun t ht => hv t (List.mem_cons_of_mem _ ht))
      rw [hv1, if_pos rfl] at s6
      simp [d1, s6]
    · intro hv
      have hv1 := hv tri (List.mem_cons_self _ _)
      have d1 := c7 (fun t ht => hv t (List.mem_cons_of_mem _ ht))
      rw [hv1] at s6
      simp only [Bool.false_eq_true, if_false, List.length_eq_zero] at s6
      simp [d1, s6]

/-- C1, amended. For every document on which `Import_DAE` succeeds and in which every
`<triangles>` element that is welded declares an input of semantic VERTEX, every value
of the index array of the mesh is strictly less than the number of vertices. -/
theorem import_index_lt_vertex_count {F : Type} [Zero F] (atof : List Char → F)
    (doc : TiXmlDocument) (mesh : Mesh F) (h : Import_DAE atof (some doc) = .ok mesh)
    (hv : ∀ tri ∈ trianglesOfDocument doc, declares "VERTEX" tri = true) :
    ∀ i ∈ mesh.mIndices, i < mesh.mVertices.length := by
  obtain ⟨ws, hws, e1, e2, _, _⟩ := import_spec atof doc mesh h
  obtain ⟨css, _, _, c3, _⟩ := welded_list_sizes _ ws hws
  obtain ⟨d1, d2⟩ := c3 hv
  intro i hi
  rw [e2, d1]
  exact d2 i (e1 ▸ hi)

/-- C2, amended. For every document on which `Import_DAE` succeeds, in which every
`<triangles>` element that is welded declares a VERTEX input, and in which these elements
agree on whether they declare a NORMAL input and on whether they declare a TEXCOORD
input, the normals array is empty or as long as the positions array, and so is the
texcoords array. -/
theorem import_attribute_arrays_coherent {F : Type} [Zero F] (atof : List Char → F)
    (doc : TiXmlDocument) (mesh : Mesh F) (h : Import_DAE atof (some doc) = .ok mesh)
    (hv : ∀ tri ∈ trianglesOfDocument doc, declares "VERTEX" tri = true)
    (hn : ∀ tri ∈ trianglesOfDocument doc, ∀ tri2 ∈ trianglesOfDocument doc,
      declares "NORMAL" tri = declares "NORMAL" tri2)
    (ht : ∀ tri ∈ trianglesOfDocument doc, ∀ tri2 ∈ trianglesOfDocument doc,
      declares "TEXCOORD" tri = declares "TEXCOORD" tri2) :
    (mesh.mNormals = [] ∨ mesh.mNormals.length = mesh.mVertices.length) ∧
    (mesh.mTexCoords = [] ∨ mesh.mTexCoords.length = mesh.mVertices.length) := by
  obtain ⟨ws, hws, _, e2, e3, e4⟩ := import_spec atof doc mesh h
  obtain ⟨css, _, _, c3, c4, c5, c6, c7⟩ := welded_list_sizes _ ws hws
  obtain ⟨d1, _⟩ := c3 hv
  have uniform : ∀ sem : String,
      (∀ tri ∈ trianglesOfDocument doc, ∀ tri2 ∈ trianglesOfDocument doc,
        declares sem tri = declares sem tri2) →
      (∀ tri ∈ trianglesOfDocument doc, declares sem tri = true) ∨
      (∀ tri ∈ trianglesOfDocument doc, declares sem tri = false) := by
    intro sem hs
    cases hT : trianglesOfDocument doc with
    | nil => left; intro tri htri; simp at htri
    | cons t0 T =>
      rw [hT] at hs
      cases hb : declares sem t0 with
      | true => left; intro tri htri; rw [hs tri htri t0 (List.mem_cons_self _ _), hb]
      | false => right; intro tri htri; rw [hs tri htri t0 (List.mem_cons_self _ _), hb]
  refine ⟨?_, ?_⟩
  · rcases uniform "NORMAL" hn with a | a
    · right; rw [e3, e2, c4 a, d1]
    · left; rw [e3, c5 a]
  · rcases uniform "TEXCOORD" ht with a | a
    · right; rw [e4, e2, c6 a, d1]
    · left; rw [e4, c7 a]

/-- C10, amended. The weld cache is not shared between primitive sets: for every document
on which `Import_DAE` succeeds and in which every `<triangles>` element that is welded
declares a VERTEX input, the corners of every such element decode, the number of vertices
of the mesh is the sum over these elements of the number of distinct triples of the
element, and the number of indices is the sum of their corner counts. -/
theorem import_counts_per_primitive_set {F : Type} [Zero F] (atof : List Char → F)
    (doc : TiXmlDocument) (mesh : Mesh F) (h : Import_DAE atof (some doc) = .ok mesh)
    (hv : ∀ tri ∈ trianglesOfDocument doc, declares "VERTEX" tri = true) :
    ∃ css : List (List Indexes),
      List.Forall₂ (fun tri cs => trianglesCorners tri = .ok cs) (trianglesOfDocument doc) css ∧
      mesh.mVertices.length = (css.map fun cs => cs.toFinset.card).sum ∧
      mesh.mIndices.length = (css.map List.length).sum := by
  obtain ⟨ws, hws, e1, e2, _, _⟩ := import_spec atof doc mesh h
  obtain ⟨css, c1, c2, c3, _⟩ := welded_list_sizes _ ws hws
  exact ⟨css, c1, by rw [e2, (c3 hv).1], by rw [e1, c2]⟩

/-- C1, witness: the document of scenario S1. -/
theorem import_index_lt_vertex_count_witness :
    Import_DAE atofInt (some docTriangle)
        = .ok ⟨[0, 1, 2], [⟨0, 0, 0⟩, ⟨1, 0, 0⟩, ⟨0, 1, 0⟩], [], [], ""⟩ ∧
      (∀ tri ∈ trianglesOfDocument docTriangle, declares "VERTEX" tri = true) ∧
      ∀ i ∈ [0, 1, 2], i < [(⟨0, 0, 0⟩ : Vector3 Int), ⟨1, 0, 0⟩, ⟨0, 1, 0⟩].length :=
  ⟨by decide, by decide,
    import_index_lt_vertex_count atofInt docTriangle
      ⟨[0, 1, 2], [⟨0, 0, 0⟩, ⟨1, 0, 0⟩, ⟨0, 1, 0⟩], [], [], ""⟩ (by decide) (by decide)⟩

/-- C1, counterexample. The import of a document whose `<triangles>` element declares a
NORMAL input only succeeds with the index array `[0, 0, 0]` and no vertex: the index 0
is not less than the vertex count 0. -/
theorem import_index_not_lt_vertex_count :
    ∃ mesh : Mesh Int, Import_DAE atofInt (some docNoVertexInput) = .ok mesh ∧
      ¬ ∀ i ∈ mesh.mIndices, i < mesh.mVertices.length :=
  ⟨⟨[0, 0, 0], [], [⟨0, 0, 1⟩], [], ""⟩, by decide, by decide⟩

/-- C2, witness: the document of scenario S2. -/
theorem import_attribute_arrays_coherent_witness :
    Import_DAE atofInt (some docTriangleNormal)
        = .ok ⟨[0, 1, 2], [⟨0, 0, 0⟩, ⟨1, 0, 0⟩, ⟨0, 1, 0⟩],
            [⟨0, 0, 1⟩, ⟨0, 0, 1⟩, ⟨0, 0, 1⟩], [], ""⟩ ∧
      (∀ tri ∈ trianglesOfDocument docTriangleNormal, declares "VERTEX" tri = true) ∧
      (∀ tri ∈ trianglesOfDocument docTriangleNormal,
        ∀ tri2 ∈ trianglesOfDocument docTriangleNormal,
          declares "NORMAL" tri = declares "NORMAL" tri2) ∧
      (∀ tri ∈ trianglesOfDocument docTriangleNormal,
        ∀ tri2 ∈ trianglesOfDocument docTriangleNormal,
          declares "TEXCOORD" tri = declares "TEXCOORD" tri2) ∧
      (([⟨0, 0, 1⟩, ⟨0, 0, 1⟩, ⟨0, 0, 1⟩] : List (Vector3 Int)) = [] ∨
        ([⟨0, 0, 1⟩, ⟨0, 0, 1⟩, ⟨0, 0, 1⟩] : List (Vector3 Int)).length
          = ([⟨0, 0, 0⟩, ⟨1, 0, 0⟩, ⟨0, 1, 0⟩] : List (Vector3 Int)).length) ∧
      (([] : List (Vector2 Int)) = [] ∨
        ([] : List (Vector2 Int)).length
          = ([⟨0, 0, 0⟩, ⟨1, 0, 0⟩, ⟨0, 1, 0⟩] : List (Vector3 Int)).length) :=
  ⟨by decide, by decide, by decide, by decide,
    import_attribute_arrays_coherent atofInt docTriangleNormal
      ⟨[0, 1, 2], [⟨0, 0, 0⟩, ⟨1, 0, 0⟩, ⟨0, 1, 0⟩],
        [⟨0, 0, 1⟩, ⟨0, 0, 1⟩, ⟨0, 0, 1⟩], [], ""⟩
      (by decide) (by decide) (by decide) (by decide)⟩

/-- C2, counterexample. Two geometries whose triangles declare different sets of inputs
(VERTEX and NORMAL in the first, VERTEX only in the second): the import succeeds with six
positions and three normals, so the normals array is neither empty nor as long as the
positions array. -/
theorem import_normals_not_coherent :
    ∃ mesh : Mesh Int, Import_DAE atofInt (some docMixedInputs) = .ok mesh ∧
      ¬ (mesh.mNormals = [] ∨ mesh.mNormals.length = mesh.mVertices.length) :=
  ⟨⟨[0, 1, 2, 0, 1, 2],
      [⟨0, 0, 0⟩, ⟨1, 0, 0⟩, ⟨0, 1, 0⟩, ⟨5, 5, 5⟩, ⟨6, 6, 6⟩, ⟨7, 7, 7⟩],
      [⟨0, 0, 1⟩, ⟨0, 0, 1⟩, ⟨0, 0, 1⟩], [], ""⟩, by decide, by decide⟩

/-- The part of C7 that the code fulfils: a name that is neither a key of the source
table nor a key of the `<vertices>` map makes `GetSource` throw. -/
theorem GetSource_throws {F : Type} (sources : List (String × Source F))
    (vertices : List (String × List Input)) (name : String)
    (hs : mapFind sources name = none) (hv : mapFind vertices name = none) :
    GetSource sources vertices name = .error (.thrown "Error") := by
  simp [GetSource, hs, hv]

/-- C7, the failing input. For a name that is a key of the `<vertices>` map none of whose
inputs names a key of the source table, `GetSource` does not throw: it leaves the loop
with `srcIterator == sources.end()` and returns `srcIterator->second`. -/
theorem GetSource_unresolved_alias_dereferences_end :
    GetSource ([] : List (String × Source Int)) [("V", [⟨"P", .UNKNOWN, 0⟩])] "V"
      = .error .endDeref := by
  decide

/-- C8, amended. A source of stride 0 is not rejected: every 3-vector and every 2-vector
fetched from a source that has stride 0 is the zero vector, whatever the element index,
and no element of the float array is read. -/
theorem fetch_from_stride_zero {F : Type} [Zero F] (sources : List (String × Source F))
    (vertices : List (String × List Input)) (name : String) (src : Source F) (k : Nat)
    (h : GetSource sources vertices name = .ok src) (hs : src.stride = 0) :
    fetchVector3 sources vertices name k = .ok ⟨0, 0, 0⟩ ∧
      fetchVector2 sources vertices name k = .ok ⟨0, 0⟩ := by
  simp [fetchVector3, fetchVector2, h, component, hs, bind, Except.bind, pure, Except.pure]

/-- C8, witness: element 7 of a source of stride 0 with an empty float array. -/
theorem fetch_from_stride_zero_witness :
    GetSource [("P", (⟨[], 0, 3, 0, []⟩ : Source Int))] [] "P" = .ok ⟨[], 0, 3, 0, []⟩ ∧
      (⟨[], 0, 3, 0, []⟩ : Source Int).stride = 0 ∧
      fetchVector3 [("P", (⟨[], 0, 3, 0, []⟩ : Source Int))] [] "P" 7 = .ok ⟨0, 0, 0⟩ ∧
      fetchVector2 [("P", (⟨[], 0, 3, 0, []⟩ : Source Int))] [] "P" 7 = .ok ⟨0, 0⟩ :=
  ⟨by decide, rfl,
    fetch_from_stride_zero [("P", (⟨[], 0, 3, 0, []⟩ : Source Int))] [] "P" ⟨[], 0, 3, 0, []⟩ 7
      (by decide) rfl⟩

/-- C8, counterexample. The document of scenario S1 with `stride="0"` in the accessor of
its position source is imported without an error: the mesh has the indices `0 1 2` and
three positions `(0,0,0)`. -/
theorem import_accepts_stride_zero :
    Import_DAE atofInt (some docStrideZero)
      = .ok ⟨[0, 1, 2], [⟨0, 0, 0⟩, ⟨0, 0, 0⟩, ⟨0, 0, 0⟩], [], [], ""⟩ := by
  decide

/-- C9, the failing input. Two geometries of one triangle each: the indices of the second
geometry are appended as they are, `0 1 2`, although three vertices are in the mesh
before the append; they address the vertices of the first geometry. -/
theorem import_does_not_rebase_indices :
    Import_DAE atofInt (some docTwoGeometries)
      = .ok ⟨[0, 1, 2, 0, 1, 2],
          [⟨0, 0, 0⟩, ⟨1, 0, 0⟩, ⟨0, 1, 0⟩, ⟨5, 5, 5⟩, ⟨6, 6, 6⟩, ⟨7, 7, 7⟩], [], [], ""⟩ := by
  decide

/-- C10, witness: two geometries with the same index stream `0 1 2` give six vertices and
six indices. -/
theorem import_counts_per_primitive_set_witness :
    Import_DAE atofInt (some docTwoGeometries)
        = .ok ⟨[0, 1, 2, 0, 1, 2],
            [⟨0, 0, 0⟩, ⟨1, 0, 0⟩, ⟨0, 1, 0⟩, ⟨5, 5, 5⟩, ⟨6, 6, 6⟩, ⟨7, 7, 7⟩], [], [], ""⟩ ∧
      (∀ tri ∈ trianglesOfDocument docTwoGeometries, declares "VERTEX" tri = true) ∧
      ∃ css : List (List Indexes),
        List.Forall₂ (fun tri cs => trianglesCorners tri = .ok cs)
          (trianglesOfDocument docTwoGeometries) css ∧
        ([⟨0, 0, 0⟩, ⟨1, 0, 0⟩, ⟨0, 1, 0⟩, ⟨5, 5, 5⟩, ⟨6, 6, 6⟩, ⟨7, 7, 7⟩] :
            List (Vector3 Int)).length = (css.map fun cs => cs.toFinset.card).sum ∧
        [0, 1, 2, 0, 1, 2].length = (css.map List.length).sum :=
  ⟨by decide, by decide,
    import_counts_per_primitive_set atofInt docTwoGeometries
      ⟨[0, 1, 2, 0, 1, 2],
        [⟨0, 0, 0⟩, ⟨1, 0, 0⟩, ⟨0, 1, 0⟩, ⟨5, 5, 5⟩, ⟨6, 6, 6⟩, ⟨7, 7, 7⟩], [], [], ""⟩
      (by decide) (by decide)⟩

/-- C10, counterexample. Two geometries; the triangles of the second declare no VERTEX
input.  The streams have 3 and 1 distinct triples, and the imported mesh has 3 vertices,
not 4. -/
theorem import_vertex_count_not_sum_of_distinct :
    ∃ mesh : Mesh Int, Import_DAE atofInt (some docSecondWithoutVertex) = .ok mesh ∧
      (trianglesOfDocument docSecondWithoutVertex).map trianglesCorners
        = [.ok [⟨0, 0, 0⟩, ⟨1, 0, 0⟩, ⟨2, 0, 0⟩], .ok [⟨0, 0, 0⟩, ⟨0, 0, 0⟩, ⟨0, 0, 0⟩]] ∧
      mesh.mVertices.length
        ≠ ([⟨0, 0, 0⟩, ⟨1, 0, 0⟩, ⟨2, 0, 0⟩] : List Indexes).toFinset.card
          + ([⟨0, 0, 0⟩, ⟨0, 0, 0⟩, ⟨0, 0, 0⟩] : List Indexes).toFinset.card :=
  ⟨⟨[0, 1, 2, 0, 0, 0], [⟨0, 0, 0⟩, ⟨1, 0, 0⟩, ⟨0, 1, 0⟩], [], [], ""⟩,
    by decide, by decide, by decide⟩

/-! ## Reading the text that the exporter writes -/

theorem words_go_token (t : List Char) (ht : ∀ c ∈ t, isspace c = false) :
    ∀ (cur rest : List Char), (cur ≠ [] ∨ t ≠ []) →
      words.go (t ++ ' ' :: rest) cur = (cur.reverse ++ t) :: words.go rest [] := by
  induction t with
  | nil =>
    intro cur rest h
    have hc : cur ≠ [] := by simpa using h
    have : isspace ' ' = true := by decide
    simp [words.go, this, hc]
  | cons c t ih =>
    intro cur rest _
    have hcs : isspace c = false := ht c (List.mem_cons_self _ _)
    have := ih (fun x hx => ht x (List.mem_cons_of_mem _ hx)) (c :: cur) rest (Or.inl (by simp))
    simp [words.go, hcs, this]

theorem words_flatMap (toks : List (List Char)) (h : ∀ t ∈ toks, TokenOk t) :
    words (toks.flatMap fun t => t ++ [' ']) = toks := by
  induction toks with
  | nil => simp [words, words.go]
  | cons t toks ih =>
    obtain ⟨h1, h2, _⟩ := h t (List.mem_cons_self _ _)
    have ih' := ih (fun x hx => h x (List.mem_cons_of_mem _ hx))
    simp only [words] at ih' ⊢
    simp only [List.flatMap_cons, List.append_assoc, List.singleton_append]
    rw [words_go_token t h2 [] _ (Or.inr h1), ih']
    simp

theorem intercalate_cons (t : List Char) (ts : List (List Char)) :
    List.intercalate [' '] (t :: ts) = t ++ ts.flatMap fun x => ' ' :: x := by
  induction ts generalizing t with
  | nil => simp [List.intercalate]
  | cons t2 ts ih =>
    have := ih t2
    simp only [List.intercalate, List.intersperse, List.flatten_cons, List.flatMap_cons] at this ⊢
    simp [this]

theorem takeWhile_token (t rest : List Char) (ht : ∀ c ∈ t, isspace c = false)
    (hr : rest = [] ∨ ∃ r, rest = ' ' :: r) :
    (t ++ rest).takeWhile (fun c => !isspace c) = t ∧
      (t ++ rest).dropWhile (fun c => !isspace c) = rest := by
  induction t with
  | nil =>
    rcases hr with rfl | ⟨r, rfl⟩
    · simp
    · have : isspace ' ' = true := by decide
      simp [List.takeWhile, List.dropWhile, this]
  | cons c t ih =>
    have hcs : isspace c = false := ht c (List.mem_cons_self _ _)
    have := ih (fun x hx => ht x (List.mem_cons_of_mem _ hx))
    simp [List.takeWhile, List.dropWhile, hcs, this]

theorem dropWhile_space_token (pre t rest : List Char) (hp : ∀ c ∈ pre, isspace c = true)
    (ht : ∀ c ∈ t, isspace c = false) (hne : t ≠ []) :
    (pre ++ (t ++ rest)).dropWhile isspace = t ++ rest := by
  induction pre with
  | nil =>
    cases t with
    | nil => exact absurd rfl hne
    | cons c t =>
      have hcs : isspace c = false := ht c (List.mem_cons_self _ _)
      simp [List.dropWhile, hcs]
  | cons p pre ih =>
    have hps : isspace p = true := hp p (List.mem_cons_self _ _)
    have := ih (fun x hx => hp x (List.mem_cons_of_mem _ hx))
    simp [List.dropWhile, hps, this]

theorem readLoop_eof {α : Type} (convert : List Char → Except Failure α) (fuel : Nat)
    (rest : List Char) (fb : Bool) (val : Option (List Char)) (acc : List α) :
    readLoop convert fuel ⟨rest, true, fb⟩ val acc = .ok acc := by
  cases fuel <;> simp [readLoop]

theorem readLoop_tokens {α : Type} (convert : List Char → Except Failure α) :
    ∀ (ts : List (List Char)) (vals : List α) (fuel : Nat) (pre t : List Char)
      (val : Option (List Char)) (acc : List α) (v : α),
      TokenOk t → (∀ x ∈ ts, TokenOk x) → convert t = .ok v →
      List.Forall₂ (fun x y => convert x = .ok y) ts vals →
      ts.length + 1 ≤ fuel → (∀ c ∈ pre, isspace c = true) →
      readLoop convert fuel ⟨pre ++ (t ++ ts.flatMap fun x => ' ' :: x), false, false⟩ val acc
        = .ok (acc ++ v :: vals) := by
  intro ts
  induction ts with
  | nil =>
    intro vals fuel pre t val acc v ht _ hv hvals hfuel hpre
    cases hvals
    obtain ⟨h1, h2, h3⟩ := ht
    cases fuel with
    | zero => omega
    | succ f =>
      have hd := dropWhile_space_token pre t [] hpre h2 h1
      simp only [List.flatMap_nil, List.append_nil] at hd ⊢
      obtain ⟨c, cs, hcs⟩ := List.exists_cons_of_ne_nil h1
      have htk := takeWhile_token t [] h2 (Or.inl rfl)
      simp only [List.append_nil] at htk
      have hlen : ¬ (100 ≤ t.length) := by omega
      simp only [readLoop, IStringStream.extract, hd, Bool.false_eq_true, if_false,
        Bool.or_self]
      rw [hcs] at htk hlen ⊢
      simp only [htk.1, htk.2, hlen, ge_iff_le, if_false, bind, Except.bind]
      rw [← hcs, hv]
      simp [readLoop_eof]
  | cons t2 ts ih =>
    intro vals fuel pre t val acc v ht hts hv hvals hfuel hpre
    cases hvals with
    | cons hv2 hrest =>
      rename_i v2 vals2
      obtain ⟨h1, h2, h3⟩ := ht
      cases fuel with
      | zero => omega
      | succ f =>
        have hd := dropWhile_space_token pre t ((t2 :: ts).flatMap fun x => ' ' :: x) hpre h2 h1
        obtain ⟨c, cs, hcs⟩ := List.exists_cons_of_ne_nil h1
        have htk := takeWhile_token t ((t2 :: ts).flatMap fun x => ' ' :: x) h2
          (Or.inr ⟨t2 ++ ts.flatMap fun x => ' ' :: x, by simp⟩)
        have hlen : ¬ (100 ≤ t.length) := by omega
        have ih' := ih vals2 f [' '] t2 (some t) (acc ++ [v]) v2
          (hts t2 (List.mem_cons_self _ _)) (fun x hx => hts x (List.mem_cons_of_mem _ hx))
          hv2 hrest (by simp at hfuel; omega) (by simp; decide)
        simp only [readLoop, IStringStream.extract, hd, Bool.false_eq_true, if_false,
          Bool.or_self]
        have hcs2 : t ++ (t2 :: ts).flatMap (fun x => ' ' :: x)
            = c :: (cs ++ (t2 :: ts).flatMap (fun x => ' ' :: x)) := by rw [hcs]; rfl
        rw [hcs2]
        simp only []
        rw [← hcs2]
        simp only [htk.1, htk.2, hlen, ge_iff_le, if_false, bind, Except.bind, hv]
        simp only [List.flatMap_cons, List.cons_append, List.isEmpty_cons] at ih' ⊢
        simpa using ih'

/-- Reading a text of tokens separated by single blanks gives the converted tokens. -/
theorem readArray_intercalate {α : Type} (convert : List Char → Except Failure α)
    (toks : List (List Char)) (vals acc : List α) (hne : toks ≠ [])
    (htok : ∀ x ∈ toks, TokenOk x)
    (hvals : List.Forall₂ (fun x y => convert x = .ok y) toks vals) :
    readArray convert (String.mk (List.intercalate [' '] toks)) acc = .ok (acc ++ vals) := by
  cases hvals with
  | nil => exact absurd rfl hne
  | cons hv hrest =>
    rename_i t v ts vs
    rw [readArray, intercalate_cons]
    have := readLoop_tokens convert ts vs ((t ++ ts.flatMap fun x => ' ' :: x).length + 1)
      [] t none acc v (htok t (List.mem_cons_self _ _))
      (fun x hx => htok x (List.mem_cons_of_mem _ hx)) hv hrest ?_ (by simp)
    · simpa using this
    · have hl : ts.length ≤ (ts.flatMap fun x => ' ' :: x).length := by
        clear hrest htok hne
        induction ts with
        | nil => simp
        | cons a ts ih => simp only [List.flatMap_cons, List.length_cons, List.length_append]; omega
      simp only [List.length_append]
      omega

theorem digit_char (d : Nat) (h : d < 10) :
    (Char.ofNat (48 + d)).isDigit = true ∧ (Char.ofNat (48 + d)).toNat - 48 = d := by
  interval_cases d <;> decide

theorem isDigit_not_space (c : Char) (h : c.isDigit = true) :
    isspace c = false ∧ c ≠ '-' ∧ c ≠ '+' := by
  refine ⟨?_, ?_, ?_⟩
  · by_contra hs
    simp only [Bool.not_eq_false, isspace, Bool.or_eq_true, decide_eq_true_eq] at hs
    rcases hs with ((((rfl | rfl) | rfl) | rfl) | rfl) | rfl <;> exact absurd h (by decide)
  · rintro rfl; exact absurd h (by decide)
  · rintro rfl; exact absurd h (by decide)

theorem atoi_digits_cons (c : Char) (cs : List Char) (a : Nat) (h : c.isDigit = true) :
    atoi.digits (c :: cs) a = atoi.digits cs (a * 10 + (c.toNat - 48)) := by
  simp [atoi.digits, h]

theorem utoa_go_spec : ∀ (fuel n : Nat), n < fuel →
    ∃ pre : List Char, (∀ acc, utoa.go fuel n acc = pre ++ acc) ∧ pre ≠ [] ∧
      (∀ c ∈ pre, c.isDigit = true) ∧
      (∀ a rest, atoi.digits (pre ++ rest) a = atoi.digits rest (a * 10 ^ pre.length + n)) ∧
      (pre.length = 1 ∨ 10 ^ (pre.length - 1) ≤ n) := by
  intro fuel
  induction fuel with
  | zero => intro n h; omega
  | succ f ih =>
    intro n h
    by_cases hn : n < 10
    · obtain ⟨d1, d2⟩ := digit_char n hn
      refine ⟨[Char.ofNat (48 + n)], ?_, by simp, ?_, ?_, Or.inl rfl⟩
      · intro acc; simp [utoa.go, hn]
      · intro c hc; simp at hc; rw [hc]; exact d1
      · intro a rest
        simp only [List.singleton_append, List.length_singleton, pow_one]
        rw [atoi_digits_cons _ _ _ d1, d2]
    · have hlt : n / 10 < f := by omega
      obtain ⟨pre, p1, p2, p3, p4, p5⟩ := ih (n / 10) hlt
      obtain ⟨d1, d2⟩ := digit_char (n % 10) (Nat.mod_lt _ (by norm_num))
      refine ⟨pre ++ [Char.ofNat (48 + n % 10)], ?_, by simp, ?_, ?_, Or.inr ?_⟩
      · intro acc; simp [utoa.go, hn, p1]
      · intro c hc
        simp only [List.mem_append, List.mem_singleton] at hc
        rcases hc with hc | hc
        · exact p3 c hc
        · rw [hc]; exact d1
      · intro a rest
        simp only [List.append_assoc, List.singleton_append, List.length_append,
          List.length_singleton]
        rw [p4, atoi_digits_cons _ _ _ d1, d2]
        congr 1
        have := Nat.div_add_mod n 10
        rw [pow_succ]
        nlinarith [this]
      · simp only [List.length_append, List.length_singleton, Nat.add_sub_cancel]
        rcases p5 with p5 | p5
        · rw [p5]; omega
        · have hpos : 0 < pre.length := List.length_pos.mpr p2
          have : pre.length = (pre.length - 1) + 1 := by omega
          rw [this, pow_succ]
          have := Nat.div_mul_le_self n 10
          nlinarith [p5]

/-- The text of a number below `2 ^ 31` is a token that `atoi` reads back. -/
theorem utoa_spec (n : Nat) (h : n < 2 ^ 31) :
    TokenOk (utoa n) ∧ atoi (utoa n) = .ok (n : Int) := by
  obtain ⟨pre, p1, p2, p3, p4, p5⟩ := utoa_go_spec (n + 1) n (by omega)
  have e : utoa n = pre := by simp [utoa, p1]
  rw [e]
  have hlen : pre.length < 100 := by
    rcases p5 with p5 | p5
    · omega
    · by_contra hc
      have h10 : (10 : Nat) ^ 10 ≤ 10 ^ (pre.length - 1) :=
        Nat.pow_le_pow_right (by norm_num) (by omega)
      have : (2 : Nat) ^ 31 < 10 ^ 10 := by norm_num
      omega
  refine ⟨⟨p2, fun c hc => (isDigit_not_space c (p3 c hc)).1, hlen⟩, ?_⟩
  obtain ⟨c, cs, hcs⟩ := List.exists_cons_of_ne_nil p2
  have hc : c.isDigit = true := p3 c (by rw [hcs]; exact List.mem_cons_self _ _)
  obtain ⟨s1, s2, s3⟩ := isDigit_not_space c hc
  have hv := p4 0 []
  simp only [List.append_nil, zero_mul, zero_add, atoi.digits] at hv
  have hd : pre.dropWhile isspace = c :: cs := by rw [hcs]; simp [List.dropWhile, s1]
  unfold atoi
  rw [hd]
  have hm : (match c :: cs with
      | '-' :: r => - (atoi.digits r 0 : Int)
      | '+' :: r => (atoi.digits r 0 : Int)
      | r => (atoi.digits r 0 : Int)) = (atoi.digits (c :: cs) 0 : Int) := by
    split
    · rename_i r heq; simp at heq; exact absurd heq.1 s2
    · rename_i r heq; simp at heq; exact absurd heq.1 s3
    · rfl
  simp only [hm]
  rw [← hcs, hv]
  have hcond : -2 ^ 31 ≤ (n : Int) ∧ (n : Int) < 2 ^ 31 := by
    constructor
    · have : (0 : Int) ≤ (n : Int) := Int.ofNat_nonneg n
      norm_num
      omega
    · exact_mod_cast h
  exact if_pos hcond

/-! ## The document of the exporter, read back -/

theorem reloadNode_tokens (toks : List (List Char)) (hne : toks ≠ [])
    (htok : ∀ t ∈ toks, TokenOk t) :
    reloadNode (.text (String.mk (toks.flatMap fun t => t ++ [' '])))
      = [.text (String.mk (List.intercalate [' '] toks))] := by
  have hw := words_flatMap toks htok
  simp [reloadNode, condenseWhiteSpace, hw, hne]

theorem reloadNodes_params (params : List String) :
    reloadNodes (params.map paramElement) = params.map paramElement := by
  induction params with
  | nil => simp [reloadNodes]
  | cons p ps ih => simp [reloadNodes, reloadNode, paramElement, ih]

theorem atoi_itoa (n : Nat) (h : n < 2 ^ 31) : atoi (itoa (n : Int)) = .ok (n : Int) := by
  have : ¬ ((n : Int) < 0) := by omega
  simp only [itoa, this, if_false, Int.toNat_ofNat]
  exact (utoa_spec n h).2

theorem toInt_of_lt (n : Nat) (h : n < 2 ^ 31) : toInt n = (n : Int) := by
  unfold toInt
  norm_num at h ⊢
  omega

theorem toSizeT_natCast (n : Nat) (h : n < 2 ^ 64) : toSizeT (n : Int) = n := by
  unfold toSizeT SIZE_MODULUS
  have : ((n : Int) % ((2 ^ 64 : Nat) : Int)) = (n : Int) := by
    apply Int.emod_eq_of_lt (Int.ofNat_nonneg n)
    exact_mod_cast h
  rw [this]
  simp

theorem mapSet_of_none {κ ν : Type} [DecidableEq κ] (m : List (κ × ν)) (k : κ) (v : ν)
    (h : mapFind m k = none) : mapSet m k v = m ++ [(k, v)] := by
  induction m with
  | nil => rfl
  | cons p m ih =>
    obtain ⟨a, b⟩ := p
    by_cases e : a = k
    · simp [mapFind, e] at h
    · simp only [mapFind, e, if_false] at h
      simp [mapSet, e, ih h]

theorem mapFind_append_last {κ ν : Type} [DecidableEq κ] (m : List (κ × ν)) (k : κ) (v : ν)
    (h : mapFind m k = none) : mapFind (m ++ [(k, v)]) k = some v := by
  induction m with
  | nil => simp [mapFind]
  | cons p m ih =>
    obtain ⟨a, b⟩ := p
    by_cases e : a = k
    · simp [mapFind, e] at h
    · simp only [mapFind, e, if_false] at h
      simp [mapFind, e, ih h]

theorem mapSet_append_last {κ ν : Type} [DecidableEq κ] (m : List (κ × ν)) (k : κ) (v w : ν)
    (h : mapFind m k = none) : mapSet (m ++ [(k, v)]) k w = m ++ [(k, w)] := by
  induction m with
  | nil => simp [mapSet]
  | cons p m ih =>
    obtain ⟨a, b⟩ := p
    by_cases e : a = k
    · simp [mapFind, e] at h
    · simp only [mapFind, e, if_false] at h
      simp [mapSet, e, ih h]

theorem reloadNode_exportSource {F : Type} (ftoa : F → List Char) (id name : String)
    (arrayCount aCount n : Nat) (stride : Int) (aArray : List F) (params : List String)
    (hftoa : ∀ x, TokenOk (ftoa x)) (hne : aArray.take (aCount % 2 ^ 32) ≠ []) :
    reloadNode (exportSource ftoa id name arrayCount aArray aCount n stride params)
      = [reloadedSource ftoa id name arrayCount aArray aCount n stride params] := by
  have htoks : ∀ t ∈ (aArray.take (aCount % 2 ^ 32)).map ftoa, TokenOk t := by
    intro t ht
    simp only [List.mem_map] at ht
    obtain ⟨x, _, rfl⟩ := ht
    exact hftoa x
  have hne2 : (aArray.take (aCount % 2 ^ 32)).map ftoa ≠ [] := by simpa using hne
  have hfm : ((aArray.take (aCount % 2 ^ 32)).flatMap fun x => ftoa x ++ [' '])
      = ((aArray.take (aCount % 2 ^ 32)).map ftoa).flatMap fun t => t ++ [' '] := by
    simp [List.flatMap_def, List.map_map, Function.comp_def]
  have hw := words_flatMap _ htoks
  have hemp : ((aArray.take (aCount % 2 ^ 32)).map ftoa).isEmpty = false := by
    cases h : (aArray.take (aCount % 2 ^ 32)).map ftoa with
    | nil => exact absurd h hne2
    | cons _ _ => rfl
  simp only [exportSource, reloadedSource, reloadNode, reloadNodes, FloatArrayToXML, hfm, hw,
    hemp, condenseWhiteSpace, reloadNodes_params, List.append_nil, List.singleton_append,
    Bool.false_eq_true, if_false]

theorem ok_bind {ε α β : Type} (a : α) (f : α → Except ε β) :
    (Except.ok a >>= f) = f a := rfl

theorem readAccessor_ok {F : Type} (acc : TiXmlNode) (src : Source F) (s c : Nat)
    (hs : acc.Attribute "stride" = some (String.mk (itoa s)))
    (hc : acc.Attribute "count" = some (String.mk (itoa c)))
    (ho : acc.Attribute "offset" = some (String.mk (itoa 0)))
    (hs31 : s < 2 ^ 31) (hc31 : c < 2 ^ 31) :
    readAccessor acc src = .ok { src with stride := s, count := c, offset := 0 } := by
  have h0 : atoi (itoa 0) = .ok 0 := by decide
  have h064 : toSizeT 0 = 0 := by decide
  unfold readAccessor
  rw [hs, hc, ho]
  simp only [deref, ok_bind, atoi_itoa s hs31, atoi_itoa c hc31, h0, h064,
    toSizeT_natCast s (by omega), toSizeT_natCast c (by omega)]
  rfl

/-- The source element that `Export_DAE` writes, read back from the file and parsed by
the source loop of `Import_DAE`. -/
theorem readSource_reloadedSource {F : Type} (ftoa : F → List Char) (atof : List Char → F)
    (sources : List (String × Source F)) (id name : String) (arrayCount aCount n stride : Nat)
    (aArray : List F) (params : List String)
    (hftoa : ∀ x, TokenOk (ftoa x))
    (hid : mapFind sources id = none)
    (hne : aArray.take (aCount % 2 ^ 32) ≠ [])
    (hn : n < 2 ^ 31) (hs : stride < 2 ^ 31) :
    readSource atof sources
        (reloadedSource ftoa id name arrayCount aArray aCount n (stride : Int) params)
      = .ok (sources ++ [(id, { array := (aArray.take (aCount % 2 ^ 32)).map
                                  fun x => atof (ftoa x),
                                stride := stride, count := n, offset := 0, params := [] })]) := by
  have htoks : ∀ t ∈ (aArray.take (aCount % 2 ^ 32)).map ftoa, TokenOk t := by
    intro t ht
    simp only [List.mem_map] at ht
    obtain ⟨x, _, rfl⟩ := ht
    exact hftoa x
  have hne2 : (aArray.take (aCount % 2 ^ 32)).map ftoa ≠ [] := by simpa using hne
  have hread := readArray_intercalate (fun val => (pure (atof val) : Except Failure F))
    ((aArray.take (aCount % 2 ^ 32)).map ftoa)
    ((aArray.take (aCount % 2 ^ 32)).map fun x => atof (ftoa x)) [] hne2 htoks
    (by
      rw [List.forall₂_map_left_iff, List.forall₂_map_right_iff]
      exact List.forall₂_same.mpr (fun x _ => rfl))
  have hval : (reloadedSource ftoa id name arrayCount aArray aCount n (stride : Int)
      params).Value = "source" := rfl
  have hidA : deref ((reloadedSource ftoa id name arrayCount aArray aCount n (stride : Int)
      params).Attribute "id") = .ok id := by
    simp [reloadedSource, TiXmlNode.Attribute, mapFind, deref]
  have harr : childElement (reloadedSource ftoa id name arrayCount aArray aCount n
      (stride : Int) params) "float_array"
      = .ok (.element "float_array"
          [("id", id ++ "-array"), intAttribute "count" (toInt arrayCount)]
          [.text (String.mk
            (List.intercalate [' '] ((aArray.take (aCount % 2 ^ 32)).map ftoa)))]) := by
    simp [reloadedSource, childElement, TiXmlNode.FirstChild, TiXmlNode.children,
      TiXmlNode.Value, ToElement, TiXmlNode.isElement]
  have htxt : deref (TiXmlNode.element "float_array"
          [("id", id ++ "-array"), intAttribute "count" (toInt arrayCount)]
          [.text (String.mk
            (List.intercalate [' '] ((aArray.take (aCount % 2 ^ 32)).map ftoa)))]).GetText
      = .ok (String.mk (List.intercalate [' '] ((aArray.take (aCount % 2 ^ 32)).map ftoa))) :=
    rfl
  have htc : childElement (reloadedSource ftoa id name arrayCount aArray aCount n
      (stride : Int) params) "technique_common"
      = .ok (.element "technique_common" []
       [.element "accessor"
          [intAttribute "count" (toInt n), intAttribute "offset" 0,
           ("source", "#" ++ id ++ "-array"), intAttribute "stride" stride]
          (params.map paramElement)]) := by
    simp [reloadedSource, childElement, TiXmlNode.FirstChild, TiXmlNode.children,
      TiXmlNode.Value, ToElement, TiXmlNode.isElement]
  have hacc : childElement (TiXmlNode.element "technique_common" []
       [.element "accessor"
          [intAttribute "count" (toInt n), intAttribute "offset" 0,
           ("source", "#" ++ id ++ "-array"), intAttribute "stride" (stride : Int)]
          (params.map paramElement)]) "accessor"
      = .ok (.element "accessor"
          [intAttribute "count" (toInt n), intAttribute "offset" 0,
           ("source", "#" ++ id ++ "-array"), intAttribute "stride" stride]
          (params.map paramElement)) := by
    simp [childElement, TiXmlNode.FirstChild, TiXmlNode.children,
      TiXmlNode.Value, ToElement, TiXmlNode.isElement]
  have hra := readAccessor_ok (TiXmlNode.element "accessor"
          [intAttribute "count" (toInt n), intAttribute "offset" 0,
           ("source", "#" ++ id ++ "-array"), intAttribute "stride" (stride : Int)]
          (params.map paramElement)) (Source.new : Source F) stride n
      (by simp [TiXmlNode.Attribute, mapFind, intAttribute])
      (by simp [TiXmlNode.Attribute, mapFind, intAttribute, toInt_of_lt n hn])
      (by simp [TiXmlNode.Attribute, mapFind, intAttribute]) hs hn
  unfold readSource
  rw [if_neg (by rw [hval]; simp)]
  simp only [hidA, harr, htxt, htc, hacc, ok_bind, mapInsert, hid, mapSet_of_none _ _ _ hid,
    mapAt, mapFind_append_last _ _ _ hid, Option.getD_some, hra,
    mapSet_append_last _ _ _ _ hid]
  simp only [Source.new, hread, ok_bind, List.nil_append]
  rfl

/-! ## Success of the welding loop -/

theorem InsertVertNormalTexcoord_succeeds {F : Type} [Zero F] (a : Attributes F) (fl : Flags)
    (v n t : Nat) (sources : List (String × Source F)) (vertices : List (String × List Input))
    (h1 : fl.hasVerts = true → ∃ p, fetchVector3 sources vertices fl.vertSource v = .ok p)
    (h2 : fl.hasNormals = true → ∃ p, fetchVector3 sources vertices fl.normalSource n = .ok p)
    (h3 : fl.hasTexcoords = true →
      ∃ p, fetchVector2 sources vertices fl.texcoordSource t = .ok p) :
    ∃ a', InsertVertNormalTexcoord a fl v n t sources vertices = .ok a' := by
  cases hv : fl.hasVerts <;> cases hn : fl.hasNormals <;> cases ht : fl.hasTexcoords <;>
    simp only [hv, hn, ht, true_implies, Bool.false_eq_true, false_implies, fetchVector3,
      fetchVector2, bind_eq_ok, pure_eq_ok] at h1 h2 h3 <;>
    simp only [InsertVertNormalTexcoord, hv, hn, ht, if_true, if_false, Bool.false_eq_true,
      bind_eq_ok, pure_eq_ok]
  all_goals aesop

theorem weldStep_succeeds {F : Type} [Zero F] (fl : Flags) (sources : List (String × Source F))
    (vertices : List (String × List Input)) (st : WeldState F) (c : Indexes)
    (h : ∀ a : Attributes F, ∃ a', InsertVertNormalTexcoord a fl c.vertIndex c.normalIndex
      c.texcoordIndex sources vertices = .ok a') :
    ∃ st', weldStep fl sources vertices st c = .ok st' := by
  cases hl : lookup3 st.prevIndices c with
  | some u => exact ⟨_, weldStep_hit fl sources vertices st c u hl⟩
  | none =>
    obtain ⟨prev, hstep, _⟩ := weldStep_miss fl sources vertices st c hl
    obtain ⟨a', ha'⟩ := h st.attrs
    rw [hstep]
    exact ⟨_, by simp only [weldMiss, ha', ok_bind]; rfl⟩

/-- The welding loop ends without a failure when every corner of the stream decodes and
every attribute fetch for a corner succeeds. -/
theorem weldLoop_succeeds {F : Type} [Zero F] (inputs : List Input) (pArray : List Nat)
    (fl : Flags) (sources : List (String × Source F)) (vertices : List (String × List Input))
    (fuel : Nat) : ∀ (i : Nat) (cs : List Indexes) (st : WeldState F),
      cornersLoop inputs pArray fuel i = .ok cs →
      (∀ c ∈ cs, ∀ a : Attributes F, ∃ a', InsertVertNormalTexcoord a fl c.vertIndex
        c.normalIndex c.texcoordIndex sources vertices = .ok a') →
      ∃ w, weldLoop inputs pArray fl sources vertices fuel i st = .ok w := by
  induction fuel with
  | zero =>
    intro i cs st hcs _
    by_cases hi : i < pArray.length
    · simp [cornersLoop, hi] at hcs
    · exact ⟨st, by simp [weldLoop, hi]⟩
  | succ fuel ih =>
    intro i cs st hcs hall
    by_cases hi : i < pArray.length
    · simp only [cornersLoop, hi, if_true, bind_eq_ok, pure_eq_ok] at hcs
      obtain ⟨ix, hix, rest, hrest, rfl⟩ := hcs
      obtain ⟨st1, hst1⟩ := weldStep_succeeds fl sources vertices st ix
        (hall ix (List.mem_cons_self _ _))
      obtain ⟨w, hw⟩ := ih (i + inputs.length) rest st1 hrest
        (fun c hc => hall c (List.mem_cons_of_mem _ hc))
      exact ⟨w, by simp only [weldLoop, hi, if_true, hix, hst1, ok_bind, hw]⟩
    · exact ⟨st, by simp [weldLoop, hi]⟩

/-! ## The index stream and the sources of the exporter -/

theorem exportedStream_cons (v : Nat) (idx : List Nat) (k : Nat) :
    exportedStream (v :: idx) k = List.replicate k v ++ exportedStream idx k := by
  simp [exportedStream]

theorem exportedStream_length (idx : List Nat) (k : Nat) :
    (exportedStream idx k).length = k * idx.length := by
  induction idx with
  | nil => simp [exportedStream]
  | cons v idx ih => rw [exportedStream_cons]; simp [ih]; ring

theorem exportedStream_get (k : Nat) : ∀ (idx : List Nat) (j off : Nat), off < k →
    (exportedStream idx k).get? (k * j + off) = idx.get? j := by
  intro idx
  induction idx with
  | nil => intro j off _; simp [exportedStream]
  | cons v idx ih =>
    intro j off hoff
    rw [exportedStream_cons]
    cases j with
    | zero =>
      simp only [mul_zero, zero_add, List.get?_eq_getElem?, List.getElem?_cons_zero]
      rw [List.getElem?_append_left (by simpa using hoff)]
      simp [List.getElem?_replicate, hoff]
    | succ j =>
      have hk : k * (j + 1) + off = k + (k * j + off) := by ring
      simp only [List.get?_eq_getElem?, List.getElem?_cons_succ] at ih ⊢
      rw [hk, List.getElem?_append_right (by simp)]
      simpa using ih j off hoff

theorem vectorAt_eq_ok {α : Type} (v : List α) (i : Nat) (x : α) (h : v.get? i = some x) :
    vectorAt v i = .ok x := by
  unfold vectorAt
  rw [h]

theorem decodeTuple_exported (hT : Bool) (idx : List Nat) (j v : Nat)
    (hv : idx.get? j = some v) (hlen : idx.length < 2 ^ 31) :
    decodeTuple (exportedStream idx (exportedInputs hT).length)
        ((exportedInputs hT).length * j) (exportedInputs hT) ⟨0, 0, 0⟩
      = .ok (exportedTriple hT v) := by
  have hj : j < idx.length := by
    by_contra hc
    rw [List.get?_eq_none.mpr (by omega)] at hv
    exact absurd hv (by simp)
  have hsz : ∀ off, off < 3 → ∀ k, k ≤ 3 → sizeAdd (k * j) off = k * j + off := by
    intro off hoff k hk
    unfold sizeAdd SIZE_MODULUS
    apply Nat.mod_eq_of_lt
    have : k * j ≤ 3 * j := Nat.mul_le_mul_right j hk
    have h31 : (2 : Nat) ^ 31 = 2147483648 := by norm_num
    have h64 : (2 : Nat) ^ 64 = 18446744073709551616 := by norm_num
    omega
  cases hT with
  | true =>
    have g := fun off (h : off < 3) => vectorAt_eq_ok _ _ _
      ((exportedStream_get 3 idx j off h).trans hv)
    simp only [exportedInputs, if_true, List.cons_append, List.nil_append, List.length_cons,
      List.length_nil, decodeTuple, Nat.reduceAdd, hsz 0 (by omega) 3 (le_refl _),
      hsz 1 (by omega) 3 (le_refl _), hsz 2 (by omega) 3 (le_refl _), g 0 (by omega),
      g 1 (by omega), g 2 (by omega), ok_bind, exportedTriple]
  | false =>
    have g := fun off (h : off < 2) => vectorAt_eq_ok _ _ _
      ((exportedStream_get 2 idx j off h).trans hv)
    simp only [exportedInputs, Bool.false_eq_true, if_false, List.append_nil, List.length_cons,
      List.length_nil, decodeTuple, Nat.reduceAdd, hsz 0 (by omega) 2 (by omega),
      hsz 1 (by omega) 2 (by omega), g 0 (by omega), g 1 (by omega), ok_bind, exportedTriple]

theorem cornersLoop_exported (hT : Bool) (idx : List Nat) (hlen : idx.length < 2 ^ 31)
    (fuel : Nat) : ∀ j, idx.length ≤ fuel + j →
    cornersLoop (exportedInputs hT) (exportedStream idx (exportedInputs hT).length) fuel
        ((exportedInputs hT).length * j)
      = .ok ((idx.drop j).map (exportedTriple hT)) := by
  have hk : 0 < (exportedInputs hT).length := by cases hT <;> simp [exportedInputs]
  induction fuel with
  | zero =>
    intro j hj
    have : ¬ ((exportedInputs hT).length * j
        < (exportedStream idx (exportedInputs hT).length).length) := by
      rw [exportedStream_length]
      exact Nat.not_lt.mpr (Nat.mul_le_mul_left _ (by omega))
    simp [cornersLoop, this, List.drop_of_length_le (show idx.length ≤ j by omega)]
  | succ fuel ih =>
    intro j hj
    by_cases hjl : j < idx.length
    · have hi : (exportedInputs hT).length * j
          < (exportedStream idx (exportedInputs hT).length).length := by
        rw [exportedStream_length]
        exact Nat.mul_lt_mul_of_pos_left hjl hk
      have hd := decodeTuple_exported hT idx j (idx.get ⟨j, hjl⟩) (List.get?_eq_get hjl) hlen
      have hnext : (exportedInputs hT).length * j + (exportedInputs hT).length
          = (exportedInputs hT).length * (j + 1) := by ring
      have hdrop : idx.drop j = idx.get ⟨j, hjl⟩ :: idx.drop (j + 1) :=
        List.drop_eq_getElem_cons hjl
      have ih' := ih (j + 1) (by omega)
      rw [← hnext] at ih'
      rw [cornersLoop, if_pos hi, hd, ok_bind, ih', ok_bind, hdrop]
      rfl
    · have : ¬ ((exportedInputs hT).length * j
          < (exportedStream idx (exportedInputs hT).length).length) := by
        rw [exportedStream_length]
        exact Nat.not_lt.mpr (Nat.mul_le_mul_left _ (by omega))
      simp [cornersLoop, this, List.drop_of_length_le (show idx.length ≤ j by omega)]

/-- The corners of the index stream that `Export_DAE` writes. -/
theorem corners_exported (hT : Bool) (idx : List Nat) (hlen : idx.length < 2 ^ 31) :
    corners (exportedInputs hT) (exportedStream idx (exportedInputs hT).length)
      = .ok (idx.map (exportedTriple hT)) := by
  have hk : 0 < (exportedInputs hT).length := by cases hT <;> simp [exportedInputs]
  have := cornersLoop_exported hT idx hlen
    (exportedStream idx (exportedInputs hT).length).length 0 (by
      rw [exportedStream_length]
      have := Nat.mul_le_mul_right idx.length hk
      omega)
  simpa [corners] using this

theorem floats3_get {F : Type} : ∀ (P : List (Vector3 F)) (v : Nat) (p : Vector3 F),
    P.get? v = some p →
    (floats3 P).get? (3 * v) = some p.x ∧ (floats3 P).get? (3 * v + 1) = some p.y ∧
      (floats3 P).get? (3 * v + 2) = some p.z := by
  intro P
  induction P with
  | nil => intro v p h; simp at h
  | cons a P ih =>
    intro v p h
    cases v with
    | zero =>
      simp only [List.get?_cons_zero, Option.some.injEq] at h
      subst h
      simp [floats3]
    | succ v =>
      simp only [List.get?_cons_succ] at h
      obtain ⟨h1, h2, h3⟩ := ih v p h
      have e0 : 3 * (v + 1) = (3 * v) + 3 := by ring
      have e1 : 3 * v + 3 + 1 = (3 * v + 1) + 3 := by ring
      have e2 : 3 * v + 3 + 2 = (3 * v + 2) + 3 := by ring
      simp only [floats3, List.flatMap_cons, List.get?_eq_getElem?] at h1 h2 h3 ⊢
      rw [e0, e1, e2]
      simp only [List.cons_append, List.nil_append, List.getElem?_cons_succ]
      exact ⟨h1, h2, h3⟩

theorem floats2_get {F : Type} : ∀ (P : List (Vector2 F)) (v : Nat) (p : Vector2 F),
    P.get? v = some p →
    (floats2 P).get? (2 * v) = some p.u ∧ (floats2 P).get? (2 * v + 1) = some p.v := by
  intro P
  induction P with
  | nil => intro v p h; simp at h
  | cons a P ih =>
    intro v p h
    cases v with
    | zero =>
      simp only [List.get?_cons_zero, Option.some.injEq] at h
      subst h
      simp [floats2]
    | succ v =>
      simp only [List.get?_cons_succ] at h
      obtain ⟨h1, h2⟩ := ih v p h
      have e0 : 2 * (v + 1) = (2 * v) + 2 := by ring
      have e1 : 2 * v + 2 + 1 = (2 * v + 1) + 2 := by ring
      simp only [floats2, List.flatMap_cons, List.get?_eq_getElem?] at h1 h2 ⊢
      rw [e0, e1]
      simp only [List.cons_append, List.nil_append, List.getElem?_cons_succ]
      exact ⟨h1, h2⟩

theorem floats3_length {F : Type} (P : List (Vector3 F)) : (floats3 P).length = P.length * 3 := by
  induction P with
  | nil => rfl
  | cons a P ih => simp [floats3] at ih ⊢; omega

theorem floats2_length {F : Type} (P : List (Vector2 F)) : (floats2 P).length = P.length * 2 := by
  induction P with
  | nil => rfl
  | cons a P ih => simp [floats2] at ih ⊢; omega

theorem size_index (v c : Nat) (s : Nat) (hs : s ≤ 3) (hc : c ≤ 2) (hv : v * 3 < 2 ^ 31) :
    sizeAdd 0 (sizeMul v s) = s * v ∧ sizeAdd (s * v) c = s * v + c := by
  have h31 : (2 : Nat) ^ 31 = 2147483648 := by norm_num
  have h64 : (2 : Nat) ^ 64 = 18446744073709551616 := by norm_num
  have hvs : v * s ≤ v * 3 := Nat.mul_le_mul_left v hs
  have e1 : sizeMul v s = s * v := by
    unfold sizeMul SIZE_MODULUS
    rw [Nat.mod_eq_of_lt (by omega), Nat.mul_comm]
  have e2 : sizeAdd 0 (s * v) = s * v := by
    unfold sizeAdd SIZE_MODULUS
    rw [Nat.zero_add, Nat.mod_eq_of_lt (by rw [Nat.mul_comm]; omega)]
  refine ⟨by rw [e1, e2], ?_⟩
  unfold sizeAdd SIZE_MODULUS
  rw [Nat.mod_eq_of_lt (by rw [Nat.mul_comm]; omega)]

theorem fetchVector3_of_source {F : Type} [Zero F] (g : F → F)
    (sources : List (String × Source F)) (vertices : List (String × List Input))
    (name : String) (P : List (Vector3 F)) (count v : Nat) (p : Vector3 F)
    (hsrc : GetSource sources vertices name
      = .ok { array := (floats3 P).map g, stride := 3, count := count, offset := 0,
              params := [] })
    (hp : P.get? v = some p) (hv : v * 3 < 2 ^ 31) :
    fetchVector3 sources vertices name v = .ok (p.map g) := by
  obtain ⟨h0, h1, h2⟩ := floats3_get P v p hp
  obtain ⟨s0, _⟩ := size_index v 0 3 (le_refl _) (by omega) hv
  obtain ⟨_, s1⟩ := size_index v 1 3 (le_refl _) (by omega) hv
  obtain ⟨_, s2⟩ := size_index v 2 3 (le_refl _) (by omega) hv
  have g0 : vectorAt ((floats3 P).map g) (3 * v) = .ok (g p.x) :=
    vectorAt_eq_ok _ _ _ (by simp only [List.get?_eq_getElem?, List.getElem?_map] at h0 ⊢; rw [h0]; rfl)
  have g1 : vectorAt ((floats3 P).map g) (3 * v + 1) = .ok (g p.y) :=
    vectorAt_eq_ok _ _ _ (by simp only [List.get?_eq_getElem?, List.getElem?_map] at h1 ⊢; rw [h1]; rfl)
  have g2 : vectorAt ((floats3 P).map g) (3 * v + 2) = .ok (g p.z) :=
    vectorAt_eq_ok _ _ _ (by simp only [List.get?_eq_getElem?, List.getElem?_map] at h2 ⊢; rw [h2]; rfl)
  simp only [fetchVector3, hsrc, ok_bind, component, ge_iff_le, Nat.reduceAdd, Nat.reduceLeDiff,
    le_refl, if_true, s0, s1, s2, g0, g1, g2, OfNat.ofNat_ne_zero, if_false, one_ne_zero]
  rfl

theorem fetchVector2_of_source {F : Type} [Zero F] (g : F → F)
    (sources : List (String × Source F)) (vertices : List (String × List Input))
    (name : String) (P : List (Vector2 F)) (count v : Nat) (p : Vector2 F)
    (hsrc : GetSource sources vertices name
      = .ok { array := (floats2 P).map g, stride := 2, count := count, offset := 0,
              params := [] })
    (hp : P.get? v = some p) (hv : v * 3 < 2 ^ 31) :
    fetchVector2 sources vertices name v = .ok (p.map g) := by
  obtain ⟨h0, h1⟩ := floats2_get P v p hp
  obtain ⟨s0, _⟩ := size_index v 0 2 (by omega) (by omega) hv
  obtain ⟨_, s1⟩ := size_index v 1 2 (by omega) (by omega) hv
  have g0 : vectorAt ((floats2 P).map g) (2 * v) = .ok (g p.u) :=
    vectorAt_eq_ok _ _ _ (by simp only [List.get?_eq_getElem?, List.getElem?_map] at h0 ⊢; rw [h0]; rfl)
  have g1 : vectorAt ((floats2 P).map g) (2 * v + 1) = .ok (g p.v) :=
    vectorAt_eq_ok _ _ _ (by simp only [List.get?_eq_getElem?, List.getElem?_map] at h1 ⊢; rw [h1]; rfl)
  simp only [fetchVector2, hsrc, ok_bind, component, ge_iff_le, Nat.reduceAdd, Nat.reduceLeDiff,
    le_refl, if_true, s0, s1, g0, g1, OfNat.ofNat_ne_zero, if_false, one_ne_zero]
  rfl

/-! ## The loop that writes the text of `<p>` -/

/-- With fewer than `2^32` indices the loop ends: it has written every index from `i`
on, `triangleInputCount` times, each followed by a blank. -/
theorem exportPLoop_ok (idx : List Nat) (k : Nat) (hlt : idx.length < 2 ^ 32) :
    ∀ (fuel i : Nat) (ss : List Char), idx.length ≤ i + fuel → i ≤ idx.length →
      exportPLoop idx k fuel i ss
        = .ok (ss ++ (idx.drop i).flatMap fun v =>
            (List.replicate k (utoa v ++ [' '])).flatten) := by
  intro fuel
  induction fuel with
  | zero =>
    intro i ss h1 h2
    have hi : ¬ i < idx.length := by omega
    simp [exportPLoop, hi, List.drop_of_length_le (show idx.length ≤ i by omega)]
  | succ fuel ih =>
    intro i ss h1 h2
    by_cases hi : i < idx.length
    · have hv : vectorAt idx i = .ok (idx.get ⟨i, hi⟩) :=
        vectorAt_eq_ok _ _ _ (List.get?_eq_get hi)
      have hmod : (i + 1) % 2 ^ 32 = i + 1 := Nat.mod_eq_of_lt (by omega)
      have hdrop : idx.drop i = idx.get ⟨i, hi⟩ :: idx.drop (i + 1) :=
        List.drop_eq_getElem_cons hi
      rw [exportPLoop, if_pos hi, hv, ok_bind, hmod, ih (i + 1) _ (by omega) (by omega), hdrop,
        List.flatMap_cons, List.append_assoc]
    · simp [exportPLoop, hi, List.drop_of_length_le (show idx.length ≤ i by omega)]

/-- With fewer than `2^32` indices `exportP` returns the text node `exportedP`. -/
theorem exportP_ok (idx : List Nat) (k : Nat) (hlt : idx.length < 2 ^ 32) :
    exportP idx k = .ok (exportedP idx k) := by
  simp only [exportP, exportPLoop_ok idx k hlt idx.length 0 [] (by omega) (Nat.zero_le _),
    ok_bind, List.drop_zero, List.nil_append]
  rfl

/-- With `2^32` or more indices the loop does not end, whatever the number of iterations
it is given: the counter stays below `2^32`, hence below the size. -/
theorem exportPLoop_never_ends (idx : List Nat) (k : Nat) (h : 2 ^ 32 ≤ idx.length) :
    ∀ (fuel i : Nat) (ss : List Char), i < 2 ^ 32 →
      exportPLoop idx k fuel i ss = .error .nonterminating := by
  intro fuel
  induction fuel with
  | zero =>
    intro i ss hi
    have hlt : i < idx.length := by omega
    simp [exportPLoop, hlt]
  | succ fuel ih =>
    intro i ss hi
    have hlt : i < idx.length := by omega
    have hv : vectorAt idx i = .ok (idx.get ⟨i, hlt⟩) :=
      vectorAt_eq_ok _ _ _ (List.get?_eq_get hlt)
    rw [exportPLoop, if_pos hlt, hv, ok_bind]
    exact ih _ _ (Nat.mod_lt _ (by norm_num))

/-- With `2^32` or more indices `Export_DAE` does not end. -/
theorem Export_DAE_never_ends {F : Type} (ftoa : F → List Char) (M : Mesh F)
    (hpos : M.mVertices.length ≠ 0) (h : 2 ^ 32 ≤ M.mIndices.length) :
    Export_DAE ftoa M = .error .nonterminating := by
  have hp : ∀ k, exportP M.mIndices k = .error .nonterminating := fun k => by
    simp only [exportP, exportPLoop_never_ends M.mIndices k h _ 0 [] (by norm_num)]
    rfl
  simp only [Export_DAE, hpos, if_false, hp]
  rfl

theorem reloadNode_exportedP (idx : List Nat) (k : Nat) (hk : 0 < k) (hne : idx ≠ [])
    (hidx : ∀ v ∈ idx, v < 2 ^ 31) :
    reloadNode (exportedP idx k)
      = [.text (String.mk (List.intercalate [' '] ((exportedStream idx k).map utoa)))] := by
  have hfm : (idx.flatMap fun v => (List.replicate k (utoa v ++ [' '])).flatten)
      = ((exportedStream idx k).map utoa).flatMap fun t => t ++ [' '] := by
    clear hne hidx
    induction idx with
    | nil => simp [exportedStream]
    | cons v idx ih =>
      rw [exportedStream_cons]
      simp only [List.flatMap_cons, ih, List.map_append, List.flatMap_append, List.map_replicate]
      congr 1
      clear ih
      induction k with
      | zero => simp
      | succ k ihk => cases k with
        | zero => simp [List.replicate]
        | succ k => simp [List.replicate_succ] at ihk ⊢; exact ihk
  have htoks : ∀ t ∈ (exportedStream idx k).map utoa, TokenOk t := by
    intro t ht
    simp only [List.mem_map, exportedStream, List.mem_flatMap, List.mem_replicate] at ht
    obtain ⟨x, ⟨v, hv, _, rfl⟩, rfl⟩ := ht
    exact (utoa_spec x (hidx x hv)).1
  have hne2 : (exportedStream idx k).map utoa ≠ [] := by
    obtain ⟨v, rest, rfl⟩ := List.exists_cons_of_ne_nil hne
    rw [exportedStream_cons]
    obtain ⟨k', rfl⟩ : ∃ k', k = k' + 1 := ⟨k - 1, by omega⟩
    simp [List.replicate_succ]
  unfold exportedP
  rw [hfm]
  exact reloadNode_tokens _ hne2 htoks

theorem take_floats3 {F : Type} (P : List (Vector3 F)) (h : P.length * 3 < 2 ^ 31) :
    (floats3 P).take (P.length * 3 % 2 ^ 32) = floats3 P := by
  have h31 : (2 : Nat) ^ 31 = 2147483648 := by norm_num
  have h32 : (2 : Nat) ^ 32 = 4294967296 := by norm_num
  rw [Nat.mod_eq_of_lt (by omega)]
  exact List.take_of_length_le (by rw [floats3_length])

theorem take_floats2 {F : Type} (P : List (Vector2 F)) (h : P.length * 3 < 2 ^ 31) :
    (floats2 P).take (P.length * 2 % 2 ^ 32) = floats2 P := by
  have h31 : (2 : Nat) ^ 31 = 2147483648 := by norm_num
  have h32 : (2 : Nat) ^ 32 = 4294967296 := by norm_num
  rw [Nat.mod_eq_of_lt (by omega)]
  exact List.take_of_length_le (by rw [floats2_length])

theorem floats3_ne_nil {F : Type} (P : List (Vector3 F)) (h : P.length ≠ 0) : floats3 P ≠ [] := by
  cases P with
  | nil => exact absurd rfl h
  | cons a P => simp [floats3]

theorem floats2_ne_nil {F : Type} (P : List (Vector2 F)) (h : P.length ≠ 0) : floats2 P ≠ [] := by
  cases P with
  | nil => exact absurd rfl h
  | cons a P => simp [floats2]

theorem reloadNode_element (v : String) (as : List (String × String)) (cs : List TiXmlNode) :
    reloadNode (.element v as cs) = [.element v as (reloadNodes cs)] := by
  simp [reloadNode]

theorem reloadNode_other (v : String) : reloadNode (.other v) = [.other v] := by
  simp [reloadNode]

/-- The geometry elements of the document of `Export_DAE`, read back from the file, for a
mesh with normals. -/
theorem geometryElements_exported {F : Type} (ftoa : F → List Char) (M : Mesh F)
    (hftoa : ∀ x, TokenOk (ftoa x)) (hpos : M.mVertices.length ≠ 0)
    (hn : M.mNormals.length = M.mVertices.length)
    (h31 : M.mVertices.length * 3 < 2 ^ 31) (hne : M.mIndices ≠ [])
    (hlen : M.mIndices.length < 2 ^ 32)
    (hidx : ∀ v ∈ M.mIndices, v < 2 ^ 31) :
    ∃ doc, Export_DAE ftoa M = .ok doc ∧
      geometryElements (reloadNodes doc)
        = [.element "geometry" [("id", "Mesh-1"), ("name", "Mesh-1")]
            [reloadedMesh ftoa M (decide (M.mTexCoords.length = M.mVertices.length))]] := by
  have r1 := reloadNode_exportSource ftoa "Mesh-1-positions" "position"
    (M.mVertices.length * 3) (M.mVertices.length * 3) M.mVertices.length 3
    (floats3 M.mVertices) ["X", "Y", "Z"] hftoa
    (by rw [take_floats3 _ h31]; exact floats3_ne_nil _ hpos)
  have r2 := reloadNode_exportSource ftoa "Mesh-1-normals" "normal"
    (M.mVertices.length * 3) (M.mNormals.length * 3) M.mVertices.length 3
    (floats3 M.mNormals) ["X", "Y", "Z"] hftoa
    (by rw [take_floats3 _ (hn ▸ h31)]; exact floats3_ne_nil _ (hn ▸ hpos))
  simp only [Export_DAE, hpos, if_false, hn, decide_True, if_true, exportP_ok _ _ hlen,
    ok_bind]
  simp only [hn] at r2
  refine ⟨_, rfl, ?_⟩
  by_cases ht : M.mTexCoords.length = M.mVertices.length
  · have r3 := reloadNode_exportSource ftoa "Mesh-1-map1" "map1"
      (M.mVertices.length * 3) (M.mTexCoords.length * 2) M.mVertices.length 2
      (floats2 M.mTexCoords) ["S", "T"] hftoa
      (by rw [take_floats2 _ (ht ▸ h31)]; exact floats2_ne_nil _ (ht ▸ hpos))
    have rp := reloadNode_exportedP M.mIndices 3 (by omega) hne hidx
    simp only [ht, decide_True, if_true, List.singleton_append, List.cons_append,
      List.nil_append, List.append_nil, Nat.reduceAdd] at r3 ⊢
    simp only [reloadNodes, reloadNode_element, reloadNode_other, r1, r2, r3, rp, List.singleton_append, List.cons_append,
      List.nil_append, List.append_nil, hn]
    simp only [geometryElements, List.find?, TiXmlNode.isElement, TiXmlNode.FirstChild,
      TiXmlNode.children, TiXmlNode.Value, elementsFrom, List.dropWhile, List.filter]
    simp [reloadedMesh, reloadedTriangles, hn, ht]
  · have rp := reloadNode_exportedP M.mIndices 2 (by omega) hne hidx
    simp only [ht, decide_False, Bool.false_eq_true, if_false, List.singleton_append,
      List.cons_append, List.nil_append, List.append_nil, Nat.reduceAdd, Nat.add_zero]
    simp only [reloadNodes, reloadNode_element, reloadNode_other, r1, r2, rp, List.singleton_append, List.cons_append,
      List.nil_append, List.append_nil, hn]
    simp only [geometryElements, List.find?, TiXmlNode.isElement, TiXmlNode.FirstChild,
      TiXmlNode.children, TiXmlNode.Value, elementsFrom, List.dropWhile, List.filter]
    simp [reloadedMesh, reloadedTriangles, hn, ht]

theorem ReadInputs_reloadedTriangles (idx : List Nat) (hT : Bool) :
    ReadInputs (reloadedTriangles idx hT) = .ok (exportedFlags hT, exportedInputs hT) := by
  cases hT <;> rfl

theorem ReadIndexArray_reloadedTriangles (idx : List Nat) (hT : Bool) (hne : idx ≠ [])
    (hidx : ∀ v ∈ idx, v < 2 ^ 31) :
    ReadIndexArray (ToElement ((reloadedTriangles idx hT).FirstChild "p")) []
      = .ok (exportedStream idx (if hT then 3 else 2)) := by
  have hp : ToElement ((reloadedTriangles idx hT).FirstChild "p")
      = some (.element "p" []
            [.text (String.mk (List.intercalate [' ']
              ((exportedStream idx (if hT then 3 else 2)).map utoa)))]) := by
    cases hT <;> rfl
  have hk : 0 < (if hT then 3 else 2) := by cases hT <;> simp
  have htoks : ∀ t ∈ (exportedStream idx (if hT then 3 else 2)).map utoa, TokenOk t := by
    intro t ht
    simp only [List.mem_map, exportedStream, List.mem_flatMap, List.mem_replicate] at ht
    obtain ⟨x, ⟨v, hv, _, rfl⟩, rfl⟩ := ht
    exact (utoa_spec x (hidx x hv)).1
  have hne2 : (exportedStream idx (if hT then 3 else 2)).map utoa ≠ [] := by
    obtain ⟨v, rest, rfl⟩ := List.exists_cons_of_ne_nil hne
    rw [exportedStream_cons]
    obtain ⟨k', hk'⟩ : ∃ k', (if hT then 3 else 2) = k' + 1 := ⟨_, (Nat.succ_pred_eq_of_pos hk).symm⟩
    rw [hk']
    simp [List.replicate_succ]
  have hread := readArray_intercalate
    (fun val => (do let value ← atoi val; pure (toSizeT value) : Except Failure Nat))
    ((exportedStream idx (if hT then 3 else 2)).map utoa)
    (exportedStream idx (if hT then 3 else 2)) [] hne2 htoks
    (by
      rw [List.forall₂_map_left_iff]
      apply List.forall₂_same.mpr
      intro x hx
      simp only [exportedStream, List.mem_flatMap, List.mem_replicate] at hx
      obtain ⟨v, hv, _, rfl⟩ := hx
      have h31 : (2 : Nat) ^ 31 = 2147483648 := by norm_num
      have h64 : (2 : Nat) ^ 64 = 18446744073709551616 := by norm_num
      show (atoi (utoa x) >>= fun value => pure (toSizeT value)) = Except.ok x
      rw [(utoa_spec x (hidx x hv)).2, ok_bind,
        toSizeT_natCast x (by have := hidx x hv; omega)]
      rfl)
  rw [hp]
  simp only [ReadIndexArray, TiXmlNode.GetText, TiXmlNode.children, deref, ok_bind]
  simpa using hread

theorem readSource_skip {F : Type} (atof : List Char → F) (sources : List (String × Source F))
    (e : TiXmlNode) (h : e.Value ≠ "source") : readSource atof sources e = .ok sources := by
  simp [readSource, h]

theorem sources_exported {F : Type} (ftoa : F → List Char) (atof : List Char → F) (M : Mesh F)
    (hT : Bool) (hftoa : ∀ x, TokenOk (ftoa x)) (hpos : M.mVertices.length ≠ 0)
    (hn : M.mNormals.length = M.mVertices.length)
    (ht : hT = true → M.mTexCoords.length = M.mVertices.length)
    (h31 : M.mVertices.length * 3 < 2 ^ 31) :
    (elementsFrom "source" (reloadedMesh ftoa M hT).children).foldlM (readSource atof) []
      = .ok (exportedSources (fun x => atof (ftoa x)) M hT) := by
  have h3 : (3 : Nat) < 2 ^ 31 := by norm_num
  have h2 : (2 : Nat) < 2 ^ 31 := by norm_num
  have hnn : M.mVertices.length < 2 ^ 31 := by omega
  have r1 := readSource_reloadedSource ftoa atof [] "Mesh-1-positions" "position"
    (M.mVertices.length * 3) (M.mVertices.length * 3) M.mVertices.length 3
    (floats3 M.mVertices) ["X", "Y", "Z"] hftoa rfl
    (by rw [take_floats3 _ h31]; exact floats3_ne_nil _ hpos) hnn h3
  rw [take_floats3 _ h31] at r1
  have r2 := fun S hS => readSource_reloadedSource ftoa atof S "Mesh-1-normals" "normal"
    (M.mVertices.length * 3) (M.mNormals.length * 3) M.mVertices.length 3
    (floats3 M.mNormals) ["X", "Y", "Z"] hftoa hS
    (by rw [take_floats3 _ (hn ▸ h31)]; exact floats3_ne_nil _ (hn ▸ hpos)) hnn h3
  rw [take_floats3 _ (hn ▸ h31)] at r2
  have hv : (TiXmlNode.element "vertices" [("id", "Mesh-1-vertices")]
      [.element "input" [("semantic", "POSITION"), ("source", "#Mesh-1-positions")] []]).Value
      ≠ "source" := by decide
  have htv : (reloadedTriangles M.mIndices hT).Value ≠ "source" := by
    simp [reloadedTriangles, TiXmlNode.Value]
  cases hT with
  | true =>
    have ht' := ht rfl
    have r3 := fun S hS => readSource_reloadedSource ftoa atof S "Mesh-1-map1" "map1"
      (M.mVertices.length * 3) (M.mTexCoords.length * 2) M.mVertices.length 2
      (floats2 M.mTexCoords) ["S", "T"] hftoa hS
      (by rw [take_floats2 _ (ht' ▸ h31)]; exact floats2_ne_nil _ (ht' ▸ hpos)) hnn h2
    rw [take_floats2 _ (ht' ▸ h31)] at r3
    have he : elementsFrom "source" (reloadedMesh ftoa M true).children
        = (reloadedMesh ftoa M true).children := by
      simp [elementsFrom, reloadedMesh, TiXmlNode.children, reloadedSource, TiXmlNode.Value,
        TiXmlNode.isElement, List.dropWhile, List.filter, reloadedTriangles]
    rw [he]
    simp only [reloadedMesh, TiXmlNode.children, if_true, List.cons_append, List.nil_append,
      List.foldlM_cons, List.foldlM_nil, Nat.cast_ofNat] at r1 r2 r3 ⊢
    rw [r1, ok_bind, r2 _ (by simp [mapFind]), ok_bind, r3 _ (by simp [mapFind]), ok_bind,
      readSource_skip _ _ _ hv, ok_bind, readSource_skip _ _ _ htv, ok_bind]
    rfl
  | false =>
    have he : elementsFrom "source" (reloadedMesh ftoa M false).children
        = (reloadedMesh ftoa M false).children := by
      simp [elementsFrom, reloadedMesh, TiXmlNode.children, reloadedSource, TiXmlNode.Value,
        TiXmlNode.isElement, List.dropWhile, List.filter, reloadedTriangles]
    rw [he]
    simp only [reloadedMesh, TiXmlNode.children, Bool.false_eq_true, if_false,
      List.cons_append, List.nil_append, List.append_nil,
      List.foldlM_cons, List.foldlM_nil, Nat.cast_ofNat] at r1 r2 ⊢
    rw [r1, ok_bind, r2 _ (by simp [mapFind]), ok_bind,
      readSource_skip _ _ _ hv, ok_bind, readSource_skip _ _ _ htv, ok_bind]
    rfl

theorem readVertices_reloadedMesh {F : Type} (ftoa : F → List Char) (M : Mesh F) (hT : Bool) :
    readVertices (reloadedMesh ftoa M hT) = .ok exportedVertices := by
  cases hT <;> rfl

theorem triangles_reloadedMesh {F : Type} (ftoa : F → List Char) (M : Mesh F) (hT : Bool) :
    ToElement ((reloadedMesh ftoa M hT).FirstChild "triangles")
      = some (reloadedTriangles M.mIndices hT) := by
  cases hT <;> rfl

theorem readPolylist_reloadedMesh {F : Type} (ftoa : F → List Char) (M : Mesh F) (hT : Bool) :
    readPolylist (reloadedMesh ftoa M hT) = .ok () := by
  cases hT <;> rfl

theorem exportedInputs_length (hT : Bool) :
    (exportedInputs hT).length = if hT then 3 else 2 := by
  cases hT <;> rfl

/-- `Export_DAE`, the file and `Import_DAE` in closed form, for a mesh with normals: the
result is the mesh of the arrays welded from the exported index stream and sources. -/
theorem exportThenImport_spec {F : Type} [Zero F] (ftoa : F → List Char)
    (atof : List Char → F) (M : Mesh F)
    (hftoa : ∀ x, TokenOk (ftoa x)) (hpos : M.mVertices.length ≠ 0)
    (hn : M.mNormals.length = M.mVertices.length)
    (h31 : M.mVertices.length * 3 < 2 ^ 31) (hne : M.mIndices ≠ [])
    (hlen : M.mIndices.length < 2 ^ 31)
    (hidx : ∀ v ∈ M.mIndices, v < M.mVertices.length) :
    ∃ w : WeldState F,
      exportThenImport ftoa atof M
        = .ok ⟨w.indexVector, w.attrs.vertVector, w.attrs.normalVector,
            w.attrs.texcoordVector, ""⟩ ∧
      WeldInv (exportedFlags (decide (M.mTexCoords.length = M.mVertices.length)))
        (exportedSources (fun x => atof (ftoa x)) M
          (decide (M.mTexCoords.length = M.mVertices.length)))
        exportedVertices
        (M.mIndices.map
          (exportedTriple (decide (M.mTexCoords.length = M.mVertices.length)))) w := by
  have hidx31 : ∀ v ∈ M.mIndices, v < 2 ^ 31 := fun v hv => by
    have := hidx v hv; omega
  have hlen32 : M.mIndices.length < 2 ^ 32 := lt_trans hlen (by norm_num)
  obtain ⟨doc, hdoc, hgeo⟩ :=
    geometryElements_exported ftoa M hftoa hpos hn h31 hne hlen32 hidx31
  generalize hTdef : decide (M.mTexCoords.length = M.mVertices.length) = hT at hgeo ⊢
  have ht : hT = true → M.mTexCoords.length = M.mVertices.length := by
    intro h; rw [← hTdef] at h; exact of_decide_eq_true h
  have hcorners := corners_exported hT M.mIndices hlen
  rw [exportedInputs_length] at hcorners
  -- every fetch for a corner of the stream succeeds
  have hfetch : ∀ c ∈ M.mIndices.map (exportedTriple hT), ∀ a : Attributes F,
      ∃ a', InsertVertNormalTexcoord a (exportedFlags hT) c.vertIndex c.normalIndex
        c.texcoordIndex (exportedSources (fun x => atof (ftoa x)) M hT) exportedVertices
          = .ok a' := by
    intro c hc a
    simp only [List.mem_map] at hc
    obtain ⟨v, hv, rfl⟩ := hc
    have hvn := hidx v hv
    have hv3 : v * 3 < 2 ^ 31 := by omega
    apply InsertVertNormalTexcoord_succeeds
    · intro _
      refine ⟨_, fetchVector3_of_source (fun x => atof (ftoa x)) _ _ _ M.mVertices
        M.mVertices.length v (M.mVertices.get ⟨v, hvn⟩) ?_ (List.get?_eq_get hvn) hv3⟩
      cases hT <;> rfl
    · intro _
      refine ⟨_, fetchVector3_of_source (fun x => atof (ftoa x)) _ _ _ M.mNormals
        M.mVertices.length v (M.mNormals.get ⟨v, hn ▸ hvn⟩) ?_ (List.get?_eq_get _) hv3⟩
      cases hT <;> rfl
    · intro h
      have hT1 : hT = true := h
      subst hT1
      have htl := ht rfl
      refine ⟨_, fetchVector2_of_source (fun x => atof (ftoa x)) _ _ _ M.mTexCoords
        M.mVertices.length v (M.mTexCoords.get ⟨v, htl ▸ hvn⟩) ?_ (List.get?_eq_get _) hv3⟩
      rfl
  obtain ⟨w, hw⟩ := weldLoop_succeeds (exportedInputs hT)
    (exportedStream M.mIndices (if hT then 3 else 2)) (exportedFlags hT)
    (exportedSources (fun x => atof (ftoa x)) M hT) exportedVertices
    (exportedStream M.mIndices (if hT then 3 else 2)).length 0 _ WeldState.init hcorners hfetch
  have hweld : weld (exportedInputs hT) (exportedStream M.mIndices (if hT then 3 else 2))
      (exportedFlags hT) (exportedSources (fun x => atof (ftoa x)) M hT) exportedVertices
      = .ok w := hw
  obtain ⟨cs, hcs, hinv⟩ := weld_spec _ _ _ _ _ w hweld
  have hcs' : cs = M.mIndices.map (exportedTriple hT) := by
    have := hcs.symm.trans hcorners
    simpa using this
  subst hcs'
  refine ⟨w, ?_, hinv⟩
  have hmesh : ToElement ((TiXmlNode.element "geometry" [("id", "Mesh-1"), ("name", "Mesh-1")]
      [reloadedMesh ftoa M hT]).FirstChild "mesh") = some (reloadedMesh ftoa M hT) := by
    cases hT <;> rfl
  have hgeoStep : importGeometry atof ImportState.init
      (TiXmlNode.element "geometry" [("id", "Mesh-1"), ("name", "Mesh-1")]
        [reloadedMesh ftoa M hT])
      = .ok (aggregate { (ImportState.init : ImportState F) with
          sources := exportedSources (fun x => atof (ftoa x)) M hT } w) := by
    unfold importGeometry
    rw [hmesh]
    have hS := sources_exported ftoa atof M hT hftoa hpos hn ht h31
    simp only [ImportState.init] at hS ⊢
    simp only [hS, ok_bind, readVertices_reloadedMesh, triangles_reloadedMesh,
      ReadInputs_reloadedTriangles, ReadIndexArray_reloadedTriangles _ _ hne hidx31, hweld,
      readPolylist_reloadedMesh]
    rfl
  simp only [exportThenImport, hdoc, ok_bind, Import_DAE, hgeo, List.foldlM_cons,
    List.foldlM_nil, hgeoStep]
  obtain ⟨_, _, k1, k2, k3, k4⟩ := aggregate_ok
    { (ImportState.init : ImportState F) with
      sources := exportedSources (fun x => atof (ftoa x)) M hT } w ⟨rfl, rfl, rfl, rfl⟩
  simp only [ImportState.init, Mesh.Clear, List.nil_append] at k1 k2 k3 k4
  have heta : ∀ m : Mesh F,
      m = ⟨m.mIndices, m.mVertices, m.mNormals, m.mTexCoords, m.mComment⟩ := fun _ => rfl
  refine congrArg Except.ok ?_
  rw [heta (aggregate _ w).aMesh]
  simp only [ImportState.init, Mesh.Clear]
  rw [k1, k2, k3, k4]
  rfl

/-! ## The exporter followed by the importer -/

theorem firsts_map {α β : Type} [DecidableEq α] [DecidableEq β] (f : α → β)
    (hf : Function.Injective f) (l : List α) : firsts (l.map f) = (firsts l).map f := by
  induction l using List.reverseRecOn with
  | nil => simp [firsts]
  | append_singleton l a ih =>
    rw [List.map_append, List.map_singleton, firsts_append_singleton, firsts_append_singleton, ih]
    by_cases h : a ∈ firsts l
    · have : f a ∈ (firsts l).map f := List.mem_map_of_mem f h
      simp [h, this]
    · have : f a ∉ (firsts l).map f := by
        intro hc
        obtain ⟨b, hb, hfb⟩ := List.mem_map.mp hc
        exact h (hf hfb ▸ hb)
      simp [h, this]

theorem indexOf_map_injective {α β : Type} [DecidableEq α] [DecidableEq β] (f : α → β)
    (hf : Function.Injective f) (a : α) (l : List α) :
    (l.map f).indexOf (f a) = l.indexOf a := by
  induction l with
  | nil => simp
  | cons b l ih =>
    by_cases h : b = a
    · subst h; simp
    · have : f b ≠ f a := fun e => h (hf e)
      rw [List.map_cons, List.indexOf_cons_ne _ this, List.indexOf_cons_ne _ h, ih]

theorem indexOf_range (n v : Nat) (h : v < n) : (List.range n).indexOf v = v := by
  have := List.indexOf_getElem (List.nodup_range n) v (by simpa using h)
  simpa using this

theorem exportedTriple_injective (hT : Bool) : Function.Injective (exportedTriple hT) := by
  intro a b h
  simp only [exportedTriple, Indexes.mk.injEq] at h
  exact h.1

theorem forall₂_range_eq {α : Type} (R : Nat → α → Prop) (P L : List α)
    (h : List.Forall₂ R (List.range P.length) L)
    (hR : ∀ (v : Nat) (hv : v < P.length) (p : α), R v p → p = P.get ⟨v, hv⟩) : L = P := by
  have hl : L.length = P.length := by simpa using h.length_eq.symm
  apply List.ext_get hl
  intro i h1 h2
  have := h.get (by simpa using h2) h1
  simp only [List.get_eq_getElem, List.getElem_range] at this
  exact hR i h2 _ this

theorem forall₂_length {α β : Type} (R : α → β → Prop) (l₁ : List α) (l₂ : List β)
    (h : List.Forall₂ R l₁ l₂) : l₂.length = l₁.length := h.length_eq.symm

/-- C5, amended. For every mesh that meets the preconditions of `Export_DAE` (every index
is less than the number of positions), that has at least one index, whose array sizes fit
an `int`, and whose normals and texcoords both have the length of the positions: the
document that `Export_DAE` writes is imported without a failure, the imported mesh has as
many indices as the mesh, and as many positions as the mesh has distinct index values;
this is the number of positions of the mesh when every vertex is referenced by an
index. -/
theorem export_import_counts {F : Type} [Zero F] (ftoa : F → List Char)
    (atof : List Char → F) (M : Mesh F)
    (hftoa : ∀ x, TokenOk (ftoa x))
    (hidx : ∀ v ∈ M.mIndices, v < M.mVertices.length)
    (hne : M.mIndices ≠ [])
    (h31 : M.mVertices.length * 3 < 2 ^ 31) (hlen : M.mIndices.length < 2 ^ 31)
    (hn : M.mNormals.length = M.mVertices.length)
    (ht : M.mTexCoords.length = M.mVertices.length) :
    ∃ M' : Mesh F, exportThenImport ftoa atof M = .ok M' ∧
      M'.mIndices.length = M.mIndices.length ∧
      M'.mVertices.length = M.mIndices.toFinset.card ∧
      ((∀ v, v < M.mVertices.length → v ∈ M.mIndices) →
        M'.mVertices.length = M.mVertices.length) := by
  have hpos : M.mVertices.length ≠ 0 := by
    obtain ⟨v, rest, hv⟩ := List.exists_cons_of_ne_nil hne
    have := hidx v (by rw [hv]; exact List.mem_cons_self _ _)
    omega
  obtain ⟨w, hw, hinv⟩ := exportThenImport_spec ftoa atof M hftoa hpos hn h31 hne hlen hidx
  have hcard : w.attrs.vertVector.length = M.mIndices.toFinset.card := by
    obtain ⟨_, _, _, m1, _, _⟩ := hinv
    simp only [exportedFlags, if_true] at m1
    rw [forall₂_length _ _ _ m1, firsts_map _ (exportedTriple_injective _), List.length_map,
      card_firsts]
  refine ⟨_, hw, ?_, hcard, ?_⟩
  · simpa using WeldInv_length_eq hinv
  · intro hall
    show w.attrs.vertVector.length = M.mVertices.length
    rw [hcard]
    have : M.mIndices.toFinset = Finset.range M.mVertices.length := by
      ext v
      simp only [List.mem_toFinset, Finset.mem_range]
      exact ⟨hidx v, hall v⟩
    rw [this, Finset.card_range]

/-- C6, amended. For every mesh with at least one position, whose array sizes fit an
`int`, whose normals have the length of the positions, and whose index array uses the
vertices in the order `0, 1, 2, ...` of their first occurrence and uses all of them:
importing the document that `Export_DAE` writes recovers the index array, the positions
and the normals of the mesh (and the texcoords, when they have the length of the
positions), the conversion of a float to text and back taken as exact. -/
theorem export_import_identity {F : Type} [Zero F] (ftoa : F → List Char)
    (atof : List Char → F) (M : Mesh F)
    (hftoa : ∀ x, TokenOk (ftoa x)) (hexact : ∀ x, atof (ftoa x) = x)
    (hfirst : firsts M.mIndices = List.range M.mVertices.length)
    (hpos : M.mVertices.length ≠ 0)
    (h31 : M.mVertices.length * 3 < 2 ^ 31) (hlen : M.mIndices.length < 2 ^ 31)
    (hn : M.mNormals.length = M.mVertices.length) :
    ∃ M' : Mesh F, exportThenImport ftoa atof M = .ok M' ∧
      M'.mIndices = M.mIndices ∧ M'.mVertices = M.mVertices ∧ M'.mNormals = M.mNormals ∧
      M'.mTexCoords = (if M.mTexCoords.length = M.mVertices.length then M.mTexCoords else []) := by
  have hidx : ∀ v ∈ M.mIndices, v < M.mVertices.length := by
    intro v hv
    have := (mem_firsts M.mIndices v).mpr hv
    rw [hfirst] at this
    simpa using this
  have hne : M.mIndices ≠ [] := by
    intro e
    rw [e] at hfirst
    have : (List.range M.mVertices.length).length = 0 := by rw [← hfirst]; rfl
    simp at this
    exact hpos (by simp [this])
  obtain ⟨w, hw, hinv⟩ := exportThenImport_spec ftoa atof M hftoa hpos hn h31 hne hlen hidx
  have hg : (fun x => atof (ftoa x)) = id := funext hexact
  have hmap3 : ∀ p : Vector3 F, p.map id = p := fun p => by cases p; rfl
  have hmap2 : ∀ p : Vector2 F, p.map id = p := fun p => by cases p; rfl
  rw [hg] at hinv
  generalize hTdef : decide (M.mTexCoords.length = M.mVertices.length) = hT at hinv
  have ht : hT = true → M.mTexCoords.length = M.mVertices.length := by
    intro h; rw [← hTdef] at h; exact of_decide_eq_true h
  have hfc : firsts (M.mIndices.map (exportedTriple hT))
      = (List.range M.mVertices.length).map (exportedTriple hT) := by
    rw [firsts_map _ (exportedTriple_injective _), hfirst]
  obtain ⟨_, hvec, _, m1, m2, m3⟩ := hinv
  rw [hfc] at hvec m1 m2 m3
  simp only [exportedFlags, if_true, List.forall₂_map_left_iff, exportedTriple] at m1 m2
  refine ⟨_, hw, ?_, ?_, ?_, ?_⟩
  · show w.indexVector = M.mIndices
    rw [hvec, List.map_map]
    conv_rhs => rw [← List.map_id M.mIndices]
    apply List.map_congr_left
    intro v hv
    simp only [Function.comp, id]
    rw [indexOf_map_injective _ (exportedTriple_injective _), indexOf_range _ _ (hidx v hv)]
  · show w.attrs.vertVector = M.mVertices
    apply forall₂_range_eq _ _ _ m1
    intro v hv p hp
    have := fetchVector3_of_source id (exportedSources id M hT) exportedVertices
      "Mesh-1-vertices" M.mVertices M.mVertices.length v (M.mVertices.get ⟨v, hv⟩)
      (by cases hT <;> rfl) (List.get?_eq_get hv) (by omega)
    rw [this, hmap3] at hp
    exact (Except.ok.inj hp).symm
  · show w.attrs.normalVector = M.mNormals
    rw [← hn] at m2
    apply forall₂_range_eq _ _ _ m2
    intro v hv p hp
    have := fetchVector3_of_source id (exportedSources id M hT) exportedVertices
      "Mesh-1-normals" M.mNormals M.mVertices.length v (M.mNormals.get ⟨v, hv⟩)
      (by cases hT <;> rfl) (List.get?_eq_get hv) (by omega)
    rw [this, hmap3] at hp
    exact (Except.ok.inj hp).symm
  · show w.attrs.texcoordVector = _
    cases hT with
    | true =>
      have htl := ht rfl
      simp only [exportedFlags, if_true, List.forall₂_map_left_iff, exportedTriple] at m3
      rw [if_pos htl]
      rw [← htl] at m3
      apply forall₂_range_eq _ _ _ m3
      intro v hv p hp
      have := fetchVector2_of_source id (exportedSources id M true) exportedVertices
        "Mesh-1-map1" M.mTexCoords M.mVertices.length v (M.mTexCoords.get ⟨v, hv⟩)
        rfl (List.get?_eq_get hv) (by omega)
      rw [this, hmap2] at hp
      exact (Except.ok.inj hp).symm
    | false =>
      have hf : ¬ M.mTexCoords.length = M.mVertices.length := by
        intro e
        rw [decide_eq_true e] at hTdef
        exact absurd hTdef (by simp)
      simp only [exportedFlags, Bool.false_eq_true, if_false] at m3
      rw [if_neg hf, m3]

theorem ftoaSmall_token (x : Small) : TokenOk (ftoaSmall x) :=
  (utoa_spec x.val (lt_trans x.isLt (by norm_num))).1

theorem atofSmall_ftoaSmall (x : Small) : atofSmall (ftoaSmall x) = x := by
  have h := (utoa_spec x.val (lt_trans x.isLt (by norm_num))).2
  simp only [atofSmall, ftoaSmall, h, Int.toNat_ofNat]
  apply Fin.ext
  simp [Fin.ofNat, Nat.mod_eq_of_lt x.isLt]

/-- C5, witness: one triangle with normals and texture coordinates. -/
theorem export_import_counts_witness :
    (∀ x, TokenOk (ftoaSmall x)) ∧
    (∀ v ∈ meshTextured.mIndices, v < meshTextured.mVertices.length) ∧
    meshTextured.mIndices ≠ [] ∧
    meshTextured.mVertices.length * 3 < 2 ^ 31 ∧ meshTextured.mIndices.length < 2 ^ 31 ∧
    meshTextured.mNormals.length = meshTextured.mVertices.length ∧
    meshTextured.mTexCoords.length = meshTextured.mVertices.length ∧
    ∃ M' : Mesh Small, exportThenImport ftoaSmall atofSmall meshTextured = .ok M' ∧
      M'.mIndices.length = meshTextured.mIndices.length ∧
      M'.mVertices.length = meshTextured.mIndices.toFinset.card ∧
      ((∀ v, v < meshTextured.mVertices.length → v ∈ meshTextured.mIndices) →
        M'.mVertices.length = meshTextured.mVertices.length) :=
  ⟨ftoaSmall_token, by decide, by decide, by decide, by decide, rfl, rfl,
    export_import_counts ftoaSmall atofSmall meshTextured ftoaSmall_token (by decide)
      (by decide) (by decide) (by decide) rfl rfl⟩

/-- C5, counterexample. A mesh of four vertices with normals and texcoords of length
four, whose index array `0 1 2` (a multiple of 3, every index less than 4) leaves vertex
3 unreferenced: the import of the exported document has three positions, not four. -/
theorem export_import_drops_unreferenced_vertex :
    meshUnreferenced.mIndices.length % 3 = 0 ∧
    (∀ v ∈ meshUnreferenced.mIndices, v < meshUnreferenced.mVertices.length) ∧
    meshUnreferenced.mNormals.length = meshUnreferenced.mVertices.length ∧
    meshUnreferenced.mTexCoords.length = meshUnreferenced.mVertices.length ∧
    ∃ M' : Mesh Small, exportThenImport ftoaSmall atofSmall meshUnreferenced = .ok M' ∧
      M'.mVertices.length ≠ meshUnreferenced.mVertices.length :=
  ⟨by decide, by decide, rfl, rfl,
    ⟨[0, 1, 2], [⟨0, 0, 0⟩, ⟨1, 0, 0⟩, ⟨0, 1, 0⟩], [⟨0, 0, 1⟩, ⟨0, 0, 1⟩, ⟨0, 0, 1⟩],
      [⟨0, 0⟩, ⟨1, 0⟩, ⟨0, 1⟩], ""⟩, by decide, by decide⟩

/-- C6, witness: the mesh of scenario S5. -/
theorem export_import_identity_witness :
    (∀ x, TokenOk (ftoaSmall x)) ∧ (∀ x, atofSmall (ftoaSmall x) = x) ∧
    firsts meshS5.mIndices = List.range meshS5.mVertices.length ∧
    meshS5.mVertices.length ≠ 0 ∧
    meshS5.mVertices.length * 3 < 2 ^ 31 ∧ meshS5.mIndices.length < 2 ^ 31 ∧
    meshS5.mNormals.length = meshS5.mVertices.length ∧
    ∃ M' : Mesh Small, exportThenImport ftoaSmall atofSmall meshS5 = .ok M' ∧
      M'.mIndices = meshS5.mIndices ∧ M'.mVertices = meshS5.mVertices ∧
      M'.mNormals = meshS5.mNormals ∧
      M'.mTexCoords
        = (if meshS5.mTexCoords.length = meshS5.mVertices.length then meshS5.mTexCoords
           else []) :=
  ⟨ftoaSmall_token, atofSmall_ftoaSmall, by decide, by decide, by decide, by decide, rfl,
    export_import_identity ftoaSmall atofSmall meshS5 ftoaSmall_token atofSmall_ftoaSmall
      (by decide) (by decide) (by decide) (by decide) rfl⟩

/-- C6, counterexample. The triangle of scenario S5 with the index array `2 1 0` (a
multiple of 3, every index less than 3, normals of length 3): the import of the exported
document has the index array `0 1 2` and the positions in the order of their first use,
so neither array is the one of the mesh. -/
theorem export_import_renumbers_vertices :
    meshReversed.mIndices.length % 3 = 0 ∧
    (∀ v ∈ meshReversed.mIndices, v < meshReversed.mVertices.length) ∧
    meshReversed.mNormals.length = meshReversed.mVertices.length ∧
    ∃ M' : Mesh Small, exportThenImport ftoaSmall atofSmall meshReversed = .ok M' ∧
      M'.mIndices ≠ meshReversed.mIndices ∧ M'.mVertices ≠ meshReversed.mVertices :=
  ⟨by decide, by decide, rfl,
    ⟨[0, 1, 2], [⟨0, 1, 0⟩, ⟨1, 0, 0⟩, ⟨0, 0, 0⟩], [⟨0, 0, 1⟩, ⟨0, 0, 1⟩, ⟨0, 0, 1⟩], [], ""⟩,
    by decide, by decide, by decide⟩

/-! ## The reading loop on an arbitrary text -/

theorem words_go_dropWhile (s : List Char) :
    words.go (s.dropWhile isspace) [] = words.go s [] := by
  induction s with
  | nil => rfl
  | cons c cs ih =>
    by_cases h : isspace c = true
    · simp [List.dropWhile, h, words.go, ih]
    · simp [List.dropWhile, h]

theorem words_go_takeWhile (s : List Char) : ∀ cur : List Char,
    (cur ≠ [] ∨ s.takeWhile (fun c => !isspace c) ≠ []) →
    words.go s cur = (cur.reverse ++ s.takeWhile fun c => !isspace c)
      :: words.go (s.dropWhile fun c => !isspace c) [] := by
  induction s with
  | nil =>
    intro cur h
    have hc : cur ≠ [] := by simpa using h
    simp [words.go, hc]
  | cons c cs ih =>
    intro cur h
    by_cases hs : isspace c = true
    · have hc : cur ≠ [] := by simpa [List.takeWhile, hs] using h
      simp [words.go, hs, hc, List.takeWhile, List.dropWhile]
    · have hs2 : isspace c = false := by simpa using hs
      have := ih (c :: cur) (Or.inl (by simp))
      simp [words.go, hs2, List.takeWhile, List.dropWhile, this]

theorem endsInSpace_suffix (a b : List Char) (hb : b ≠ []) :
    endsInSpace (a ++ b) = endsInSpace b := by
  unfold endsInSpace
  rw [List.getLast?_append_of_ne_nil _ hb]

theorem endsInSpace_all (s : List Char) (h : ∀ c ∈ s, isspace c = true) :
    endsInSpace s = true := by
  unfold endsInSpace
  cases hl : s.getLast? with
  | none => rfl
  | some c => exact h c (List.mem_of_getLast?_eq_some hl)

theorem endsInSpace_token (s : List Char) (hne : s ≠ []) (h : ∀ c ∈ s, isspace c = false) :
    endsInSpace s = false := by
  unfold endsInSpace
  cases hl : s.getLast? with
  | none => simp [List.getLast?_eq_none_iff] at hl; exact absurd hl hne
  | some c => exact h c (List.mem_of_getLast?_eq_some hl)

/-- The reading loop on an arbitrary text: every token is converted and pushed; when the
text is empty or ends in white space, the last extraction fails, `val` keeps the token
before (or what it held when the loop began), and that one is pushed once more. -/
theorem readLoop_words {α : Type} (convert : List Char → Except Failure α) :
    ∀ (fuel : Nat) (rest : List Char) (val : Option (List Char)) (acc vals : List α),
      rest.length < fuel →
      (∀ t ∈ words rest, t.length < 100) →
      List.Forall₂ (fun x y => convert x = .ok y) (words rest) vals →
      readLoop convert fuel ⟨rest, false, false⟩ val acc
        = if endsInSpace rest then
            match ((words rest).getLast?).or val with
            | none => .error .uninitialized
            | some t => (convert t).map fun v => acc ++ vals ++ [v]
          else .ok (acc ++ vals) := by
  intro fuel
  induction fuel with
  | zero => intro rest val acc vals h; omega
  | succ fuel ih =>
    intro rest val acc vals hlen htok hvals
    have hsplit := List.takeWhile_append_dropWhile isspace rest
    have hw : words rest = words (rest.dropWhile isspace) := by
      simp only [words, words_go_dropWhile]
    cases hd : rest.dropWhile isspace with
    | nil =>
      have hall : ∀ c ∈ rest, isspace c = true := by
        intro c hc
        rw [← hsplit, hd, List.append_nil] at hc
        exact List.mem_takeWhile_imp hc
      have hwn : words rest = [] := by rw [hw, hd]; rfl
      rw [hwn] at hvals
      cases hvals
      rw [endsInSpace_all rest hall, hwn]
      simp only [readLoop, IStringStream.extract, hd, Bool.or_self, Bool.false_eq_true,
        if_false, ok_bind, if_true, List.getLast?_nil, Option.or, List.append_nil]
      cases val with
      | none => rfl
      | some t =>
        simp only []
        cases hc : convert t with
        | error e => rfl
        | ok v =>
          simp only [ok_bind, Except.map]
          exact readLoop_eof convert fuel [] true (some t) (acc ++ [v])
    | cons c cs =>
      have hcs : isspace c = false := by
        have := List.head_dropWhile_not isspace rest (by rw [hd]; simp)
        simpa [hd] using this
      have htw : (c :: cs).takeWhile (fun c => !isspace c) ≠ [] := by
        simp [List.takeWhile, hcs]
      have hw2 : words rest = (c :: cs).takeWhile (fun c => !isspace c)
          :: words ((c :: cs).dropWhile fun c => !isspace c) := by
        rw [hw, hd]
        simpa [words] using words_go_takeWhile (c :: cs) [] (Or.inr htw)
      have hsplit2 := List.takeWhile_append_dropWhile (fun c => !isspace c) (c :: cs)
      have htoklen : ((c :: cs).takeWhile fun c => !isspace c).length < 100 :=
        htok _ (by rw [hw2]; exact List.mem_cons_self _ _)
      rw [hw2] at hvals
      cases hvals with
      | cons hv hrest =>
        rename_i v vs
        have hrestlen : ((c :: cs).dropWhile fun c => !isspace c).length < fuel := by
          have h1 : (c :: cs).length ≤ rest.length := by
            rw [← hd]; exact (List.dropWhile_sublist _).length_le
          have h2 : ((c :: cs).dropWhile fun c => !isspace c).length < (c :: cs).length := by
            have := congrArg List.length hsplit2
            rw [List.length_append] at this
            have : 0 < ((c :: cs).takeWhile fun c => !isspace c).length :=
              List.length_pos.mpr htw
            omega
          omega
        have hnot : ¬ (100 ≤ ((c :: cs).takeWhile fun c => !isspace c).length) := by omega
        simp only [readLoop, IStringStream.extract, hd, Bool.or_self, Bool.false_eq_true,
          if_false, ok_bind, ge_iff_le, hnot, hv]
        cases hr : (c :: cs).dropWhile fun c => !isspace c with
        | nil =>
          have hall : ∀ x ∈ rest.dropWhile isspace, isspace x = false := by
            intro x hx
            rw [hd, ← hsplit2, hr, List.append_nil] at hx
            simpa using List.mem_takeWhile_imp hx
          have hends : endsInSpace rest = false := by
            rw [← hsplit, endsInSpace_suffix _ _ (by rw [hd]; simp)]
            exact endsInSpace_token _ (by rw [hd]; simp) hall
          rw [hr] at hrest
          have : vs = [] := by
            cases hrest with
            | nil => rfl
          subst this
          rw [hends]
          simpa using readLoop_eof convert fuel [] false _ (acc ++ [v])
        | cons d ds =>
          rw [hr] at hrest hrestlen
          have hih := ih (d :: ds) (some ((c :: cs).takeWhile fun c => !isspace c))
            (acc ++ [v]) vs hrestlen
            (fun t ht => htok t (by rw [hw2, hr]; exact List.mem_cons_of_mem _ ht)) hrest
          have hends : endsInSpace rest = endsInSpace (d :: ds) := by
            rw [← hsplit, endsInSpace_suffix _ _ (by rw [hd]; simp), hd, ← hsplit2,
              endsInSpace_suffix _ _ (by rw [hr]; simp), hr]
          simp only [List.isEmpty_cons]
          rw [hih, hends, hw2, hr]
          cases hwd : words (d :: ds) with
          | nil => simp [Option.or]
          | cons a l =>
            rw [List.getLast?_cons_cons]
            cases hl : (a :: l).getLast? with
            | none => simp at hl
            | some t => simp [Option.or]

/-! ## A source without an offset attribute -/

theorem readArray_trailing {α : Type} (convert : List Char → Except Failure α) (text : String)
    (acc vals : List α) (t : List Char) (v : α)
    (htok : ∀ t ∈ words text.data, t.length < 100)
    (hvals : List.Forall₂ (fun x y => convert x = .ok y) (words text.data) vals)
    (hends : endsInSpace text.data = true)
    (hlast : (words text.data).getLast? = some t) (hv : convert t = .ok v) :
    readArray convert text acc = .ok (acc ++ vals ++ [v]) := by
  rw [readArray, readLoop_words convert _ _ none acc vals (by omega) htok hvals, hends, hlast]
  simp [Option.or, hv, Except.map]

theorem utoa_token (n : Nat) : utoa n ≠ [] ∧ ∀ c ∈ utoa n, isspace c = false := by
  obtain ⟨pre, p1, p2, p3, _, _⟩ := utoa_go_spec (n + 1) n (by omega)
  have e : utoa n = pre := by simp [utoa, p1]
  rw [e]
  exact ⟨p2, fun c hc => (isDigit_not_space c (p3 c hc)).1⟩

theorem words_flatMap_tokens (toks : List (List Char))
    (h : ∀ t ∈ toks, t ≠ [] ∧ ∀ c ∈ t, isspace c = false) :
    words (toks.flatMap fun t => t ++ [' ']) = toks := by
  induction toks with
  | nil => simp [words, words.go]
  | cons t toks ih =>
    obtain ⟨h1, h2⟩ := h t (List.mem_cons_self _ _)
    have ih' := ih (fun x hx => h x (List.mem_cons_of_mem _ hx))
    simp only [words] at ih' ⊢
    simp only [List.flatMap_cons, List.append_assoc, List.singleton_append]
    rw [words_go_token t h2 [] _ (Or.inr h1), ih']
    simp

theorem exportedP_flatMap (idx : List Nat) (k : Nat) :
    (idx.flatMap fun v => (List.replicate k (utoa v ++ [' '])).flatten)
      = ((exportedStream idx k).map utoa).flatMap fun t => t ++ [' '] := by
  induction idx with
  | nil => simp [exportedStream]
  | cons v idx ih =>
    rw [exportedStream_cons]
    simp only [List.flatMap_cons, ih, List.map_append, List.flatMap_append, List.map_replicate]
    congr 1
    clear ih
    induction k with
    | zero => simp
    | succ k ihk => cases k with
      | zero => simp [List.replicate]
      | succ k => simp [List.replicate_succ] at ihk ⊢; exact ihk

theorem words_exportedP (idx : List Nat) (k : Nat) (text : String)
    (h : exportedP idx k = .text text) :
    words text.data = (exportedStream idx k).map utoa := by
  unfold exportedP at h
  rw [exportedP_flatMap] at h
  injection h with h
  rw [← h]
  apply words_flatMap_tokens
  intro t ht
  simp only [List.mem_map] at ht
  obtain ⟨x, _, rfl⟩ := ht
  exact utoa_token x

/-- The `<triangles>` element of the document that `Export_DAE` writes: its inputs and
the text of its `<p>`. -/
theorem export_triangles {F : Type} (ftoa : F → List Char) (M : Mesh F)
    (hpos : M.mVertices ≠ []) (hidx : M.mIndices.length < 2 ^ 32) :
    ∃ doc, Export_DAE ftoa M = .ok doc ∧ ∃ tri text, trianglesOfDocument doc = [tri] ∧
      declaredInputs tri
        = [(some "VERTEX", some "#Mesh-1-vertices", some "0")]
          ++ (if M.mNormals.length = M.mVertices.length then
                [(some "NORMAL", some "#Mesh-1-normals", some "1")] else [])
          ++ (if M.mTexCoords.length = M.mVertices.length then
                [(some "TEXCOORD", some "#Mesh-1-map1",
                  some (if M.mNormals.length = M.mVertices.length then "2" else "1"))]
              else []) ∧
      pText tri = some text ∧
      exportedP M.mIndices (inputChildren tri).length = .text text := by
  have hlen : M.mVertices.length ≠ 0 := by
    intro h; exact hpos (List.length_eq_zero.mp h)
  simp only [Export_DAE, hlen, if_false, exportP_ok _ _ hidx, ok_bind]
  refine ⟨_, rfl, ?_⟩
  by_cases hn : M.mNormals.length = M.mVertices.length <;>
  by_cases ht : M.mTexCoords.length = M.mVertices.length <;>
  · simp only [hn, ht, trianglesOfDocument, geometryElements, trianglesOf, TiXmlNode.isElement,
      TiXmlNode.FirstChild, TiXmlNode.children, TiXmlNode.Value, elementsFrom, ToElement,
      exportSource, decide_True, decide_False, if_true, if_false, List.find?, List.dropWhile,
      List.filterMap, List.filter, List.cons_append, List.nil_append, List.append_nil,
      Bool.false_eq_true, Option.bind]
    simp +decide [declaredInputs, inputChildren, pText, TiXmlNode.isElement,
      TiXmlNode.FirstChild, TiXmlNode.children, TiXmlNode.Value, TiXmlNode.Attribute, mapFind,
      intAttribute, ToElement, TiXmlNode.GetText, exportedP]
/-- C12: for every mesh with at least one vertex and fewer than `2^32` indices (the range
of the counter of the loop that writes them), `Export_DAE` writes a document whose
`<triangles>` element has a `<p>` whose tokens are the indices of the mesh, in order,
each repeated once per `<input>` child of the element; the number of tokens is the number
of indices times the number of inputs. -/
theorem export_p_body_repeats_each_index {F : Type} (ftoa : F → List Char) (M : Mesh F)
    (hpos : M.mVertices ≠ []) (hidx : M.mIndices.length < 2 ^ 32) :
    ∃ doc, Export_DAE ftoa M = .ok doc ∧ ∃ tri text,
      trianglesOfDocument doc = [tri] ∧ pText tri = some text ∧
      words text.data
        = (M.mIndices.flatMap fun v => List.replicate (inputChildren tri).length v).map utoa ∧
      (words text.data).length = M.mIndices.length * (inputChildren tri).length := by
  obtain ⟨doc, hdoc, tri, text, htri, _, hp, hx⟩ := export_triangles ftoa M hpos hidx
  have hw := words_exportedP _ _ _ hx
  refine ⟨doc, hdoc, tri, text, htri, hp, hw, ?_⟩
  rw [hw, List.length_map, exportedStream_length, Nat.mul_comm]

theorem export_p_body_repeats_each_index_witness :
    meshTextured.mVertices ≠ [] ∧ meshTextured.mIndices.length < 2 ^ 32 ∧
    ∃ doc, Export_DAE ftoaSmall meshTextured = .ok doc ∧ ∃ tri text,
      trianglesOfDocument doc = [tri] ∧ pText tri = some text ∧
      words text.data
        = (meshTextured.mIndices.flatMap fun v =>
            List.replicate (inputChildren tri).length v).map utoa ∧
      (words text.data).length = meshTextured.mIndices.length * (inputChildren tri).length :=
  ⟨by decide, by decide,
    export_p_body_repeats_each_index ftoaSmall meshTextured (by decide) (by decide)⟩

/-- C13 (amended): for every mesh with at least one vertex and fewer than `2^32` indices
(the range of the counter of the loop that writes them), `Export_DAE` writes a document,
and its `<triangles>` element lists its inputs as VERTEX at offset 0, then NORMAL at
offset 1 when normals are present, then TEXCOORD when texture coordinates are present, at
the offset that counts the inputs before it: 2 when normals are present and 1 when they
are not. -/
theorem export_triangles_inputs {F : Type} (ftoa : F → List Char) (M : Mesh F)
    (hpos : M.mVertices ≠ []) (hidx : M.mIndices.length < 2 ^ 32) :
    ∃ doc, Export_DAE ftoa M = .ok doc ∧ ∃ tri,
      trianglesOfDocument doc = [tri] ∧
      declaredInputs tri
        = [(some "VERTEX", some "#Mesh-1-vertices", some "0")]
          ++ (if M.mNormals.length = M.mVertices.length then
                [(some "NORMAL", some "#Mesh-1-normals", some "1")] else [])
          ++ (if M.mTexCoords.length = M.mVertices.length then
                [(some "TEXCOORD", some "#Mesh-1-map1",
                  some (if M.mNormals.length = M.mVertices.length then "2" else "1"))]
              else []) := by
  obtain ⟨doc, hdoc, tri, _, htri, hin, _, _⟩ := export_triangles ftoa M hpos hidx
  exact ⟨doc, hdoc, tri, htri, hin⟩

theorem export_triangles_inputs_witness :
    meshTextured.mVertices ≠ [] ∧ meshTextured.mIndices.length < 2 ^ 32 ∧
    ∃ doc, Export_DAE ftoaSmall meshTextured = .ok doc ∧ ∃ tri,
      trianglesOfDocument doc = [tri] ∧
      declaredInputs tri
        = [(some "VERTEX", some "#Mesh-1-vertices", some "0")]
          ++ (if meshTextured.mNormals.length = meshTextured.mVertices.length then
                [(some "NORMAL", some "#Mesh-1-normals", some "1")] else [])
          ++ (if meshTextured.mTexCoords.length = meshTextured.mVertices.length then
                [(some "TEXCOORD", some "#Mesh-1-map1",
                  some (if meshTextured.mNormals.length = meshTextured.mVertices.length
                    then "2" else "1"))]
              else []) :=
  ⟨by decide, by decide,
    export_triangles_inputs ftoaSmall meshTextured (by decide) (by decide)⟩

/-- C13, as stated, fails for a mesh with texture coordinates and without normals: the
TEXCOORD input is written at offset 1, and no input is written at offset 2. -/
theorem export_texcoord_input_at_offset_one :
    meshTexturedOnly.mTexCoords.length = meshTexturedOnly.mVertices.length ∧
    ∃ doc tri, Export_DAE ftoaSmall meshTexturedOnly = .ok doc ∧
      trianglesOfDocument doc = [tri] ∧
      declaredInputs tri
        = [(some "VERTEX", some "#Mesh-1-vertices", some "0"),
           (some "TEXCOORD", some "#Mesh-1-map1", some "1")] ∧
      (some "TEXCOORD", some "#Mesh-1-map1", some "2") ∉ declaredInputs tri :=
  ⟨by decide, _, _, rfl, rfl, by decide, by decide⟩

/-! ## The welding loop, iteration by iteration -/

theorem weldLoop_prefix {F : Type} [Zero F] (inputs : List Input) (pArray : List Nat)
    (fl : Flags) (sources : List (String × Source F)) (vertices : List (String × List Input))
    (fuel : Nat) : ∀ (m : Nat) (st w : WeldState F) (cs : List Indexes),
      weldPrefix inputs pArray fl sources vertices m = .ok st →
      weldLoop inputs pArray fl sources vertices fuel (m * inputs.length) st = .ok w →
      cornersLoop inputs pArray fuel (m * inputs.length) = .ok cs →
      (∀ j, j ≤ cs.length → ∃ stj, weldPrefix inputs pArray fl sources vertices (m + j) = .ok stj) ∧
      (∀ j, ∀ c, cs.get? j = some c → (m + j) * inputs.length < pArray.length ∧
        decodeTuple pArray ((m + j) * inputs.length) inputs ⟨0, 0, 0⟩ = .ok c) := by
  induction fuel with
  | zero =>
    intro m st w cs hp hw hc
    by_cases hi : m * inputs.length < pArray.length
    · simp [weldLoop, hi] at hw
    · simp only [cornersLoop, hi, if_false, Except.ok.injEq] at hc
      subst hc
      refine ⟨fun j hj => ?_, fun j c hjc => by simp at hjc⟩
      have : j = 0 := by simpa using hj
      subst this
      exact ⟨st, hp⟩
  | succ fuel ih =>
    intro m st w cs hp hw hc
    by_cases hi : m * inputs.length < pArray.length
    · simp only [weldLoop, hi, if_true, bind_eq_ok] at hw
      obtain ⟨ix, hix, st1, hst1, hrest⟩ := hw
      simp only [cornersLoop, hi, if_true, bind_eq_ok, pure_eq_ok] at hc
      obtain ⟨ix', hix', rest, hcrest, rfl⟩ := hc
      have e : ix' = ix := by rw [hix] at hix'; cases hix'; rfl
      subst e
      have hm1 : (m + 1) * inputs.length = m * inputs.length + inputs.length := Nat.succ_mul _ _
      have hp1 : weldPrefix inputs pArray fl sources vertices (m + 1) = .ok st1 := by
        simp only [weldPrefix, hp, ok_bind, hi, if_true, hix, hst1]
      rw [← hm1] at hrest hcrest
      obtain ⟨a, b⟩ := ih (m + 1) st1 w rest hp1 hrest hcrest
      refine ⟨fun j hj => ?_, fun j c hjc => ?_⟩
      · cases j with
        | zero => exact ⟨st, hp⟩
        | succ j =>
          have := a j (by simpa using hj)
          rwa [show m + (j + 1) = m + 1 + j by omega]
      · cases j with
        | zero =>
          simp only [List.get?_cons_zero, Option.some.injEq] at hjc
          subst hjc
          exact ⟨hi, hix⟩
        | succ j =>
          have := b j c (by simpa using hjc)
          rwa [show m + (j + 1) = m + 1 + j by omega]
    · simp only [cornersLoop, hi, if_false, Except.ok.injEq] at hc
      subst hc
      refine ⟨fun j hj => ?_, fun j c hjc => by simp at hjc⟩
      have : j = 0 := by simpa using hj
      subst this
      exact ⟨st, hp⟩

theorem take_succ_get {α : Type} (cs : List α) (n : Nat) (c : α) (h : cs.get? n = some c) :
    cs.take (n + 1) = cs.take n ++ [c] := by
  rw [List.take_succ]
  simp only [List.get?_eq_getElem?] at h
  simp [h]

theorem weldPrefix_inv {F : Type} [Zero F] (inputs : List Input) (pArray : List Nat)
    (fl : Flags) (sources : List (String × Source F)) (vertices : List (String × List Input))
    (cs : List Indexes)
    (hdec : ∀ j, ∀ c, cs.get? j = some c → j * inputs.length < pArray.length ∧
        decodeTuple pArray (j * inputs.length) inputs ⟨0, 0, 0⟩ = .ok c) :
    ∀ (n : Nat) (st : WeldState F), n ≤ cs.length →
      weldPrefix inputs pArray fl sources vertices n = .ok st →
      WeldInv fl sources vertices (cs.take n) st := by
  intro n
  induction n with
  | zero =>
    intro st _ h
    simp only [weldPrefix, Except.ok.injEq] at h
    subst h
    simpa using WeldInv_init fl sources vertices
  | succ n ih =>
    intro st hn h
    have hlt : n < cs.length := hn
    obtain ⟨c, hc⟩ : ∃ c, cs.get? n = some c := ⟨cs.get ⟨n, hlt⟩, List.get?_eq_get hlt⟩
    obtain ⟨hi, hix⟩ := hdec n c hc
    simp only [weldPrefix, bind_eq_ok, hi, if_true, hix, Except.ok.injEq] at h
    obtain ⟨st0, h0, _, rfl, hstep⟩ := h
    rw [take_succ_get cs n c hc]
    exact weldStep_inv fl sources vertices _ st0 st c (ih st0 (by omega) h0) hstep
/-- C14 (amended): the welder assigns unified indices in first-occurrence order.  Before
every iteration the counter `index` is the number of distinct triples met so far, which is
the length of the output positions array when the element has a VERTEX input; an
iteration is a cache miss exactly when its triple was not met before, and then the index
that is appended and cached is that counter.  So every corner gets the rank of its triple
among the distinct triples of the stream in the order of their first occurrence. -/
theorem weld_assigns_indices_in_first_occurrence_order {F : Type} [Zero F]
    (inputs : List Input) (pArray : List Nat) (fl : Flags)
    (sources : List (String × Source F)) (vertices : List (String × List Input))
    (w : WeldState F) (h : weld inputs pArray fl sources vertices = .ok w) :
    ∃ cs, corners inputs pArray = .ok cs ∧
      w.indexVector = cs.map (fun c => (firsts cs).indexOf c) ∧
      ∀ n c, cs.get? n = some c →
        ∃ st st', weldPrefix inputs pArray fl sources vertices n = .ok st ∧
          weldPrefix inputs pArray fl sources vertices (n + 1) = .ok st' ∧
          st.index = (firsts (cs.take n)).length ∧
          (fl.hasVerts = true → st.attrs.vertVector.length = st.index) ∧
          (lookup3 st.prevIndices c = none ↔ c ∉ cs.take n) ∧
          (lookup3 st.prevIndices c = none →
            st'.indexVector = st.indexVector ++ [st.index] ∧
            lookup3 st'.prevIndices c = some st.index) := by
  obtain ⟨cs, hcs, hinv⟩ := weld_spec inputs pArray fl sources vertices w h
  refine ⟨cs, hcs, hinv.2.1, ?_⟩
  have h0 : (0 : Nat) * inputs.length = 0 := Nat.zero_mul _
  obtain ⟨a, b⟩ := weldLoop_prefix inputs pArray fl sources vertices pArray.length 0
    WeldState.init w cs rfl (by rw [h0]; exact h) (by rw [h0]; exact hcs)
  simp only [Nat.zero_add] at a b
  intro n c hc
  have hlt : n < cs.length := by
    rw [List.get?_eq_getElem?] at hc
    exact (List.getElem?_eq_some_iff.mp hc).1
  obtain ⟨st, hst⟩ := a n (by omega)
  obtain ⟨st', hst'⟩ := a (n + 1) (by omega)
  have hinvn := weldPrefix_inv inputs pArray fl sources vertices cs b n st (by omega) hst
  obtain ⟨hi, hix⟩ := b n c hc
  have hstep : weldStep fl sources vertices st c = .ok st' := by
    simpa only [weldPrefix, hst, ok_bind, hi, if_true, hix] using hst'
  have hlook := hinvn.2.2.1 c
  refine ⟨st, st', hst, hst', hinvn.1, ?_, ?_, ?_⟩
  · intro hv
    have := hinvn.2.2.2.1
    rw [if_pos hv] at this
    rw [hinvn.1, this.length_eq]
  · rw [hlook]
    have hmf := mem_firsts (cs.take n) c
    by_cases hm : c ∈ cs.take n
    · simp [hm, hmf.mpr hm]
    · have : c ∉ firsts (cs.take n) := fun hx => hm (hmf.mp hx)
      simp [hm, this]
  · intro hmiss
    obtain ⟨prev, hprev, hl⟩ := weldStep_miss fl sources vertices st c hmiss
    rw [hprev] at hstep
    obtain ⟨attrs, _, rfl⟩ := weldMiss_ok fl sources vertices st st' c prev hstep
    exact ⟨rfl, by simpa using hl c⟩

theorem weld_assigns_indices_in_first_occurrence_order_witness :
    exWelded.indexVector = [0, 1, 2, 2, 1, 3] ∧ exWelded.attrs.vertVector.length = 4 ∧
    ∃ cs, corners exInputs exStream = .ok cs ∧
      exWelded.indexVector = cs.map (fun c => (firsts cs).indexOf c) ∧
      ∀ n c, cs.get? n = some c →
        ∃ st st', weldPrefix exInputs exStream exFlags exSources exVertices n = .ok st ∧
          weldPrefix exInputs exStream exFlags exSources exVertices (n + 1) = .ok st' ∧
          st.index = (firsts (cs.take n)).length ∧
          (exFlags.hasVerts = true → st.attrs.vertVector.length = st.index) ∧
          (lookup3 st.prevIndices c = none ↔ c ∉ cs.take n) ∧
          (lookup3 st.prevIndices c = none →
            st'.indexVector = st.indexVector ++ [st.index] ∧
            lookup3 st'.prevIndices c = some st.index) :=
  ⟨rfl, rfl, weld_assigns_indices_in_first_occurrence_order exInputs exStream exFlags
    exSources exVertices exWelded (by decide)⟩

/-- C14, as stated, fails for a stream without a VERTEX input: the second iteration is a
cache miss that appends the index 1, and the output positions array is empty. -/
theorem weld_index_is_not_positions_length :
    ∃ st st', weldPrefix exNormalOnlyInputs [0, 1] exNormalOnlyFlags exNormalOnlySources [] 1
        = .ok st ∧
      weldPrefix exNormalOnlyInputs [0, 1] exNormalOnlyFlags exNormalOnlySources [] 2
        = .ok st' ∧
      lookup3 st.prevIndices ⟨0, 1, 0⟩ = none ∧
      st'.indexVector = st.indexVector ++ [1] ∧
      lookup3 st'.prevIndices ⟨0, 1, 0⟩ = some 1 ∧
      st.attrs.vertVector.length = 0 ∧
      weld exNormalOnlyInputs [0, 1] exNormalOnlyFlags exNormalOnlySources [] = .ok st' :=
  ⟨_, _, rfl, rfl, by decide, by decide, by decide, by decide, by decide⟩

/-! ## The attribute fetch -/

theorem component_eq_accessorRead {F : Type} [Zero F] (src : Source F) (k n c : Nat)
    (hb : accessorInBounds src k n = true) (hc : c < n) :
    component src k c = .ok (accessorRead src k c) := by
  simp only [accessorInBounds, Bool.and_eq_true, decide_eq_true_eq, List.all_eq_true,
    List.mem_range] at hb
  obtain ⟨hlen, hb⟩ := hb
  unfold component accessorRead
  by_cases hs : c < src.stride
  · have hlt := hb c hc hs
    have h1 : src.stride ≥ c + 1 := hs
    have h2 : src.offset + k * src.stride + c < SIZE_MODULUS := by omega
    have h3 : k * src.stride < SIZE_MODULUS := by omega
    have h4 : src.offset + k * src.stride < SIZE_MODULUS := by omega
    have hidx : (if c = 0 then sizeAdd src.offset (sizeMul k src.stride)
        else sizeAdd (sizeAdd src.offset (sizeMul k src.stride)) c)
        = src.offset + k * src.stride + c := by
      by_cases h0 : c = 0
      · subst h0
        simp [sizeAdd, sizeMul, Nat.mod_eq_of_lt h3, Nat.mod_eq_of_lt h4]
      · simp [h0, sizeAdd, sizeMul, Nat.mod_eq_of_lt h3, Nat.mod_eq_of_lt h4,
          Nat.mod_eq_of_lt h2]
    rw [if_pos h1, if_pos hs, hidx]
    unfold vectorAt
    rw [List.get?_eq_get hlt]
    simp [List.getD_eq_getElem?_getD, List.getElem?_eq_getElem hlt]
  · have h1 : ¬ src.stride ≥ c + 1 := by omega
    rw [if_neg h1, if_neg hs]

theorem fetchVector3_accessorRead {F : Type} [Zero F] (sources : List (String × Source F))
    (vertices : List (String × List Input)) (name : String) (k : Nat) (src : Source F)
    (h : GetSource sources vertices name = .ok src) (hb : accessorInBounds src k 3 = true) :
    fetchVector3 sources vertices name k
      = .ok ⟨accessorRead src k 0, accessorRead src k 1, accessorRead src k 2⟩ := by
  simp only [fetchVector3, h, ok_bind, component_eq_accessorRead src k 3 0 hb (by omega),
    component_eq_accessorRead src k 3 1 hb (by omega),
    component_eq_accessorRead src k 3 2 hb (by omega)]
  rfl

theorem fetchVector2_accessorRead {F : Type} [Zero F] (sources : List (String × Source F))
    (vertices : List (String × List Input)) (name : String) (k : Nat) (src : Source F)
    (h : GetSource sources vertices name = .ok src) (hb : accessorInBounds src k 2 = true) :
    fetchVector2 sources vertices name k
      = .ok ⟨accessorRead src k 0, accessorRead src k 1⟩ := by
  simp only [fetchVector2, h, ok_bind, component_eq_accessorRead src k 2 0 hb (by omega),
    component_eq_accessorRead src k 2 1 hb (by omega)]
  rfl

/-- C15: the attribute fetch follows the accessor semantics.  For every source that a
present attribute resolves to and every element index whose reads stay within the array,
`InsertVertNormalTexcoord` appends the position and the normal `(c0, c1, c2)` and the
texture coordinate `(c0, c1)`, where `c_i` is `values[offset + k*stride + i]` when
`i < stride` and 0 otherwise; no other component is read. -/
theorem fetch_follows_accessor_semantics {F : Type} [Zero F] (a : Attributes F) (fl : Flags)
    (vertIndex normalIndex texcoordIndex : Nat) (sources : List (String × Source F))
    (vertices : List (String × List Input)) (srcV srcN srcT : Source F)
    (hV : fl.hasVerts = true → GetSource sources vertices fl.vertSource = .ok srcV ∧
      accessorInBounds srcV vertIndex 3 = true)
    (hN : fl.hasNormals = true → GetSource sources vertices fl.normalSource = .ok srcN ∧
      accessorInBounds srcN normalIndex 3 = true)
    (hT : fl.hasTexcoords = true → GetSource sources vertices fl.texcoordSource = .ok srcT ∧
      accessorInBounds srcT texcoordIndex 2 = true) :
    InsertVertNormalTexcoord a fl vertIndex normalIndex texcoordIndex sources vertices
      = .ok
        { vertVector := a.vertVector ++
            (if fl.hasVerts then
              [⟨accessorRead srcV vertIndex 0, accessorRead srcV vertIndex 1,
                accessorRead srcV vertIndex 2⟩]
             else []),
          normalVector := a.normalVector ++
            (if fl.hasNormals then
              [⟨accessorRead srcN normalIndex 0, accessorRead srcN normalIndex 1,
                accessorRead srcN normalIndex 2⟩]
             else []),
          texcoordVector := a.texcoordVector ++
            (if fl.hasTexcoords then
              [⟨accessorRead srcT texcoordIndex 0, accessorRead srcT texcoordIndex 1⟩]
             else []) } := by
  have h1 : fl.hasVerts = true → fetchVector3 sources vertices fl.vertSource vertIndex
      = .ok ⟨accessorRead srcV vertIndex 0, accessorRead srcV vertIndex 1,
          accessorRead srcV vertIndex 2⟩ :=
    fun h => fetchVector3_accessorRead _ _ _ _ _ (hV h).1 (hV h).2
  have h2 : fl.hasNormals = true → fetchVector3 sources vertices fl.normalSource normalIndex
      = .ok ⟨accessorRead srcN normalIndex 0, accessorRead srcN normalIndex 1,
          accessorRead srcN normalIndex 2⟩ :=
    fun h => fetchVector3_accessorRead _ _ _ _ _ (hN h).1 (hN h).2
  have h3 : fl.hasTexcoords = true →
      fetchVector2 sources vertices fl.texcoordSource texcoordIndex
      = .ok ⟨accessorRead srcT texcoordIndex 0, accessorRead srcT texcoordIndex 1⟩ :=
    fun h => fetchVector2_accessorRead _ _ _ _ _ (hT h).1 (hT h).2
  obtain ⟨a', ha'⟩ := InsertVertNormalTexcoord_succeeds a fl vertIndex normalIndex
    texcoordIndex sources vertices (fun h => ⟨_, h1 h⟩) (fun h => ⟨_, h2 h⟩)
    (fun h => ⟨_, h3 h⟩)
  have hok := InsertVertNormalTexcoord_ok a a' fl vertIndex normalIndex texcoordIndex
    sources vertices ha'
  rw [ha']
  obtain ⟨av, an, at'⟩ := a'
  clear ha' hV hN hT
  cases hv : fl.hasVerts <;> cases hn : fl.hasNormals <;> cases ht : fl.hasTexcoords <;>
    simp only [hv, hn, ht, Bool.false_eq_true, if_false, if_true, List.append_nil,
      forall_const, false_implies] at h1 h2 h3 hok ⊢ <;>
    simp_all
theorem fetch_follows_accessor_semantics_witness :
    InsertVertNormalTexcoord (⟨[], [], []⟩ : Attributes Int)
        ⟨true, true, true, "V", "N", "T"⟩ 1 0 1 exTexSources exVertices
      = .ok { vertVector := [⟨1, 0, 0⟩], normalVector := [⟨0, 0, 1⟩],
              texcoordVector := [⟨1, 0⟩] } ∧
    Import_DAE atofInt (some docStrideTwoTexcoords)
      = .ok { mIndices := [0, 1, 2], mVertices := [⟨0, 0, 0⟩, ⟨1, 0, 0⟩, ⟨0, 1, 0⟩],
              mNormals := [⟨0, 0, 1⟩, ⟨0, 0, 1⟩, ⟨0, 0, 1⟩],
              mTexCoords := [⟨0, 0⟩, ⟨1, 0⟩, ⟨0, 1⟩], mComment := "" } :=
  ⟨fetch_follows_accessor_semantics (⟨[], [], []⟩ : Attributes Int)
      ⟨true, true, true, "V", "N", "T"⟩ 1 0 1 exTexSources exVertices
      { array := [0, 0, 0, 1, 0, 0, 0, 1, 0], stride := 3, count := 3, offset := 0, params := [] }
      { array := [0, 0, 1], stride := 3, count := 1, offset := 0, params := [] }
      { array := [0, 0, 1, 0, 0, 1], stride := 2, count := 3, offset := 0, params := [] }
      (fun _ => ⟨by decide, by decide⟩) (fun _ => ⟨by decide, by decide⟩)
      (fun _ => ⟨by decide, by decide⟩),
    by decide⟩

/-! ## Source resolution -/

theorem GetSource_loop_first {F : Type} (sources : List (String × Source F)) (i : Input)
    (s : Source F) (post : List Input) (hs : mapFind sources i.source = some s) :
    ∀ pre : List Input, (∀ j ∈ pre, mapFind sources j.source = none) →
      GetSource.loop sources (pre ++ i :: post) = some s := by
  intro pre
  induction pre with
  | nil => intro _; simp [GetSource.loop, hs]
  | cons j pre ih =>
    intro h
    have hj := h j (List.mem_cons_self _ _)
    simp only [List.cons_append, GetSource.loop, hj]
    exact ih (fun x hx => h x (List.mem_cons_of_mem _ hx))

/-- C16: source resolution of a name `n`.  When `n` is a key of the source table the
result is its entry, whatever the `<vertices>` map holds; otherwise, when `n` is a key of
the `<vertices>` map and `i` is the first of its inputs, in list order, whose source is a
key of the source table, the result is the entry of that source, whatever the semantic
of `i`. -/
theorem GetSource_resolves {F : Type} (sources : List (String × Source F))
    (vertices : List (String × List Input)) (n : String) (s : Source F) :
    (mapFind sources n = some s → GetSource sources vertices n = .ok s) ∧
    (∀ (pre post : List Input) (i : Input),
      mapFind sources n = none →
      mapFind vertices n = some (pre ++ i :: post) →
      (∀ j ∈ pre, mapFind sources j.source = none) →
      mapFind sources i.source = some s →
      GetSource sources vertices n = .ok s) := by
  refine ⟨fun h => by simp [GetSource, h], fun pre post i h1 h2 h3 h4 => ?_⟩
  simp [GetSource, h1, h2, GetSource_loop_first sources i s post h4 pre h3]

theorem GetSource_resolves_witness :
    GetSource exSources (("P", [⟨"N", .VERTEX, 0⟩]) :: exVertices) "P"
      = .ok { array := [0, 0, 0, 1, 0, 0, 0, 1, 0, 1, 1, 0], stride := 3, count := 4,
              offset := 0, params := [] } ∧
    GetSource exSources [("V", [⟨"X", .VERTEX, 0⟩, ⟨"P", .UNKNOWN, 0⟩, ⟨"N", .NORMAL, 0⟩])] "V"
      = .ok { array := [0, 0, 0, 1, 0, 0, 0, 1, 0, 1, 1, 0], stride := 3, count := 4,
              offset := 0, params := [] } ∧
    Import_DAE atofInt (some docTriangle)
      = .ok { mIndices := [0, 1, 2], mVertices := [⟨0, 0, 0⟩, ⟨1, 0, 0⟩, ⟨0, 1, 0⟩],
              mNormals := [], mTexCoords := [], mComment := "" } :=
  ⟨(GetSource_resolves exSources (("P", [⟨"N", .VERTEX, 0⟩]) :: exVertices) "P" _).1
      (by decide),
   (GetSource_resolves exSources
      [("V", [⟨"X", .VERTEX, 0⟩, ⟨"P", .UNKNOWN, 0⟩, ⟨"N", .NORMAL, 0⟩])] "V" _).2
      [⟨"X", .VERTEX, 0⟩] [⟨"N", .NORMAL, 0⟩] ⟨"P", .UNKNOWN, 0⟩
      (by decide) (by decide) (by decide) (by decide),
   by decide⟩

/-! ## The source table -/

/-- C18 fails on the code: on a text of three tokens followed by white space the reading
loop pushes four values, the last one twice, for an index array and for a float array
alike; leading white space does no harm. -/
theorem reading_loop_repeats_last_value_after_trailing_space :
    ReadIndexArray (some (.element "p" [] [.text "0 1 2 "])) [] = .ok [0, 1, 2, 2] ∧
    readSource atofInt [] (sourceElement "N" "0 0 1\n" "3" "1")
      = .ok [("N", { array := [0, 0, 1, 1], stride := 3, count := 1, offset := 0,
                     params := [] })] ∧
    ReadIndexArray (some (.element "p" [] [.text " 0 1 2"])) [] = .ok [0, 1, 2] := by
  decide

/-! ## The input descriptor parser -/

theorem lastSource_concat (sem : Semantic) (l : List Input) (r : Input) :
    lastSource sem (l ++ [r]) = if r.semantic = sem then r.source else lastSource sem l := by
  unfold lastSource
  by_cases h : r.semantic = sem
  · simp [List.filter_append, h]
  · simp [List.filter_append, h]

theorem ReadInputs_step_record (acc : Flags × List Input) (e : TiXmlNode) (r : Input)
    (hacc : acc.1 = flagsOf acc.2) (hval : e.Value = "input") (hr : inputRecord e = .ok r) :
    ReadInputs.step acc e = .ok (flagsOf (acc.2 ++ [r]), acc.2 ++ [r]) := by
  unfold inputRecord at hr
  simp only [bind_eq_ok, pure_eq_ok, deref_eq_ok] at hr
  obtain ⟨source, hs, o, ho, off, hoff, sem, hsem, rfl⟩ := hr
  unfold ReadInputs.step
  rw [if_neg (by rw [hval]; simp)]
  simp only [hs, ho, hsem, hoff, deref, ok_bind]
  have : ∀ fl : Flags, fl = flagsOf (acc.2 ++ [⟨source, ToSemantic sem, toSizeT off⟩]) →
      (pure (fl, acc.2 ++ [⟨source, ToSemantic sem, toSizeT off⟩]) :
        Except Failure (Flags × List Input))
      = .ok (flagsOf (acc.2 ++ [⟨source, ToSemantic sem, toSizeT off⟩]),
          acc.2 ++ [⟨source, ToSemantic sem, toSizeT off⟩]) := by
    intro fl h; rw [h]; rfl
  apply this
  rw [hacc]
  cases hsm : ToSemantic sem <;>
    simp [flagsOf, lastSource_concat, List.any_append, hsm]
theorem elementsFrom_input_filter (cs : List TiXmlNode)
    (hnodes : ∀ c ∈ cs, c.Value = "input" → c.isElement = true) :
    (elementsFrom "input" cs).filter (fun c => decide (c.Value = "input"))
      = cs.filter fun c => c.isElement && decide (c.Value = "input") := by
  induction cs with
  | nil => rfl
  | cons c cs ih =>
    by_cases hv : c.Value = "input"
    · have he := hnodes c (List.mem_cons_self _ _) hv
      simp [elementsFrom, List.dropWhile, hv, he, List.filter_filter, Bool.and_comm]
    · have ih' := ih (fun x hx => hnodes x (List.mem_cons_of_mem _ hx))
      simp only [elementsFrom] at ih' ⊢
      simp only [List.dropWhile, ne_eq, hv, not_false_eq_true, decide_True]
      rw [ih']
      simp [hv]

theorem ReadInputs_fold_records (l : List TiXmlNode) :
    ∀ (acc : Flags × List Input) (rs : List Input), acc.1 = flagsOf acc.2 →
      List.Forall₂ (fun e r => inputRecord e = .ok r)
        (l.filter fun c => decide (c.Value = "input")) rs →
      l.foldlM ReadInputs.step acc = .ok (flagsOf (acc.2 ++ rs), acc.2 ++ rs) := by
  induction l with
  | nil =>
    intro acc rs hacc h
    cases h
    simp only [List.foldlM_nil, List.append_nil, ← hacc]
    rfl
  | cons e l ih =>
    intro acc rs hacc h
    by_cases hv : e.Value = "input"
    · simp only [List.filter, hv, decide_True] at h
      cases h with
      | cons hr hrest =>
        rename_i r rs
        rw [List.foldlM_cons, ReadInputs_step_record acc e r hacc hv hr, ok_bind]
        have := ih (flagsOf (acc.2 ++ [r]), acc.2 ++ [r]) rs rfl hrest
        simpa using this
    · simp only [List.filter, hv, decide_False] at h
      have hstep : ReadInputs.step acc e = .ok acc := by
        unfold ReadInputs.step
        rw [if_pos hv]
      rw [List.foldlM_cons, hstep, ok_bind]
      exact ih acc rs hacc h

theorem decodeTuple_filter (pArray : List Nat) (i : Nat) (inputs : List Input) :
    ∀ ix : Indexes, decodeTuple pArray i inputs ix
      = decodeTuple pArray i (inputs.filter fun j => drives j.semantic) ix := by
  induction inputs with
  | nil => intro ix; rfl
  | cons j rest ih =>
    intro ix
    cases hs : j.semantic <;>
      simp [decodeTuple, List.filter, drives, hs, ih]

theorem weldLoop_congr {F : Type} [Zero F] (inputs inputs' : List Input) (pArray : List Nat)
    (fl : Flags) (sources : List (String × Source F)) (vertices : List (String × List Input))
    (hlen : inputs'.length = inputs.length)
    (hfil : (inputs'.filter fun j => drives j.semantic)
      = inputs.filter fun j => drives j.semantic) (fuel : Nat) :
    ∀ (i : Nat) (st : WeldState F),
      weldLoop inputs' pArray fl sources vertices fuel i st
        = weldLoop inputs pArray fl sources vertices fuel i st := by
  induction fuel with
  | zero => intro i st; rfl
  | succ fuel ih =>
    intro i st
    simp only [weldLoop, hlen, decodeTuple_filter pArray i inputs',
      decodeTuple_filter pArray i inputs, hfil, ih]

theorem flagsOf_filter (inputs : List Input) :
    flagsOf (inputs.filter fun j => drives j.semantic) = flagsOf inputs := by
  have e1 : ∀ sem : Semantic, drives sem = true →
      ((inputs.filter fun j => drives j.semantic).filter fun j => decide (j.semantic = sem))
        = inputs.filter fun j => decide (j.semantic = sem) := by
    intro sem hsem
    rw [List.filter_filter]
    congr 1
    funext j
    by_cases h : j.semantic = sem
    · simp [h, hsem]
    · simp [h]
  have e2 : ∀ sem : Semantic, drives sem = true →
      ((inputs.filter fun j => drives j.semantic).any fun j => decide (j.semantic = sem))
        = inputs.any fun j => decide (j.semantic = sem) := by
    intro sem hsem
    rw [List.any_filter]
    congr 1
    funext j
    by_cases h : j.semantic = sem
    · simp [h, hsem]
    · simp [h]
  simp only [flagsOf, lastSource, e1 _ (by decide : drives .VERTEX = true),
    e1 _ (by decide : drives .NORMAL = true), e1 _ (by decide : drives .TEXCOORD = true),
    e2 _ (by decide : drives .VERTEX = true), e2 _ (by decide : drives .NORMAL = true),
    e2 _ (by decide : drives .TEXCOORD = true)]
/-- C19: when no other child node of a primitives element is named `input`, `ReadInputs`
emits the record of every `<input>` child, in document order, whatever its semantic, so
the tuple width of the welder counts all of them.  The flags and source names are those
of the inputs of semantic VERTEX, NORMAL and TEXCOORD alone, and the triple that the
welder decodes and the result of the welding loop depend on the other inputs only
through their number. -/
theorem ReadInputs_emits_one_record_per_input {F : Type} [Zero F] (prim : TiXmlNode)
    (inputs : List Input)
    (hnodes : ∀ c ∈ prim.children, c.Value = "input" → c.isElement = true)
    (hrec : List.Forall₂ (fun e r => inputRecord e = .ok r) (inputChildren prim) inputs) :
    ReadInputs prim = .ok (flagsOf (inputs.filter fun j => drives j.semantic), inputs) ∧
    inputs.length = (inputChildren prim).length ∧
    (∀ (pArray : List Nat) (i : Nat) (ix : Indexes),
      decodeTuple pArray i inputs ix
        = decodeTuple pArray i (inputs.filter fun j => drives j.semantic) ix) ∧
    (∀ (inputs' : List Input) (pArray : List Nat) (fl : Flags)
      (sources : List (String × Source F)) (vertices : List (String × List Input)),
      inputs'.length = inputs.length →
      (inputs'.filter fun j => drives j.semantic) = (inputs.filter fun j => drives j.semantic) →
      weld inputs' pArray fl sources vertices = weld inputs pArray fl sources vertices) := by
  refine ⟨?_, hrec.length_eq.symm, fun pArray i ix => decodeTuple_filter pArray i inputs ix,
    fun inputs' pArray fl sources vertices hlen hfil =>
      weldLoop_congr inputs inputs' pArray fl sources vertices hlen hfil _ _ _⟩
  have hf : ((elementsFrom "input" prim.children).filter fun c => decide (c.Value = "input"))
      = inputChildren prim := elementsFrom_input_filter prim.children hnodes
  have := ReadInputs_fold_records (elementsFrom "input" prim.children) (Flags.init, []) inputs
    (by decide) (by rw [hf]; exact hrec)
  rw [flagsOf_filter]
  simpa [ReadInputs] using this

theorem ReadInputs_emits_one_record_per_input_witness :
    ReadInputs (trianglesElement
        [inputElement "VERTEX" "#V" "0", inputElement "COLOR" "#C" "1"] "0 9 1 9 2 9")
      = .ok (flagsOf (([⟨"V", .VERTEX, 0⟩, ⟨"C", .UNKNOWN, 1⟩] : List Input).filter
          fun j => drives j.semantic), [⟨"V", .VERTEX, 0⟩, ⟨"C", .UNKNOWN, 1⟩]) ∧
    ([⟨"V", .VERTEX, 0⟩, ⟨"C", .UNKNOWN, 1⟩] : List Input).length
      = (inputChildren (trianglesElement
          [inputElement "VERTEX" "#V" "0", inputElement "COLOR" "#C" "1"] "0 9 1 9 2 9")).length ∧
    (∀ (pArray : List Nat) (i : Nat) (ix : Indexes),
      decodeTuple pArray i [⟨"V", .VERTEX, 0⟩, ⟨"C", .UNKNOWN, 1⟩] ix
        = decodeTuple pArray i (([⟨"V", .VERTEX, 0⟩, ⟨"C", .UNKNOWN, 1⟩] : List Input).filter
            fun j => drives j.semantic) ix) ∧
    (∀ (inputs' : List Input) (pArray : List Nat) (fl : Flags)
      (sources : List (String × Source Int)) (vertices : List (String × List Input)),
      inputs'.length = ([⟨"V", .VERTEX, 0⟩, ⟨"C", .UNKNOWN, 1⟩] : List Input).length →
      (inputs'.filter fun j => drives j.semantic)
        = (([⟨"V", .VERTEX, 0⟩, ⟨"C", .UNKNOWN, 1⟩] : List Input).filter
            fun j => drives j.semantic) →
      weld inputs' pArray fl sources vertices
        = weld [⟨"V", .VERTEX, 0⟩, ⟨"C", .UNKNOWN, 1⟩] pArray fl sources vertices) :=
  ReadInputs_emits_one_record_per_input
    (trianglesElement [inputElement "VERTEX" "#V" "0", inputElement "COLOR" "#C" "1"]
      "0 9 1 9 2 9")
    [⟨"V", .VERTEX, 0⟩, ⟨"C", .UNKNOWN, 1⟩]
    (by
      intro c hc _
      simp only [trianglesElement, inputElement, TiXmlNode.children, List.cons_append,
        List.nil_append, List.mem_cons, List.mem_singleton, List.not_mem_nil, or_false] at hc
      rcases hc with rfl | rfl | rfl <;> rfl)
    (List.Forall₂.cons (by decide) (List.Forall₂.cons (by decide) List.Forall₂.nil))

/-! ## The `<polylist>` block -/

theorem forM_const_ok {α : Type} (l : List α) (act : Except Failure Unit)
    (h : act = .ok ()) : l.forM (fun _ => act) = .ok () := by
  subst h
  induction l with
  | nil => rfl
  | cons a l ih => exact ih

theorem polylistCorner_ok (pArray : List Nat) (offset : Nat) :
    ∀ inputs : List Input, (∀ j ∈ inputs, sizeAdd offset j.offset < pArray.length) →
      polylistCorner pArray offset inputs = .ok () := by
  intro inputs
  induction inputs with
  | nil => intro _; rfl
  | cons j rest ih =>
    intro h
    have hj := h j (List.mem_cons_self _ _)
    have hr := ih (fun x hx => h x (List.mem_cons_of_mem _ hx))
    have hv : vectorAt pArray (sizeAdd offset j.offset)
        = .ok (pArray.get ⟨sizeAdd offset j.offset, hj⟩) := by
      unfold vectorAt; rw [List.get?_eq_get hj]
    cases hs : j.semantic <;> simp only [polylistCorner, hs, hv, ok_bind, hr]

theorem polylistLoop_ok (inputs : List Input) (pArray : List Nat) (S : Nat)
    (hk : 0 < inputs.length) (hlen : pArray.length = S * inputs.length)
    (hoff : ∀ j ∈ inputs, j.offset < inputs.length) (hsize : pArray.length < SIZE_MODULUS) :
    ∀ (vc : List Nat) (offset : Nat), offset + vc.sum ≤ S →
      polylistLoop inputs pArray vc offset = .ok () := by
  have hS : S ≤ S * inputs.length := Nat.le_mul_of_pos_right _ hk
  intro vc
  induction vc with
  | nil => intro _ _; rfl
  | cons v vc ih =>
    intro offset h
    simp only [List.sum_cons] at h
    have hadd : sizeAdd offset v = offset + v := by
      unfold sizeAdd
      exact Nat.mod_eq_of_lt (by omega)
    have hcorner : (List.range v).forM (fun _ => polylistCorner pArray offset inputs)
        = .ok () := by
      cases v with
      | zero => rfl
      | succ v =>
        apply forM_const_ok
        apply polylistCorner_ok
        intro j hj
        have hjo := hoff j hj
        have h1 : offset + 1 ≤ S := by omega
        have h2 : (offset + 1) * inputs.length ≤ S * inputs.length :=
          Nat.mul_le_mul_right _ h1
        have h3 : offset ≤ offset * inputs.length := Nat.le_mul_of_pos_right _ hk
        have h4 : (offset + 1) * inputs.length = offset * inputs.length + inputs.length :=
          Nat.succ_mul _ _
        have hlt : offset + j.offset < pArray.length := by omega
        unfold sizeAdd
        rw [Nat.mod_eq_of_lt (by omega)]
        exact hlt
    simp only [polylistLoop, hcorner, ok_bind, hadd]
    exact ih (offset + v) (by omega)

theorem polylistLoop_no_inputs (pArray : List Nat) :
    ∀ (vc : List Nat) (offset : Nat), polylistLoop [] pArray vc offset = .ok () := by
  intro vc
  induction vc with
  | nil => intro _; rfl
  | cons v vc ih =>
    intro offset
    have : (List.range v).forM (fun _ => polylistCorner pArray offset []) = .ok () :=
      forM_const_ok _ _ rfl
    simp only [polylistLoop, this, ok_bind, ih]

theorem WellFormedPolylist_true (poly : TiXmlNode) (h : WellFormedPolylist poly = true) :
    ∃ vcountArray pArray fl inputs,
      ReadIndexArray (ToElement (poly.FirstChild "vcount")) [] = .ok vcountArray ∧
      ReadIndexArray (ToElement (poly.FirstChild "p")) [] = .ok pArray ∧
      ReadInputs poly = .ok (fl, inputs) ∧
      pArray.length = vcountArray.sum * inputs.length ∧
      (∀ j ∈ inputs, j.offset < inputs.length) ∧
      pArray.length < SIZE_MODULUS := by
  unfold WellFormedPolylist at h
  cases h1 : ReadIndexArray (ToElement (poly.FirstChild "vcount")) [] with
  | error e => simp [h1] at h
  | ok vc =>
    cases h2 : ReadIndexArray (ToElement (poly.FirstChild "p")) [] with
    | error e => simp [h1, h2] at h
    | ok pArray =>
      cases h3 : ReadInputs poly with
      | error e => simp [h1, h2, h3] at h
      | ok r =>
        obtain ⟨fl, inputs⟩ := r
        simp only [h1, h2, h3, Bool.and_eq_true, decide_eq_true_eq, List.all_eq_true] at h
        exact ⟨vc, pArray, fl, inputs, rfl, rfl, rfl, h.1.1, h.1.2, h.2⟩

/-- The `<polylist>` block of a mesh whose `<polylist>` is well formed reads `pArray`
within its bounds only, and ends. -/
theorem readPolylist_ok (mesh : TiXmlNode)
    (h : ∀ poly, ToElement (mesh.FirstChild "polylist") = some poly →
      WellFormedPolylist poly = true) :
    readPolylist mesh = .ok () := by
  unfold readPolylist
  cases hp : ToElement (mesh.FirstChild "polylist") with
  | none => rfl
  | some poly =>
    obtain ⟨vc, pArray, fl, inputs, h1, h2, h3, hlen, hoff, hsize⟩ :=
      WellFormedPolylist_true poly (h poly hp)
    simp only [h1, h2, h3, ok_bind]
    cases inputs with
    | nil => exact polylistLoop_no_inputs pArray vc 0
    | cons j rest =>
      exact polylistLoop_ok (j :: rest) pArray vc.sum (by simp) hlen hoff hsize vc 0 (by omega)
theorem find_map_shape (f : TiXmlNode → TiXmlNode) (hf : ∀ c, (f c).Value = c.Value)
    (v : String) (l : List TiXmlNode) :
    (l.map f).find? (fun c => decide (c.Value = v))
      = (l.find? fun c => decide (c.Value = v)).map f := by
  induction l with
  | nil => rfl
  | cons c l ih =>
    by_cases h : c.Value = v
    · simp [List.find?, hf, h]
    · simp only [List.map_cons, List.find?, hf, h, decide_False]
      exact ih

theorem elementsFrom_map_shape (f : TiXmlNode → TiXmlNode)
    (hf : ∀ c, (f c).Value = c.Value) (hg : ∀ c, (f c).isElement = c.isElement)
    (v : String) (l : List TiXmlNode) :
    elementsFrom v (l.map f) = (elementsFrom v l).map f := by
  induction l with
  | nil => rfl
  | cons c l ih =>
    by_cases h : c.Value = v
    · have hfil : (l.map f).filter TiXmlNode.isElement = (l.filter TiXmlNode.isElement).map f := by
        clear ih
        induction l with
        | nil => rfl
        | cons d l ih2 =>
          by_cases hd : d.isElement = true
          · simp [List.filter, hg, hd, ih2]
          · simp [List.filter, hg, hd, ih2]
      cases he : c.isElement <;>
        simp [elementsFrom, List.dropWhile, hf, hg, h, he, hfil]
    · simp only [elementsFrom] at ih ⊢
      simp only [List.map_cons, List.dropWhile, hf, ne_eq, h, not_false_eq_true, decide_True]
      exact ih

theorem mapChildren_Value (f : TiXmlNode → TiXmlNode) (n : TiXmlNode) :
    (mapChildren f n).Value = n.Value := by
  cases n <;> rfl

theorem mapChildren_isElement (f : TiXmlNode → TiXmlNode) (n : TiXmlNode) :
    (mapChildren f n).isElement = n.isElement := by
  cases n <;> rfl

theorem mapChildren_children (f : TiXmlNode → TiXmlNode) (n : TiXmlNode) :
    (mapChildren f n).children = n.children.map f := by
  cases n <;> rfl

theorem removePolylist_Value (n : TiXmlNode) : (removePolylist n).Value = n.Value := by
  cases n <;> rfl

theorem removePolylist_isElement (n : TiXmlNode) :
    (removePolylist n).isElement = n.isElement := by
  cases n <;> rfl

theorem removePolylist_children (n : TiXmlNode) :
    (removePolylist n).children = n.children.filter fun c => decide (c.Value ≠ "polylist") := by
  cases n <;> rfl

theorem removePolylistGeometry_Value (n : TiXmlNode) :
    (removePolylistGeometry n).Value = n.Value := mapChildren_Value _ n

theorem removePolylistGeometry_isElement (n : TiXmlNode) :
    (removePolylistGeometry n).isElement = n.isElement := mapChildren_isElement _ n

theorem ToElement_map (f : TiXmlNode → TiXmlNode) (hg : ∀ c, (f c).isElement = c.isElement)
    (o : Option TiXmlNode) : ToElement (o.map f) = (ToElement o).map f := by
  cases o with
  | none => rfl
  | some c =>
    cases h : c.isElement <;> simp [ToElement, hg, h]

/-- The `<geometry>` elements of a document without its `<polylist>` elements are those of
the document, each without the `<polylist>` elements of its meshes. -/
theorem geometryElements_removePolylists (doc : TiXmlDocument) :
    geometryElements (removePolylists doc)
      = (geometryElements doc).map removePolylistGeometry := by
  unfold geometryElements removePolylists
  have hfind : ∀ (g : TiXmlNode → TiXmlNode), (∀ c, (g c).isElement = c.isElement) →
      (doc.map g).find? TiXmlNode.isElement = (doc.find? TiXmlNode.isElement).map g := by
    intro g hg
    induction doc with
    | nil => rfl
    | cons c l ih =>
      cases h : c.isElement <;> simp [List.find?, hg, h, ih]
  rw [hfind _ (fun c => mapChildren_isElement _ c)]
  cases hroot : doc.find? TiXmlNode.isElement with
  | none => rfl
  | some root =>
    simp only [Option.map_some', TiXmlNode.FirstChild, mapChildren_children]
    rw [find_map_shape _ (fun c => by
      by_cases h : c.Value = "library_geometries"
      · simp [h, mapChildren_Value]
      · simp [h])]
    cases hlib : root.children.find? (fun c => decide (c.Value = "library_geometries")) with
    | none => rfl
    | some lib =>
      have hv : lib.Value = "library_geometries" := by
        simpa using List.find?_some hlib
      simp only [Option.map_some', hv, if_true, mapChildren_children]
      exact elementsFrom_map_shape _ removePolylistGeometry_Value
        removePolylistGeometry_isElement _ _
theorem find_filter_of_imp (p q : TiXmlNode → Bool) (h : ∀ c, q c = true → p c = true)
    (l : List TiXmlNode) : (l.filter p).find? q = l.find? q := by
  induction l with
  | nil => rfl
  | cons c l ih =>
    by_cases hq : q c = true
    · simp [List.filter, h c hq, List.find?, hq]
    · by_cases hp : p c = true
      · simp [List.filter, hp, List.find?, hq, ih]
      · simp [List.filter, hp, List.find?, hq, ih]

theorem elementsFrom_filter (p : TiXmlNode → Bool) (v : String)
    (h : ∀ c : TiXmlNode, c.Value = v → p c = true) (l : List TiXmlNode) :
    elementsFrom v (l.filter p) = (elementsFrom v l).filter p := by
  induction l with
  | nil => rfl
  | cons c l ih =>
    by_cases hv : c.Value = v
    · have hp := h c hv
      cases he : c.isElement
      · simp [elementsFrom, List.filter, hp, List.dropWhile, hv, he]
      · simp [elementsFrom, List.filter, hp, List.dropWhile, hv, he, List.filter_filter,
          Bool.and_comm]
    · simp only [elementsFrom] at ih ⊢
      by_cases hp : p c = true
      · simp only [List.filter, hp, List.dropWhile, ne_eq, hv, not_false_eq_true, decide_True]
        exact ih
      · simp only [List.filter, hp, List.dropWhile, ne_eq, hv, not_false_eq_true, decide_True]
        exact ih

theorem foldlM_filter_skip {σ : Type} (f : σ → TiXmlNode → Except Failure σ)
    (p : TiXmlNode → Bool) (hskip : ∀ s e, p e = false → f s e = .ok s) (l : List TiXmlNode) :
    ∀ s, (l.filter p).foldlM f s = l.foldlM f s := by
  induction l with
  | nil => intro s; rfl
  | cons e l ih =>
    intro s
    cases hp : p e
    · simp only [List.filter, hp, List.foldlM_cons, hskip s e hp, ok_bind]
      exact ih s
    · simp only [List.filter, hp, List.foldlM_cons]
      congr 1
      funext s1
      exact ih s1

theorem ToElement_FirstChild_removePolylist (mesh : TiXmlNode) (v : String)
    (hv : v ≠ "polylist") :
    ToElement ((removePolylist mesh).FirstChild v) = ToElement (mesh.FirstChild v) := by
  unfold TiXmlNode.FirstChild
  rw [removePolylist_children, find_filter_of_imp]
  intro c hc
  have : c.Value = v := by simpa using hc
  simp [this, hv]

theorem FirstChild_polylist_removePolylist (mesh : TiXmlNode) :
    (removePolylist mesh).FirstChild "polylist" = none := by
  unfold TiXmlNode.FirstChild
  rw [removePolylist_children, List.find?_eq_none]
  intro c hc
  have := (List.mem_filter.mp hc).2
  simpa using this

theorem readPolylist_removePolylist (mesh : TiXmlNode) :
    readPolylist (removePolylist mesh) = .ok () := by
  unfold readPolylist
  rw [FirstChild_polylist_removePolylist]
  rfl

theorem readVertices_removePolylist (mesh : TiXmlNode) :
    readVertices (removePolylist mesh) = readVertices mesh := by
  unfold readVertices
  rw [ToElement_FirstChild_removePolylist mesh "vertices" (by decide)]

theorem sources_removePolylist {F : Type} (atof : List Char → F) (mesh : TiXmlNode)
    (S : List (String × Source F)) :
    (elementsFrom "source" (removePolylist mesh).children).foldlM (readSource atof) S
      = (elementsFrom "source" mesh.children).foldlM (readSource atof) S := by
  rw [removePolylist_children, elementsFrom_filter _ _ (fun c hc => by simp [hc])]
  apply foldlM_filter_skip
  intro s e hp
  have hv : e.Value = "polylist" := by simpa using hp
  unfold readSource
  rw [if_pos (by rw [hv]; decide)]

theorem mesh_removePolylistGeometry (geom : TiXmlNode) :
    ToElement ((removePolylistGeometry geom).FirstChild "mesh")
      = (ToElement (geom.FirstChild "mesh")).map removePolylist := by
  unfold TiXmlNode.FirstChild removePolylistGeometry
  rw [mapChildren_children, find_map_shape _ (fun c => by
    by_cases hc : c.Value = "mesh"
    · simp [hc, removePolylist_Value]
    · simp [hc])]
  cases hf : geom.children.find? (fun c => decide (c.Value = "mesh")) with
  | none => rfl
  | some m =>
    have hv : m.Value = "mesh" := by simpa using List.find?_some hf
    simp only [Option.map_some', hv, if_true]
    exact ToElement_map removePolylist removePolylist_isElement (some m)

theorem importGeometry_removePolylist {F : Type} [Zero F] (atof : List Char → F)
    (st : ImportState F) (geom : TiXmlNode)
    (h : ∀ mesh tri, ToElement (geom.FirstChild "mesh") = some mesh →
      ToElement (mesh.FirstChild "triangles") = some tri → readPolylist mesh = .ok ()) :
    importGeometry atof st (removePolylistGeometry geom) = importGeometry atof st geom := by
  unfold importGeometry
  rw [mesh_removePolylistGeometry]
  cases hm : ToElement (geom.FirstChild "mesh") with
  | none => rfl
  | some mesh =>
    simp only [Option.map_some']
    rw [sources_removePolylist, readVertices_removePolylist,
      ToElement_FirstChild_removePolylist mesh "triangles" (by decide),
      readPolylist_removePolylist]
    cases ht : ToElement (mesh.FirstChild "triangles") with
    | none => rfl
    | some tri =>
      rw [h mesh tri hm ht]
theorem foldlM_map_congr {σ : Type} (f : σ → TiXmlNode → Except Failure σ)
    (k : TiXmlNode → TiXmlNode) (l : List TiXmlNode)
    (h : ∀ g ∈ l, ∀ s, f s (k g) = f s g) :
    ∀ s, (l.map k).foldlM f s = l.foldlM f s := by
  induction l with
  | nil => intro s; rfl
  | cons g l ih =>
    intro s
    simp only [List.map_cons, List.foldlM_cons, h g (List.mem_cons_self _ _) s]
    congr 1
    funext s1
    exact ih (fun x hx => h x (List.mem_cons_of_mem _ hx)) s1

/-- C20: a `<polylist>` contributes nothing.  In a document in which the `<polylist>` of
every mesh that has a `<triangles>` element is well formed, the `<polylist>` block reads
`pArray` within its bounds only and ends, and the result of `Import_DAE` is the result on
the same document without the `<polylist>` elements, in which no mesh has one. -/
theorem polylist_contributes_nothing {F : Type} [Zero F] (atof : List Char → F)
    (doc : TiXmlDocument)
    (hwf : ∀ geom ∈ geometryElements doc, ∀ mesh tri poly,
      ToElement (geom.FirstChild "mesh") = some mesh →
      ToElement (mesh.FirstChild "triangles") = some tri →
      ToElement (mesh.FirstChild "polylist") = some poly →
      WellFormedPolylist poly = true) :
    (∀ geom ∈ geometryElements doc, ∀ mesh tri,
      ToElement (geom.FirstChild "mesh") = some mesh →
      ToElement (mesh.FirstChild "triangles") = some tri → readPolylist mesh = .ok ()) ∧
    (∀ geom ∈ geometryElements (removePolylists doc), ∀ mesh,
      ToElement (geom.FirstChild "mesh") = some mesh → mesh.FirstChild "polylist" = none) ∧
    Import_DAE atof (some (removePolylists doc)) = Import_DAE atof (some doc) := by
  have hread : ∀ geom ∈ geometryElements doc, ∀ mesh tri,
      ToElement (geom.FirstChild "mesh") = some mesh →
      ToElement (mesh.FirstChild "triangles") = some tri → readPolylist mesh = .ok () :=
    fun geom hgeom mesh tri hm ht =>
      readPolylist_ok mesh (fun poly hp => hwf geom hgeom mesh tri poly hm ht hp)
  refine ⟨hread, ?_, ?_⟩
  · intro geom hgeom mesh hm
    rw [geometryElements_removePolylists, List.mem_map] at hgeom
    obtain ⟨g, _, rfl⟩ := hgeom
    rw [mesh_removePolylistGeometry] at hm
    cases hg : ToElement (g.FirstChild "mesh") with
    | none => rw [hg] at hm; cases hm
    | some m0 =>
      rw [hg] at hm
      cases hm
      exact FirstChild_polylist_removePolylist m0
  · unfold Import_DAE
    simp only []
    rw [geometryElements_removePolylists,
      foldlM_map_congr (importGeometry atof) removePolylistGeometry _
        (fun g hg s => importGeometry_removePolylist atof s g (hread g hg))]
theorem polylist_contributes_nothing_witness :
    Import_DAE atofInt (some docWithPolylist)
      = .ok { mIndices := [0, 1, 2], mVertices := [⟨0, 0, 0⟩, ⟨1, 0, 0⟩, ⟨0, 1, 0⟩],
              mNormals := [], mTexCoords := [], mComment := "" } ∧
    (∀ geom ∈ geometryElements docWithPolylist, ∀ mesh tri,
      ToElement (geom.FirstChild "mesh") = some mesh →
      ToElement (mesh.FirstChild "triangles") = some tri → readPolylist mesh = .ok ()) ∧
    (∀ geom ∈ geometryElements (removePolylists docWithPolylist), ∀ mesh,
      ToElement (geom.FirstChild "mesh") = some mesh → mesh.FirstChild "polylist" = none) ∧
    Import_DAE atofInt (some (removePolylists docWithPolylist))
      = Import_DAE atofInt (some docWithPolylist) :=
  ⟨by decide, polylist_contributes_nothing atofInt docWithPolylist (by
    intro geom hgeom mesh tri poly hm _ hp
    have hg0 : geometryElements docWithPolylist
        = [.element "geometry" [] [.element "mesh" []
            [sourceElement "P" "0 0 0 1 0 0 0 1 0" "3" "3", verticesElement "V" "#P",
             trianglesElement [inputElement "VERTEX" "#V" "0"] "0 1 2", polylistElement]]] :=
      rfl
    rw [hg0, List.mem_singleton] at hgeom
    subst hgeom
    have hm0 : ToElement ((TiXmlNode.element "geometry" [] [.element "mesh" []
            [sourceElement "P" "0 0 0 1 0 0 0 1 0" "3" "3", verticesElement "V" "#P",
             trianglesElement [inputElement "VERTEX" "#V" "0"] "0 1 2",
             polylistElement]]).FirstChild "mesh")
        = some (.element "mesh" []
            [sourceElement "P" "0 0 0 1 0 0 0 1 0" "3" "3", verticesElement "V" "#P",
             trianglesElement [inputElement "VERTEX" "#V" "0"] "0 1 2", polylistElement]) :=
      rfl
    rw [hm0] at hm
    injection hm with hm
    subst hm
    have hp0 : ToElement ((TiXmlNode.element "mesh" []
            [sourceElement "P" "0 0 0 1 0 0 0 1 0" "3" "3", verticesElement "V" "#P",
             trianglesElement [inputElement "VERTEX" "#V" "0"] "0 1 2",
             polylistElement]).FirstChild "polylist") = some polylistElement := rfl
    rw [hp0] at hp
    injection hp with hp
    subst hp
    decide)⟩

/-! ## The sources of the exporter -/

theorem export_sources {F : Type} (ftoa : F → List Char) (M : Mesh F)
    (hpos : M.mVertices ≠ []) (h31 : M.mVertices.length * 3 < 2 ^ 31)
    (hidx : M.mIndices.length < 2 ^ 32) :
    ∃ doc, Export_DAE ftoa M = .ok doc ∧ ∃ mesh,
      meshesOfDocument doc = [mesh] ∧
      writtenSource mesh "Mesh-1-positions"
        = some (some "3", some (String.mk (utoa M.mVertices.length)),
            some (floatsText ftoa (floats3 M.mVertices))) ∧
      writtenSource mesh "Mesh-1-normals"
        = (if M.mNormals.length = M.mVertices.length then
            some (some "3", some (String.mk (utoa M.mVertices.length)),
              some (floatsText ftoa (floats3 M.mNormals)))
          else none) ∧
      writtenSource mesh "Mesh-1-map1"
        = (if M.mTexCoords.length = M.mVertices.length then
            some (some "2", some (String.mk (utoa M.mVertices.length)),
              some (floatsText ftoa (floats2 M.mTexCoords)))
          else none) := by
  have hlen : M.mVertices.length ≠ 0 := by
    intro h; exact hpos (List.length_eq_zero.mp h)
  have hcount : intAttribute "count" (toInt M.mVertices.length)
      = ("count", String.mk (utoa M.mVertices.length)) := by
    rw [toInt_of_lt _ (by omega)]
    have : ¬ ((M.mVertices.length : Int) < 0) := by omega
    simp [intAttribute, itoa, this]
  have h3 : intAttribute "stride" 3 = ("stride", "3") := by decide
  have h2 : intAttribute "stride" 2 = ("stride", "2") := by decide
  have hsrc : ∀ (id name : String) (arrayCount : Nat) (aArray : List F) (aCount : Nat)
      (stride : Int) (params : List String) (strideText : String),
      intAttribute "stride" stride = ("stride", strideText) →
      aArray.take (aCount % 2 ^ 32) = aArray →
      sourceSummary
        (exportSource ftoa id name arrayCount aArray aCount M.mVertices.length stride params)
      = (some strideText, some (String.mk (utoa M.mVertices.length)),
          some (floatsText ftoa aArray)) := by
    intro id name arrayCount aArray aCount stride params strideText hst htake
    simp only [exportSource, hcount, hst, FloatArrayToXML, htake, floatsText]
    rfl
  have hpred : ∀ (id' id name : String) (arrayCount : Nat) (aArray : List F) (aCount n : Nat)
      (stride : Int) (params : List String),
      isSourceWithId id'
        (exportSource ftoa id name arrayCount aArray aCount n stride params)
        = decide (id = id') := by
    intro id' id name arrayCount aArray aCount n stride params
    simp [isSourceWithId, exportSource, TiXmlNode.isElement, TiXmlNode.Value,
      TiXmlNode.Attribute, mapFind]
  have hP := hsrc "Mesh-1-positions" "position" (M.mVertices.length * 3) (floats3 M.mVertices)
    (M.mVertices.length * 3) 3 ["X", "Y", "Z"] "3" h3 (take_floats3 _ h31)
  have hel : ∀ (id v : String) (as : List (String × String)) (cs : List TiXmlNode),
      isSourceWithId id (.element v as cs)
        = (decide (v = "source") && decide (mapFind as "id" = some id)) := by
    intro id v as cs
    simp [isSourceWithId, TiXmlNode.isElement, TiXmlNode.Value, TiXmlNode.Attribute]
  have hN : M.mNormals.length = M.mVertices.length →
      sourceSummary (exportSource ftoa "Mesh-1-normals" "normal" (M.mVertices.length * 3)
        (floats3 M.mNormals) (M.mVertices.length * 3) M.mVertices.length 3 ["X", "Y", "Z"])
      = (some "3", some (String.mk (utoa M.mVertices.length)),
          some (floatsText ftoa (floats3 M.mNormals))) := fun hn =>
    hsrc _ _ _ _ _ 3 _ "3" h3 (by rw [← hn]; exact take_floats3 _ (hn ▸ h31))
  have hT : M.mTexCoords.length = M.mVertices.length →
      sourceSummary (exportSource ftoa "Mesh-1-map1" "map1" (M.mVertices.length * 3)
        (floats2 M.mTexCoords) (M.mVertices.length * 2) M.mVertices.length 2 ["S", "T"])
      = (some "2", some (String.mk (utoa M.mVertices.length)),
          some (floatsText ftoa (floats2 M.mTexCoords))) := fun ht =>
    hsrc _ _ _ _ _ 2 _ "2" h2 (by rw [← ht]; exact take_floats2 _ (ht ▸ h31))
  simp only [Export_DAE, hlen, if_false, exportP_ok _ _ hidx, ok_bind]
  refine ⟨_, rfl, ?_⟩
  by_cases hn : M.mNormals.length = M.mVertices.length <;>
  by_cases ht : M.mTexCoords.length = M.mVertices.length <;>
  · simp only [hn, ht, decide_True, decide_False, if_true, if_false, Bool.false_eq_true,
      List.cons_append, List.nil_append, List.append_nil]
    refine ⟨_, rfl, ?_, ?_, ?_⟩ <;>
      simp +decide [writtenSource, TiXmlNode.children, List.find?_cons, hpred, hel, mapFind,
        hP, hN, hT, hn, ht]

/-- C21: for every mesh with at least one vertex, fewer than `2 ^ 31 / 3` vertices and
fewer than `2 ^ 32` indices (the ranges of the `int` that the counts pass through and of
the counter of the loop that writes the indices), `Export_DAE` writes a document, with
the source `Mesh-1-normals`, of stride 3, and the NORMAL input if and
only if there are as many normals as positions, and the source `Mesh-1-map1`, of stride
2, and the TEXCOORD input if and only if there are as many texture coordinates as
positions.  The accessor count of every source that is written, the one of the positions
included, is the number of vertices, and its float array holds the components of the
vectors in vertex order, stride times the number of vertices in all. -/
theorem export_writes_optional_sources {F : Type} (ftoa : F → List Char) (M : Mesh F)
    (hpos : M.mVertices ≠ []) (h31 : M.mVertices.length * 3 < 2 ^ 31)
    (hidx : M.mIndices.length < 2 ^ 32) :
    ∃ doc, Export_DAE ftoa M = .ok doc ∧ ∃ mesh tri,
      meshesOfDocument doc = [mesh] ∧ trianglesOfDocument doc = [tri] ∧
      writtenSource mesh "Mesh-1-positions"
        = some (some "3", some (String.mk (utoa M.mVertices.length)),
            some (floatsText ftoa (floats3 M.mVertices))) ∧
      writtenSource mesh "Mesh-1-normals"
        = (if M.mNormals.length = M.mVertices.length then
            some (some "3", some (String.mk (utoa M.mVertices.length)),
              some (floatsText ftoa (floats3 M.mNormals)))
          else none) ∧
      writtenSource mesh "Mesh-1-map1"
        = (if M.mTexCoords.length = M.mVertices.length then
            some (some "2", some (String.mk (utoa M.mVertices.length)),
              some (floatsText ftoa (floats2 M.mTexCoords)))
          else none) ∧
      ((declaredInputs tri).any fun i => decide (i.1 = some "NORMAL"))
        = decide (M.mNormals.length = M.mVertices.length) ∧
      ((declaredInputs tri).any fun i => decide (i.1 = some "TEXCOORD"))
        = decide (M.mTexCoords.length = M.mVertices.length) ∧
      (floats3 M.mVertices).length = 3 * M.mVertices.length ∧
      (M.mNormals.length = M.mVertices.length →
        (floats3 M.mNormals).length = 3 * M.mVertices.length) ∧
      (M.mTexCoords.length = M.mVertices.length →
        (floats2 M.mTexCoords).length = 2 * M.mVertices.length) := by
  obtain ⟨doc, hdoc, mesh, hmesh, hP, hN, hT⟩ := export_sources ftoa M hpos h31 hidx
  obtain ⟨doc', hdoc', tri, _, htri, hin, _, _⟩ := export_triangles ftoa M hpos hidx
  have e : doc' = doc := by
    rw [hdoc] at hdoc'
    cases hdoc'
    rfl
  subst e
  refine ⟨doc', hdoc, mesh, tri, hmesh, htri, hP, hN, hT, ?_, ?_, ?_, ?_, ?_⟩
  · rw [hin]
    by_cases hn : M.mNormals.length = M.mVertices.length <;>
    by_cases ht : M.mTexCoords.length = M.mVertices.length <;> simp [hn, ht]
  · rw [hin]
    by_cases hn : M.mNormals.length = M.mVertices.length <;>
    by_cases ht : M.mTexCoords.length = M.mVertices.length <;> simp [hn, ht]
  · rw [floats3_length, Nat.mul_comm]
  · intro hn
    rw [floats3_length, hn, Nat.mul_comm]
  · intro ht
    rw [floats2_length, ht, Nat.mul_comm]

theorem export_writes_optional_sources_witness :
    meshTexturedOnly.mVertices ≠ [] ∧ meshTexturedOnly.mVertices.length * 3 < 2 ^ 31 ∧
    meshTexturedOnly.mIndices.length < 2 ^ 32 ∧
    ∃ doc, Export_DAE ftoaSmall meshTexturedOnly = .ok doc ∧ ∃ mesh tri,
      meshesOfDocument doc = [mesh] ∧ trianglesOfDocument doc = [tri] ∧
      writtenSource mesh "Mesh-1-positions"
        = some (some "3", some (String.mk (utoa meshTexturedOnly.mVertices.length)),
            some (floatsText ftoaSmall (floats3 meshTexturedOnly.mVertices))) ∧
      writtenSource mesh "Mesh-1-normals"
        = (if meshTexturedOnly.mNormals.length = meshTexturedOnly.mVertices.length then
            some (some "3", some (String.mk (utoa meshTexturedOnly.mVertices.length)),
              some (floatsText ftoaSmall (floats3 meshTexturedOnly.mNormals)))
          else none) ∧
      writtenSource mesh "Mesh-1-map1"
        = (if meshTexturedOnly.mTexCoords.length = meshTexturedOnly.mVertices.length then
            some (some "2", some (String.mk (utoa meshTexturedOnly.mVertices.length)),
              some (floatsText ftoaSmall (floats2 meshTexturedOnly.mTexCoords)))
          else none) ∧
      ((declaredInputs tri).any fun i => decide (i.1 = some "NORMAL"))
        = decide (meshTexturedOnly.mNormals.length = meshTexturedOnly.mVertices.length) ∧
      ((declaredInputs tri).any fun i => decide (i.1 = some "TEXCOORD"))
        = decide (meshTexturedOnly.mTexCoords.length = meshTexturedOnly.mVertices.length) ∧
      (floats3 meshTexturedOnly.mVertices).length = 3 * meshTexturedOnly.mVertices.length ∧
      (meshTexturedOnly.mNormals.length = meshTexturedOnly.mVertices.length →
        (floats3 meshTexturedOnly.mNormals).length = 3 * meshTexturedOnly.mVertices.length) ∧
      (meshTexturedOnly.mTexCoords.length = meshTexturedOnly.mVertices.length →
        (floats2 meshTexturedOnly.mTexCoords).length
          = 2 * meshTexturedOnly.mVertices.length) :=
  ⟨by decide, by decide, by decide,
    export_writes_optional_sources ftoaSmall meshTexturedOnly (by decide) (by decide)
      (by decide)⟩

/-! ## Termination of the welding loop and the bounds of its reads -/

theorem decodeTuple_ok (pArray : List Nat) (i : Nat) :
    ∀ (inputs : List Input), (∀ j ∈ inputs, sizeAdd i j.offset < pArray.length) →
      ∀ ix, ∃ ix', decodeTuple pArray i inputs ix = .ok ix' := by
  intro inputs
  induction inputs with
  | nil => intro _ ix; exact ⟨ix, rfl⟩
  | cons j rest ih =>
    intro h ix
    have hj := h j (List.mem_cons_self _ _)
    have hr := ih (fun x hx => h x (List.mem_cons_of_mem _ hx))
    have hv : vectorAt pArray (sizeAdd i j.offset)
        = .ok (pArray.get ⟨sizeAdd i j.offset, hj⟩) := by
      unfold vectorAt; rw [List.get?_eq_get hj]
    cases hs : j.semantic <;> simp only [decodeTuple, hs, hv, ok_bind] <;> exact hr _

theorem ceil_div_step (d k : Nat) (hk : 0 < k) (hd : 0 < d) :
    (d + k - 1) / k = (d - k + k - 1) / k + 1 := by
  by_cases h : k ≤ d
  · have e1 : d - k + k - 1 = d - 1 := by omega
    have e2 : d + k - 1 = d - 1 + k := by omega
    rw [e1, e2, Nat.add_div_right _ hk]
  · have e1 : d - k + k - 1 = k - 1 := by omega
    have h1 : (k - 1) / k = 0 := Nat.div_eq_of_lt (by omega)
    have h2 : (d + k - 1) / k = 1 :=
      Nat.div_eq_of_lt_le (by omega) (by omega)
    rw [e1, h1, h2]

theorem cornersLoop_length (inputs : List Input) (pArray : List Nat)
    (hk : 0 < inputs.length) (fuel : Nat) : ∀ (i : Nat) (cs : List Indexes),
      cornersLoop inputs pArray fuel i = .ok cs →
      cs.length = (pArray.length - i + inputs.length - 1) / inputs.length := by
  induction fuel with
  | zero =>
    intro i cs h
    by_cases hi : i < pArray.length
    · simp [cornersLoop, hi] at h
    · simp only [cornersLoop, hi, if_false, Except.ok.injEq] at h
      subst h
      have : pArray.length - i + inputs.length - 1 = inputs.length - 1 := by omega
      rw [this, Nat.div_eq_of_lt (by omega)]
      rfl
  | succ fuel ih =>
    intro i cs h
    by_cases hi : i < pArray.length
    · simp only [cornersLoop, hi, if_true, bind_eq_ok, pure_eq_ok] at h
      obtain ⟨ix, _, rest, hrest, rfl⟩ := h
      have := ih _ _ hrest
      rw [List.length_cons, this, ceil_div_step (pArray.length - i) _ hk (by omega)]
      congr 2
      omega
    · simp only [cornersLoop, hi, if_false, Except.ok.injEq] at h
      subst h
      have : pArray.length - i + inputs.length - 1 = inputs.length - 1 := by omega
      rw [this, Nat.div_eq_of_lt (by omega)]
      rfl

theorem cornersLoop_ok (inputs : List Input) (pArray : List Nat)
    (hdec : ∀ i, i < pArray.length → inputs.length ∣ i →
      ∃ ix, decodeTuple pArray i inputs ⟨0, 0, 0⟩ = .ok ix)
    (fuel : Nat) : ∀ (i : Nat), inputs.length ∣ i → pArray.length ≤ i + fuel * inputs.length →
      ∃ cs, cornersLoop inputs pArray fuel i = .ok cs := by
  induction fuel with
  | zero =>
    intro i _ hle
    have hi : ¬ i < pArray.length := by omega
    exact ⟨[], by simp [cornersLoop, hi]⟩
  | succ fuel ih =>
    intro i hdvd hle
    by_cases hi : i < pArray.length
    · obtain ⟨ix, hix⟩ := hdec i hi hdvd
      obtain ⟨cs, hcs⟩ := ih (i + inputs.length) (Dvd.dvd.add hdvd (dvd_refl _))
        (by rw [Nat.succ_mul] at hle; omega)
      exact ⟨ix :: cs, by simp only [cornersLoop, hi, if_true, hix, ok_bind, hcs]; rfl⟩
    · exact ⟨[], by simp [cornersLoop, hi]⟩

theorem bind_ne_nonterminating {α β : Type} (x : Except Failure α) (f : α → Except Failure β)
    (hx : x ≠ .error .nonterminating) (hf : ∀ a, f a ≠ .error .nonterminating) :
    (x >>= f) ≠ .error .nonterminating := by
  cases x with
  | error e =>
    intro h
    apply hx
    cases h
    rfl
  | ok a => exact hf a

theorem vectorAt_ne_nonterminating {α : Type} (v : List α) (i : Nat) :
    vectorAt v i ≠ .error .nonterminating := by
  unfold vectorAt
  cases v.get? i <;> simp

theorem GetSource_ne_nonterminating {F : Type} (sources : List (String × Source F))
    (vertices : List (String × List Input)) (name : String) :
    GetSource sources vertices name ≠ .error .nonterminating := by
  unfold GetSource
  cases mapFind sources name with
  | some s => simp
  | none =>
    cases mapFind vertices name with
    | none => simp
    | some inputs =>
      simp only []
      cases GetSource.loop sources inputs <;> simp

theorem component_ne_nonterminating {F : Type} [Zero F] (src : Source F) (k c : Nat) :
    component src k c ≠ .error .nonterminating := by
  unfold component
  split
  · exact vectorAt_ne_nonterminating _ _
  · simp

theorem fetchVector3_ne_nonterminating {F : Type} [Zero F] (sources : List (String × Source F))
    (vertices : List (String × List Input)) (name : String) (k : Nat) :
    fetchVector3 sources vertices name k ≠ .error .nonterminating := by
  unfold fetchVector3
  refine bind_ne_nonterminating _ _ (GetSource_ne_nonterminating _ _ _) fun src => ?_
  refine bind_ne_nonterminating _ _ (component_ne_nonterminating _ _ _) fun x => ?_
  refine bind_ne_nonterminating _ _ (component_ne_nonterminating _ _ _) fun y => ?_
  refine bind_ne_nonterminating _ _ (component_ne_nonterminating _ _ _) fun z => ?_
  simp [pure, Except.pure]

theorem fetchVector2_ne_nonterminating {F : Type} [Zero F] (sources : List (String × Source F))
    (vertices : List (String × List Input)) (name : String) (k : Nat) :
    fetchVector2 sources vertices name k ≠ .error .nonterminating := by
  unfold fetchVector2
  refine bind_ne_nonterminating _ _ (GetSource_ne_nonterminating _ _ _) fun src => ?_
  refine bind_ne_nonterminating _ _ (component_ne_nonterminating _ _ _) fun x => ?_
  refine bind_ne_nonterminating _ _ (component_ne_nonterminating _ _ _) fun y => ?_
  simp [pure, Except.pure]

theorem InsertVertNormalTexcoord_ne_nonterminating {F : Type} [Zero F] (a : Attributes F)
    (fl : Flags) (v n t : Nat) (sources : List (String × Source F))
    (vertices : List (String × List Input)) :
    InsertVertNormalTexcoord a fl v n t sources vertices ≠ .error .nonterminating := by
  have hp : ∀ b : Attributes F, (pure b : Except Failure (Attributes F))
      ≠ .error .nonterminating := by
    intro b; simp [pure, Except.pure]
  unfold InsertVertNormalTexcoord
  cases hv : fl.hasVerts <;> cases hn : fl.hasNormals <;> cases ht : fl.hasTexcoords <;>
    simp only [if_true, if_false, Bool.false_eq_true] <;>
    repeat (first
      | exact hp _
      | exact GetSource_ne_nonterminating _ _ _
      | exact component_ne_nonterminating _ _ _
      | refine bind_ne_nonterminating _ _ ?_ (fun _ => ?_))

theorem decodeTuple_ne_nonterminating (pArray : List Nat) (i : Nat) :
    ∀ (inputs : List Input) (ix : Indexes),
      decodeTuple pArray i inputs ix ≠ .error .nonterminating := by
  intro inputs
  induction inputs with
  | nil => intro ix; simp [decodeTuple]
  | cons j rest ih =>
    intro ix
    cases hs : j.semantic <;> simp only [decodeTuple, hs] <;>
      first
        | exact ih _
        | exact bind_ne_nonterminating _ _ (vectorAt_ne_nonterminating _ _) (fun _ => ih _)

theorem weldStep_ne_nonterminating {F : Type} [Zero F] (fl : Flags)
    (sources : List (String × Source F)) (vertices : List (String × List Input))
    (st : WeldState F) (ix : Indexes) :
    weldStep fl sources vertices st ix ≠ .error .nonterminating := by
  have hmiss : ∀ prev, weldMiss fl sources vertices st ix prev ≠ .error .nonterminating := by
    intro prev
    unfold weldMiss
    exact bind_ne_nonterminating _ _ (InsertVertNormalTexcoord_ne_nonterminating _ _ _ _ _ _ _)
      (fun _ => by simp [pure, Except.pure])
  cases hl : lookup3 st.prevIndices ix with
  | some u => rw [weldStep_hit fl sources vertices st ix u hl]; simp
  | none =>
    obtain ⟨prev, hstep, _⟩ := weldStep_miss fl sources vertices st ix hl
    rw [hstep]
    exact hmiss prev

theorem weldLoop_ne_nonterminating {F : Type} [Zero F] (inputs : List Input)
    (pArray : List Nat) (fl : Flags) (sources : List (String × Source F))
    (vertices : List (String × List Input)) (fuel : Nat) :
    ∀ (i : Nat) (st : WeldState F), pArray.length ≤ i + fuel * inputs.length →
      weldLoop inputs pArray fl sources vertices fuel i st ≠ .error .nonterminating := by
  induction fuel with
  | zero =>
    intro i st hle
    have hi : ¬ i < pArray.length := by omega
    simp [weldLoop, hi]
  | succ fuel ih =>
    intro i st hle
    by_cases hi : i < pArray.length
    · simp only [weldLoop, hi, if_true]
      refine bind_ne_nonterminating _ _ (decodeTuple_ne_nonterminating _ _ _ _) fun ix => ?_
      refine bind_ne_nonterminating _ _ (weldStep_ne_nonterminating _ _ _ _ _) fun st1 => ?_
      exact ih _ _ (by rw [Nat.succ_mul] at hle; omega)
    · simp [weldLoop, hi]

/-- C22 (amended): for every list of `k >= 1` inputs and every index stream `P` the
welding loop terminates.  When it ends without a failure it has emitted exactly
`ceil(|P| / k)` indices; and it ends without a failure, with one index per `k`-tuple in
stream order, when every tuple decodes (every read `P[i + offset]` lies within `P`) and
every attribute fetch for a tuple succeeds. -/
theorem weld_terminates_with_one_index_per_tuple {F : Type} [Zero F] (inputs : List Input)
    (pArray : List Nat) (fl : Flags) (sources : List (String × Source F))
    (vertices : List (String × List Input)) (hk : 0 < inputs.length) :
    weld inputs pArray fl sources vertices ≠ .error .nonterminating ∧
    (∀ w, weld inputs pArray fl sources vertices = .ok w →
      w.indexVector.length = (pArray.length + inputs.length - 1) / inputs.length) ∧
    (∀ cs, corners inputs pArray = .ok cs →
      (∀ c ∈ cs, ∀ a : Attributes F, ∃ a', InsertVertNormalTexcoord a fl c.vertIndex
        c.normalIndex c.texcoordIndex sources vertices = .ok a') →
      ∃ w, weld inputs pArray fl sources vertices = .ok w ∧
        w.indexVector = cs.map (fun c => (firsts cs).indexOf c) ∧
        w.indexVector.length = (pArray.length + inputs.length - 1) / inputs.length) := by
  have hcount : ∀ w, weld inputs pArray fl sources vertices = .ok w →
      w.indexVector.length = (pArray.length + inputs.length - 1) / inputs.length := by
    intro w hw
    obtain ⟨cs, hcs, hinv⟩ := weld_spec inputs pArray fl sources vertices w hw
    rw [WeldInv_length_eq hinv, cornersLoop_length inputs pArray hk _ _ _ hcs, Nat.sub_zero]
  refine ⟨?_, hcount, ?_⟩
  · apply weldLoop_ne_nonterminating inputs pArray fl sources vertices
    have := Nat.le_mul_of_pos_right pArray.length hk
    omega
  · intro cs hcs hfetch
    obtain ⟨w, hw⟩ := weldLoop_succeeds inputs pArray fl sources vertices pArray.length 0 cs
      WeldState.init hcs hfetch
    have hw' : weld inputs pArray fl sources vertices = .ok w := hw
    obtain ⟨cs', hcs', hinv⟩ := weld_spec inputs pArray fl sources vertices w hw'
    have e : cs' = cs := by
      rw [hcs] at hcs'
      cases hcs'
      rfl
    subst e
    exact ⟨w, hw', hinv.2.1, hcount w hw'⟩

theorem weld_terminates_with_one_index_per_tuple_witness :
    0 < exInputs.length ∧
    (weld exInputs exStream exFlags exSources exVertices ≠ .error .nonterminating ∧
    (∀ w, weld exInputs exStream exFlags exSources exVertices = .ok w →
      w.indexVector.length = (exStream.length + exInputs.length - 1) / exInputs.length) ∧
    (∀ cs, corners exInputs exStream = .ok cs →
      (∀ c ∈ cs, ∀ a : Attributes Int, ∃ a', InsertVertNormalTexcoord a exFlags c.vertIndex
        c.normalIndex c.texcoordIndex exSources exVertices = .ok a') →
      ∃ w, weld exInputs exStream exFlags exSources exVertices = .ok w ∧
        w.indexVector = cs.map (fun c => (firsts cs).indexOf c) ∧
        w.indexVector.length = (exStream.length + exInputs.length - 1) / exInputs.length)) ∧
    weld exInputs exStream exFlags exSources exVertices = .ok exWelded ∧
    exWelded.indexVector.length = 6 :=
  ⟨by decide, weld_terminates_with_one_index_per_tuple exInputs exStream exFlags exSources
      exVertices (by decide), by decide, by decide⟩

/-- C22, as stated, fails.  On a stream of two tuples whose VERTEX input names a source
that does not exist, the first iteration throws and the loop emits no result; and on a
stream of three entries for two inputs with the offsets 0 and 1, the second iteration
reads beyond the stream. -/
theorem weld_iteration_fails :
    weld exUnresolvedInputs [0, 1] exUnresolvedFlags ([] : List (String × Source Int)) []
      = .error (.thrown "Error") ∧
    weld exInputs [0, 0, 1] exFlags exSources exVertices = .error .outOfRange := by
  decide

/-- C23: when there are `k >= 1` inputs, every input has an offset below `k` and the
length of the stream `P` is a multiple of `k`, every read `P[i + offset]` of the welder
lies within `P`: every tuple decodes, and there are `|P| / k` of them. -/
theorem welder_reads_are_in_bounds (inputs : List Input) (pArray : List Nat)
    (hk : 0 < inputs.length) (hoff : ∀ j ∈ inputs, j.offset < inputs.length)
    (hmul : inputs.length ∣ pArray.length) :
    (∀ i, i < pArray.length → inputs.length ∣ i →
      ∀ j ∈ inputs, sizeAdd i j.offset < pArray.length) ∧
    ∃ cs, corners inputs pArray = .ok cs ∧ cs.length = pArray.length / inputs.length := by
  have hread : ∀ i, i < pArray.length → inputs.length ∣ i →
      ∀ j ∈ inputs, sizeAdd i j.offset < pArray.length := by
    intro i hi hdvd j hj
    obtain ⟨n, rfl⟩ := hdvd
    obtain ⟨m, hm⟩ := hmul
    have hjo := hoff j hj
    rw [hm] at hi ⊢
    have hnm : n < m := Nat.lt_of_mul_lt_mul_left hi
    have h1 : inputs.length * (n + 1) ≤ inputs.length * m := Nat.mul_le_mul_left _ hnm
    have h2 : inputs.length * (n + 1) = inputs.length * n + inputs.length := Nat.mul_succ _ _
    have h3 : (inputs.length * n + j.offset) % SIZE_MODULUS ≤ inputs.length * n + j.offset :=
      Nat.mod_le _ _
    unfold sizeAdd
    omega
  refine ⟨hread, ?_⟩
  obtain ⟨cs, hcs⟩ := cornersLoop_ok inputs pArray
    (fun i hi hdvd => decodeTuple_ok pArray i inputs (hread i hi hdvd) _)
    pArray.length 0 (dvd_zero _) (by
      have := Nat.le_mul_of_pos_right pArray.length hk
      omega)
  refine ⟨cs, hcs, ?_⟩
  rw [cornersLoop_length inputs pArray hk _ _ _ hcs]
  obtain ⟨m, hm⟩ := hmul
  rw [hm, Nat.sub_zero, Nat.mul_div_cancel_left _ hk]
  have hc : inputs.length * m = m * inputs.length := Nat.mul_comm _ _
  have hs : (m + 1) * inputs.length = m * inputs.length + inputs.length := Nat.succ_mul _ _
  apply Nat.div_eq_of_lt_le
  · omega
  · omega

theorem welder_reads_are_in_bounds_witness :
    (∀ i, i < exStream.length → exInputs.length ∣ i →
      ∀ j ∈ exInputs, sizeAdd i j.offset < exStream.length) ∧
    ∃ cs, corners exInputs exStream = .ok cs ∧ cs.length = exStream.length / exInputs.length :=
  welder_reads_are_in_bounds exInputs exStream (by decide) (by decide) (by decide)

/-! ## The exporter followed by the importer, for a mesh without normals -/

/-- The geometry elements of the document of `Export_DAE`, read back from the file, for a
mesh without normals. -/
theorem geometryElements_bare {F : Type} (ftoa : F → List Char) (M : Mesh F)
    (hftoa : ∀ x, TokenOk (ftoa x)) (hpos : M.mVertices.length ≠ 0)
    (hn : M.mNormals.length ≠ M.mVertices.length)
    (h31 : M.mVertices.length * 3 < 2 ^ 31) (hne : M.mIndices ≠ [])
    (hlen : M.mIndices.length < 2 ^ 32)
    (hidx : ∀ v ∈ M.mIndices, v < 2 ^ 31) :
    ∃ doc, Export_DAE ftoa M = .ok doc ∧
      geometryElements (reloadNodes doc)
        = [.element "geometry" [("id", "Mesh-1"), ("name", "Mesh-1")]
            [bareMesh ftoa M (decide (M.mTexCoords.length = M.mVertices.length))]] := by
  have r1 := reloadNode_exportSource ftoa "Mesh-1-positions" "position"
    (M.mVertices.length * 3) (M.mVertices.length * 3) M.mVertices.length 3
    (floats3 M.mVertices) ["X", "Y", "Z"] hftoa
    (by rw [take_floats3 _ h31]; exact floats3_ne_nil _ hpos)
  simp only [Export_DAE, hpos, if_false, hn, decide_False, Bool.false_eq_true,
    exportP_ok _ _ hlen, ok_bind]
  refine ⟨_, rfl, ?_⟩
  by_cases ht : M.mTexCoords.length = M.mVertices.length
  · have r3 := reloadNode_exportSource ftoa "Mesh-1-map1" "map1"
      (M.mVertices.length * 3) (M.mTexCoords.length * 2) M.mVertices.length 2
      (floats2 M.mTexCoords) ["S", "T"] hftoa
      (by rw [take_floats2 _ (ht ▸ h31)]; exact floats2_ne_nil _ (ht ▸ hpos))
    have rp := reloadNode_exportedP M.mIndices 2 (by omega) hne hidx
    simp only [ht, decide_True, if_true, List.singleton_append, List.cons_append,
      List.nil_append, List.append_nil, Nat.reduceAdd] at r3 ⊢
    simp only [reloadNodes, reloadNode_element, reloadNode_other, r1, r3, rp,
      List.singleton_append, List.cons_append, List.nil_append, List.append_nil]
    simp only [geometryElements, List.find?, TiXmlNode.isElement, TiXmlNode.FirstChild,
      TiXmlNode.children, TiXmlNode.Value, elementsFrom, List.dropWhile, List.filter]
    simp [bareMesh, bareTriangles, ht]
  · have rp := reloadNode_exportedP M.mIndices 1 (by omega) hne hidx
    simp only [ht, decide_False, Bool.false_eq_true, if_false, List.singleton_append,
      List.cons_append, List.nil_append, List.append_nil, Nat.reduceAdd, Nat.add_zero]
    simp only [reloadNodes, reloadNode_element, reloadNode_other, r1, rp,
      List.singleton_append, List.cons_append, List.nil_append, List.append_nil]
    simp only [geometryElements, List.find?, TiXmlNode.isElement, TiXmlNode.FirstChild,
      TiXmlNode.children, TiXmlNode.Value, elementsFrom, List.dropWhile, List.filter]
    simp [bareMesh, bareTriangles, ht]

theorem ReadInputs_bareTriangles (idx : List Nat) (hT : Bool) :
    ReadInputs (bareTriangles idx hT) = .ok (bareFlags hT, bareInputs hT) := by
  cases hT <;> rfl

theorem ReadIndexArray_bareTriangles (idx : List Nat) (hT : Bool) (hne : idx ≠ [])
    (hidx : ∀ v ∈ idx, v < 2 ^ 31) :
    ReadIndexArray (ToElement ((bareTriangles idx hT).FirstChild "p")) []
      = .ok (exportedStream idx (if hT then 2 else 1)) := by
  have hp : ToElement ((bareTriangles idx hT).FirstChild "p")
      = some (.element "p" []
            [.text (String.mk (List.intercalate [' ']
              ((exportedStream idx (if hT then 2 else 1)).map utoa)))]) := by
    cases hT <;> rfl
  have hk : 0 < (if hT then 2 else 1) := by cases hT <;> simp
  have htoks : ∀ t ∈ (exportedStream idx (if hT then 2 else 1)).map utoa, TokenOk t := by
    intro t ht
    simp only [List.mem_map, exportedStream, List.mem_flatMap, List.mem_replicate] at ht
    obtain ⟨x, ⟨v, hv, _, rfl⟩, rfl⟩ := ht
    exact (utoa_spec x (hidx x hv)).1
  have hne2 : (exportedStream idx (if hT then 2 else 1)).map utoa ≠ [] := by
    obtain ⟨v, rest, rfl⟩ := List.exists_cons_of_ne_nil hne
    rw [exportedStream_cons]
    obtain ⟨k', hk'⟩ : ∃ k', (if hT then 2 else 1) = k' + 1 :=
      ⟨_, (Nat.succ_pred_eq_of_pos hk).symm⟩
    rw [hk']
    simp [List.replicate_succ]
  have hread := readArray_intercalate
    (fun val => (do let value ← atoi val; pure (toSizeT value) : Except Failure Nat))
    ((exportedStream idx (if hT then 2 else 1)).map utoa)
    (exportedStream idx (if hT then 2 else 1)) [] hne2 htoks
    (by
      rw [List.forall₂_map_left_iff]
      apply List.forall₂_same.mpr
      intro x hx
      simp only [exportedStream, List.mem_flatMap, List.mem_replicate] at hx
      obtain ⟨v, hv, _, rfl⟩ := hx
      have h31 : (2 : Nat) ^ 31 = 2147483648 := by norm_num
      have h64 : (2 : Nat) ^ 64 = 18446744073709551616 := by norm_num
      show (atoi (utoa x) >>= fun value => pure (toSizeT value)) = Except.ok x
      rw [(utoa_spec x (hidx x hv)).2, ok_bind,
        toSizeT_natCast x (by have := hidx x hv; omega)]
      rfl)
  rw [hp]
  simp only [ReadIndexArray, TiXmlNode.GetText, TiXmlNode.children, deref, ok_bind]
  simpa using hread

theorem sources_bare {F : Type} (ftoa : F → List Char) (atof : List Char → F) (M : Mesh F)
    (hT : Bool) (hftoa : ∀ x, TokenOk (ftoa x)) (hpos : M.mVertices.length ≠ 0)
    (ht : hT = true → M.mTexCoords.length = M.mVertices.length)
    (h31 : M.mVertices.length * 3 < 2 ^ 31) :
    (elementsFrom "source" (bareMesh ftoa M hT).children).foldlM (readSource atof) []
      = .ok (bareSources (fun x => atof (ftoa x)) M hT) := by
  have h3 : (3 : Nat) < 2 ^ 31 := by norm_num
  have h2 : (2 : Nat) < 2 ^ 31 := by norm_num
  have hnn : M.mVertices.length < 2 ^ 31 := by omega
  have r1 := readSource_reloadedSource ftoa atof [] "Mesh-1-positions" "position"
    (M.mVertices.length * 3) (M.mVertices.length * 3) M.mVertices.length 3
    (floats3 M.mVertices) ["X", "Y", "Z"] hftoa rfl
    (by rw [take_floats3 _ h31]; exact floats3_ne_nil _ hpos) hnn h3
  rw [take_floats3 _ h31] at r1
  have hv : (TiXmlNode.element "vertices" [("id", "Mesh-1-vertices")]
      [.element "input" [("semantic", "POSITION"), ("source", "#Mesh-1-positions")] []]).Value
      ≠ "source" := by decide
  have htv : (bareTriangles M.mIndices hT).Value ≠ "source" := by
    simp [bareTriangles, TiXmlNode.Value]
  cases hT with
  | true =>
    have ht' := ht rfl
    have r3 := fun S hS => readSource_reloadedSource ftoa atof S "Mesh-1-map1" "map1"
      (M.mVertices.length * 3) (M.mTexCoords.length * 2) M.mVertices.length 2
      (floats2 M.mTexCoords) ["S", "T"] hftoa hS
      (by rw [take_floats2 _ (ht' ▸ h31)]; exact floats2_ne_nil _ (ht' ▸ hpos)) hnn h2
    rw [take_floats2 _ (ht' ▸ h31)] at r3
    have he : elementsFrom "source" (bareMesh ftoa M true).children
        = (bareMesh ftoa M true).children := by
      simp [elementsFrom, bareMesh, TiXmlNode.children, reloadedSource, TiXmlNode.Value,
        TiXmlNode.isElement, List.dropWhile, List.filter, bareTriangles]
    rw [he]
    simp only [bareMesh, TiXmlNode.children, if_true, List.cons_append, List.nil_append,
      List.foldlM_cons, List.foldlM_nil, Nat.cast_ofNat] at r1 r3 ⊢
    rw [r1, ok_bind, r3 _ (by simp [mapFind]), ok_bind,
      readSource_skip _ _ _ hv, ok_bind, readSource_skip _ _ _ htv, ok_bind]
    rfl
  | false =>
    have he : elementsFrom "source" (bareMesh ftoa M false).children
        = (bareMesh ftoa M false).children := by
      simp [elementsFrom, bareMesh, TiXmlNode.children, reloadedSource, TiXmlNode.Value,
        TiXmlNode.isElement, List.dropWhile, List.filter, bareTriangles]
    rw [he]
    simp only [bareMesh, TiXmlNode.children, Bool.false_eq_true, if_false,
      List.cons_append, List.nil_append, List.append_nil,
      List.foldlM_cons, List.foldlM_nil, Nat.cast_ofNat] at r1 ⊢
    rw [r1, ok_bind, readSource_skip _ _ _ hv, ok_bind, readSource_skip _ _ _ htv, ok_bind]
    rfl

theorem readVertices_bareMesh {F : Type} (ftoa : F → List Char) (M : Mesh F) (hT : Bool) :
    readVertices (bareMesh ftoa M hT) = .ok exportedVertices := by
  cases hT <;> rfl

theorem triangles_bareMesh {F : Type} (ftoa : F → List Char) (M : Mesh F) (hT : Bool) :
    ToElement ((bareMesh ftoa M hT).FirstChild "triangles")
      = some (bareTriangles M.mIndices hT) := by
  cases hT <;> rfl

theorem readPolylist_bareMesh {F : Type} (ftoa : F → List Char) (M : Mesh F) (hT : Bool) :
    readPolylist (bareMesh ftoa M hT) = .ok () := by
  cases hT <;> rfl

theorem bareInputs_length (hT : Bool) : (bareInputs hT).length = if hT then 2 else 1 := by
  cases hT <;> rfl

theorem decodeTuple_bare (hT : Bool) (idx : List Nat) (j v : Nat)
    (hv : idx.get? j = some v) (hlen : idx.length < 2 ^ 31) :
    decodeTuple (exportedStream idx (bareInputs hT).length)
        ((bareInputs hT).length * j) (bareInputs hT) ⟨0, 0, 0⟩
      = .ok (bareTriple hT v) := by
  have hj : j < idx.length := by
    by_contra hc
    rw [List.get?_eq_none.mpr (by omega)] at hv
    exact absurd hv (by simp)
  have hsz : ∀ off, off < 3 → ∀ k, k ≤ 3 → sizeAdd (k * j) off = k * j + off := by
    intro off hoff k hk
    unfold sizeAdd SIZE_MODULUS
    apply Nat.mod_eq_of_lt
    have : k * j ≤ 3 * j := Nat.mul_le_mul_right j hk
    have h31 : (2 : Nat) ^ 31 = 2147483648 := by norm_num
    have h64 : (2 : Nat) ^ 64 = 18446744073709551616 := by norm_num
    omega
  cases hT with
  | true =>
    have g := fun off (h : off < 2) => vectorAt_eq_ok _ _ _
      ((exportedStream_get 2 idx j off h).trans hv)
    simp only [bareInputs, if_true, List.cons_append, List.nil_append, List.length_cons,
      List.length_nil, decodeTuple, Nat.reduceAdd, hsz 0 (by omega) 2 (by omega),
      hsz 1 (by omega) 2 (by omega), g 0 (by omega), g 1 (by omega), ok_bind, bareTriple]
  | false =>
    have g := fun off (h : off < 1) => vectorAt_eq_ok _ _ _
      ((exportedStream_get 1 idx j off h).trans hv)
    simp only [bareInputs, Bool.false_eq_true, if_false, List.append_nil, List.length_cons,
      List.length_nil, decodeTuple, Nat.reduceAdd, hsz 0 (by omega) 1 (by omega),
      g 0 (by omega), ok_bind, bareTriple]

theorem cornersLoop_bare (hT : Bool) (idx : List Nat) (hlen : idx.length < 2 ^ 31)
    (fuel : Nat) : ∀ j, idx.length ≤ fuel + j →
    cornersLoop (bareInputs hT) (exportedStream idx (bareInputs hT).length) fuel
        ((bareInputs hT).length * j)
      = .ok ((idx.drop j).map (bareTriple hT)) := by
  have hk : 0 < (bareInputs hT).length := by cases hT <;> simp [bareInputs]
  induction fuel with
  | zero =>
    intro j hj
    have : ¬ ((bareInputs hT).length * j
        < (exportedStream idx (bareInputs hT).length).length) := by
      rw [exportedStream_length]
      exact Nat.not_lt.mpr (Nat.mul_le_mul_left _ (by omega))
    simp [cornersLoop, this, List.drop_of_length_le (show idx.length ≤ j by omega)]
  | succ fuel ih =>
    intro j hj
    by_cases hjl : j < idx.length
    · have hi : (bareInputs hT).length * j
          < (exportedStream idx (bareInputs hT).length).length := by
        rw [exportedStream_length]
        exact Nat.mul_lt_mul_of_pos_left hjl hk
      have hd := decodeTuple_bare hT idx j (idx.get ⟨j, hjl⟩) (List.get?_eq_get hjl) hlen
      have hnext : (bareInputs hT).length * j + (bareInputs hT).length
          = (bareInputs hT).length * (j + 1) := by ring
      have hdrop : idx.drop j = idx.get ⟨j, hjl⟩ :: idx.drop (j + 1) :=
        List.drop_eq_getElem_cons hjl
      have ih' := ih (j + 1) (by omega)
      rw [← hnext] at ih'
      rw [cornersLoop, if_pos hi, hd, ok_bind, ih', ok_bind, hdrop]
      rfl
    · have : ¬ ((bareInputs hT).length * j
          < (exportedStream idx (bareInputs hT).length).length) := by
        rw [exportedStream_length]
        exact Nat.not_lt.mpr (Nat.mul_le_mul_left _ (by omega))
      simp [cornersLoop, this, List.drop_of_length_le (show idx.length ≤ j by omega)]

/-- The corners of the index stream that `Export_DAE` writes for a mesh without
normals. -/
theorem corners_bare (hT : Bool) (idx : List Nat) (hlen : idx.length < 2 ^ 31) :
    corners (bareInputs hT) (exportedStream idx (bareInputs hT).length)
      = .ok (idx.map (bareTriple hT)) := by
  have hk : 0 < (bareInputs hT).length := by cases hT <;> simp [bareInputs]
  have := cornersLoop_bare hT idx hlen
    (exportedStream idx (bareInputs hT).length).length 0 (by
      rw [exportedStream_length]
      have := Nat.mul_le_mul_right idx.length hk
      omega)
  simpa [corners] using this

theorem bareTriple_injective (hT : Bool) : Function.Injective (bareTriple hT) := by
  intro a b h
  simp only [bareTriple, Indexes.mk.injEq] at h
  exact h.1

/-- `Export_DAE`, the file and `Import_DAE` in closed form, for a mesh without normals:
the result is the mesh of the arrays welded from the exported index stream and
sources. -/
theorem exportThenImport_bare_spec {F : Type} [Zero F] (ftoa : F → List Char)
    (atof : List Char → F) (M : Mesh F)
    (hftoa : ∀ x, TokenOk (ftoa x)) (hpos : M.mVertices.length ≠ 0)
    (hn : M.mNormals.length ≠ M.mVertices.length)
    (h31 : M.mVertices.length * 3 < 2 ^ 31) (hne : M.mIndices ≠ [])
    (hlen : M.mIndices.length < 2 ^ 31)
    (hidx : ∀ v ∈ M.mIndices, v < M.mVertices.length) :
    ∃ w : WeldState F,
      exportThenImport ftoa atof M
        = .ok ⟨w.indexVector, w.attrs.vertVector, w.attrs.normalVector,
            w.attrs.texcoordVector, ""⟩ ∧
      WeldInv (bareFlags (decide (M.mTexCoords.length = M.mVertices.length)))
        (bareSources (fun x => atof (ftoa x)) M
          (decide (M.mTexCoords.length = M.mVertices.length)))
        exportedVertices
        (M.mIndices.map
          (bareTriple (decide (M.mTexCoords.length = M.mVertices.length)))) w := by
  have hidx31 : ∀ v ∈ M.mIndices, v < 2 ^ 31 := fun v hv => by
    have := hidx v hv; omega
  have hlen32 : M.mIndices.length < 2 ^ 32 := lt_trans hlen (by norm_num)
  obtain ⟨doc, hdoc, hgeo⟩ := geometryElements_bare ftoa M hftoa hpos hn h31 hne hlen32 hidx31
  generalize hTdef : decide (M.mTexCoords.length = M.mVertices.length) = hT at hgeo ⊢
  have ht : hT = true → M.mTexCoords.length = M.mVertices.length := by
    intro h; rw [← hTdef] at h; exact of_decide_eq_true h
  have hcorners := corners_bare hT M.mIndices hlen
  rw [bareInputs_length] at hcorners
  -- every fetch for a corner of the stream succeeds
  have hfetch : ∀ c ∈ M.mIndices.map (bareTriple hT), ∀ a : Attributes F,
      ∃ a', InsertVertNormalTexcoord a (bareFlags hT) c.vertIndex c.normalIndex
        c.texcoordIndex (bareSources (fun x => atof (ftoa x)) M hT) exportedVertices
          = .ok a' := by
    intro c hc a
    simp only [List.mem_map] at hc
    obtain ⟨v, hv, rfl⟩ := hc
    have hvn := hidx v hv
    have hv3 : v * 3 < 2 ^ 31 := by omega
    apply InsertVertNormalTexcoord_succeeds
    · intro _
      refine ⟨_, fetchVector3_of_source (fun x => atof (ftoa x)) _ _ _ M.mVertices
        M.mVertices.length v (M.mVertices.get ⟨v, hvn⟩) ?_ (List.get?_eq_get hvn) hv3⟩
      cases hT <;> rfl
    · intro h
      exact absurd h (by simp [bareFlags])
    · intro h
      have hT1 : hT = true := h
      subst hT1
      have htl := ht rfl
      refine ⟨_, fetchVector2_of_source (fun x => atof (ftoa x)) _ _ _ M.mTexCoords
        M.mVertices.length v (M.mTexCoords.get ⟨v, htl ▸ hvn⟩) ?_ (List.get?_eq_get _) hv3⟩
      rfl
  obtain ⟨w, hw⟩ := weldLoop_succeeds (bareInputs hT)
    (exportedStream M.mIndices (if hT then 2 else 1)) (bareFlags hT)
    (bareSources (fun x => atof (ftoa x)) M hT) exportedVertices
    (exportedStream M.mIndices (if hT then 2 else 1)).length 0 _ WeldState.init hcorners hfetch
  have hweld : weld (bareInputs hT) (exportedStream M.mIndices (if hT then 2 else 1))
      (bareFlags hT) (bareSources (fun x => atof (ftoa x)) M hT) exportedVertices
      = .ok w := hw
  obtain ⟨cs, hcs, hinv⟩ := weld_spec _ _ _ _ _ w hweld
  have hcs' : cs = M.mIndices.map (bareTriple hT) := by
    have := hcs.symm.trans hcorners
    simpa using this
  subst hcs'
  refine ⟨w, ?_, hinv⟩
  have hmesh : ToElement ((TiXmlNode.element "geometry" [("id", "Mesh-1"), ("name", "Mesh-1")]
      [bareMesh ftoa M hT]).FirstChild "mesh") = some (bareMesh ftoa M hT) := by
    cases hT <;> rfl
  have hgeoStep : importGeometry atof ImportState.init
      (TiXmlNode.element "geometry" [("id", "Mesh-1"), ("name", "Mesh-1")]
        [bareMesh ftoa M hT])
      = .ok (aggregate { (ImportState.init : ImportState F) with
          sources := bareSources (fun x => atof (ftoa x)) M hT } w) := by
    unfold importGeometry
    rw [hmesh]
    have hS := sources_bare ftoa atof M hT hftoa hpos ht h31
    simp only [ImportState.init] at hS ⊢
    simp only [hS, ok_bind, readVertices_bareMesh, triangles_bareMesh,
      ReadInputs_bareTriangles, ReadIndexArray_bareTriangles _ _ hne hidx31, hweld,
      readPolylist_bareMesh]
    rfl
  simp only [exportThenImport, hdoc, ok_bind, Import_DAE, hgeo, List.foldlM_cons,
    List.foldlM_nil, hgeoStep]
  obtain ⟨_, _, k1, k2, k3, k4⟩ := aggregate_ok
    { (ImportState.init : ImportState F) with
      sources := bareSources (fun x => atof (ftoa x)) M hT } w ⟨rfl, rfl, rfl, rfl⟩
  simp only [ImportState.init, Mesh.Clear, List.nil_append] at k1 k2 k3 k4
  have heta : ∀ m : Mesh F,
      m = ⟨m.mIndices, m.mVertices, m.mNormals, m.mTexCoords, m.mComment⟩ := fun _ => rfl
  refine congrArg Except.ok ?_
  rw [heta (aggregate _ w).aMesh]
  simp only [ImportState.init, Mesh.Clear]
  rw [k1, k2, k3, k4]
  rfl

/-! ## The importer, the exporter and the importer again -/

theorem firsts_map_of_injOn {α β : Type} [DecidableEq α] [DecidableEq β] (f : α → β)
    (l : List α) (hf : ∀ a ∈ l, ∀ b ∈ l, f a = f b → a = b) :
    firsts (l.map f) = (firsts l).map f := by
  induction l using List.reverseRecOn with
  | nil => simp [firsts]
  | append_singleton l a ih =>
    have ih' := ih fun x hx y hy =>
      hf x (List.mem_append_left _ hx) y (List.mem_append_left _ hy)
    rw [List.map_append, List.map_singleton, firsts_append_singleton, firsts_append_singleton,
      ih']
    by_cases h : a ∈ firsts l
    · have : f a ∈ (firsts l).map f := List.mem_map_of_mem f h
      simp [h, this]
    · have : f a ∉ (firsts l).map f := by
        intro hc
        obtain ⟨b, hb, hfb⟩ := List.mem_map.mp hc
        have hbl : b ∈ l := (mem_firsts l b).mp hb
        have := hf b (List.mem_append_left _ hbl) a
          (List.mem_append_right _ (List.mem_singleton_self a)) hfb
        exact h (this ▸ hb)
      simp [h, this]

theorem map_indexOf_of_nodup {α : Type} [DecidableEq α] (d : List α) (hd : d.Nodup) :
    d.map (fun c => d.indexOf c) = List.range d.length := by
  apply List.ext_get (by simp)
  intro i h1 h2
  simp only [List.get_eq_getElem, List.getElem_map, List.getElem_range]
  exact List.indexOf_getElem hd i _

/-- The index array of the welding loop uses the values `0, 1, 2, ...` in the order of
their first occurrence. -/
theorem firsts_ranks {α : Type} [DecidableEq α] (cs : List α) :
    firsts (cs.map fun c => (firsts cs).indexOf c) = List.range (firsts cs).length := by
  rw [firsts_map_of_injOn, map_indexOf_of_nodup _ (nodup_firsts cs)]
  intro a ha b hb h
  exact (List.indexOf_inj ((mem_firsts cs a).mpr ha) ((mem_firsts cs b).mpr hb)).mp h

theorem readLoop_grows {α : Type} (convert : List Char → Except Failure α) :
    ∀ (fuel : Nat) (s : IStringStream) (val : Option (List Char)) (acc r : List α),
      readLoop convert fuel s val acc = .ok r →
      acc.length ≤ r.length ∧ (s.eofbit = false → acc.length < r.length) := by
  intro fuel
  induction fuel with
  | zero =>
    intro s val acc r h
    by_cases he : s.eofbit = true
    · simp only [readLoop, he, if_true, Except.ok.injEq] at h
      subst h
      simp [he]
    · simp [readLoop, he] at h
  | succ fuel ih =>
    intro s val acc r h
    by_cases he : s.eofbit = true
    · simp only [readLoop, he, if_true, Except.ok.injEq] at h
      subst h
      simp [he]
    · simp only [readLoop, he, Bool.false_eq_true, if_false, bind_eq_ok] at h
      obtain ⟨p, _, h⟩ := h
      obtain ⟨s', v'⟩ := p
      cases v' with
      | none => simp at h
      | some t =>
        simp only [bind_eq_ok] at h
        obtain ⟨value, _, h⟩ := h
        have := (ih _ _ _ _ h).1
        simp only [List.length_append, List.length_singleton] at this
        constructor
        · omega
        · intro _; omega

theorem ReadIndexArray_ne_nil (p : Option TiXmlNode) (pArray : List Nat)
    (h : ReadIndexArray p [] = .ok pArray) : pArray ≠ [] := by
  cases p with
  | none => simp [ReadIndexArray] at h
  | some p =>
    simp only [ReadIndexArray, bind_eq_ok] at h
    obtain ⟨text, _, h⟩ := h
    have := (readLoop_grows _ _ _ _ _ _ h).2 rfl
    intro e
    rw [e] at this
    simp at this

theorem corners_ne_nil (inputs : List Input) (pArray : List Nat) (cs : List Indexes)
    (h : corners inputs pArray = .ok cs) (hne : pArray ≠ []) : cs ≠ [] := by
  have hi : 0 < pArray.length := List.length_pos.mpr hne
  obtain ⟨m, hm⟩ : ∃ m, pArray.length = m + 1 := ⟨pArray.length - 1, by omega⟩
  rw [corners, hm] at h
  simp only [cornersLoop, hi, if_true, bind_eq_ok, pure_eq_ok] at h
  obtain ⟨ix, _, rest, _, rfl⟩ := h
  simp

theorem forall₂_range_map_eq {α : Type} (f : α → α) (R : Nat → α → Prop) (P L : List α)
    (h : List.Forall₂ R (List.range P.length) L)
    (hR : ∀ (v : Nat) (hv : v < P.length) (p : α), R v p → p = f (P.get ⟨v, hv⟩)) :
    L = P.map f := by
  have hl : L.length = (P.map f).length := by simpa using h.length_eq.symm
  apply List.ext_get hl
  intro i h1 h2
  have h2' : i < P.length := by simpa using h2
  have := h.get (by simpa using h2') h1
  simp only [List.get_eq_getElem, List.getElem_range] at this
  simpa using hR i h2' _ this

/-- `Export_DAE` followed by `Import_DAE` on a mesh in the form that the welding loop
produces: the index array uses all vertices in first-occurrence order, and the normals
and the texcoords have the length of the positions or are empty.  The index array comes
back unchanged and every attribute value is converted to text and back. -/
theorem export_import_canonical {F : Type} [Zero F] (ftoa : F → List Char)
    (atof : List Char → F) (M : Mesh F)
    (hftoa : ∀ x, TokenOk (ftoa x))
    (hfirst : firsts M.mIndices = List.range M.mVertices.length)
    (hpos : M.mVertices.length ≠ 0)
    (h31 : M.mVertices.length * 3 < 2 ^ 31) (hlen : M.mIndices.length < 2 ^ 31)
    (hN : M.mNormals.length = M.mVertices.length ∨ M.mNormals = [])
    (hT : M.mTexCoords.length = M.mVertices.length ∨ M.mTexCoords = []) :
    exportThenImport ftoa atof M
      = .ok ⟨M.mIndices, M.mVertices.map (Vector3.map fun x => atof (ftoa x)),
          M.mNormals.map (Vector3.map fun x => atof (ftoa x)),
          M.mTexCoords.map (Vector2.map fun x => atof (ftoa x)), ""⟩ := by
  have hidx : ∀ v ∈ M.mIndices, v < M.mVertices.length := by
    intro v hv
    have := (mem_firsts M.mIndices v).mpr hv
    rw [hfirst] at this
    simpa using this
  have hne : M.mIndices ≠ [] := by
    intro e
    rw [e] at hfirst
    have : (List.range M.mVertices.length).length = 0 := by rw [← hfirst]; rfl
    simp at this
    exact hpos (by simp [this])
  by_cases hn : M.mNormals.length = M.mVertices.length
  · obtain ⟨w, hw, hinv⟩ := exportThenImport_spec ftoa atof M hftoa hpos hn h31 hne hlen hidx
    generalize hTdef : decide (M.mTexCoords.length = M.mVertices.length) = hT' at hinv
    have ht : hT' = true → M.mTexCoords.length = M.mVertices.length := by
      intro h; rw [← hTdef] at h; exact of_decide_eq_true h
    have hfc : firsts (M.mIndices.map (exportedTriple hT'))
        = (List.range M.mVertices.length).map (exportedTriple hT') := by
      rw [firsts_map _ (exportedTriple_injective _), hfirst]
    obtain ⟨_, hvec, _, m1, m2, m3⟩ := hinv
    rw [hfc] at hvec m1 m2 m3
    simp only [exportedFlags, if_true, List.forall₂_map_left_iff, exportedTriple] at m1 m2
    have e1 : w.indexVector = M.mIndices := by
      rw [hvec, List.map_map]
      conv_rhs => rw [← List.map_id M.mIndices]
      apply List.map_congr_left
      intro v hv
      simp only [Function.comp, id]
      rw [indexOf_map_injective _ (exportedTriple_injective _), indexOf_range _ _ (hidx v hv)]
    have e2 : w.attrs.vertVector = M.mVertices.map (Vector3.map fun x => atof (ftoa x)) := by
      apply forall₂_range_map_eq _ _ _ _ m1
      intro v hv p hp
      have := fetchVector3_of_source (fun x => atof (ftoa x))
        (exportedSources (fun x => atof (ftoa x)) M hT') exportedVertices
        "Mesh-1-vertices" M.mVertices M.mVertices.length v (M.mVertices.get ⟨v, hv⟩)
        (by cases hT' <;> rfl) (List.get?_eq_get hv) (by omega)
      rw [this] at hp
      exact (Except.ok.inj hp).symm
    have e3 : w.attrs.normalVector = M.mNormals.map (Vector3.map fun x => atof (ftoa x)) := by
      rw [← hn] at m2
      apply forall₂_range_map_eq _ _ _ _ m2
      intro v hv p hp
      have := fetchVector3_of_source (fun x => atof (ftoa x))
        (exportedSources (fun x => atof (ftoa x)) M hT') exportedVertices
        "Mesh-1-normals" M.mNormals M.mVertices.length v (M.mNormals.get ⟨v, hv⟩)
        (by cases hT' <;> rfl) (List.get?_eq_get hv) (by omega)
      rw [this] at hp
      exact (Except.ok.inj hp).symm
    have e4 : w.attrs.texcoordVector
        = M.mTexCoords.map (Vector2.map fun x => atof (ftoa x)) := by
      cases hT' with
      | true =>
        have htl := ht rfl
        simp only [exportedFlags, if_true, List.forall₂_map_left_iff, exportedTriple] at m3
        rw [← htl] at m3
        apply forall₂_range_map_eq _ _ _ _ m3
        intro v hv p hp
        have := fetchVector2_of_source (fun x => atof (ftoa x))
          (exportedSources (fun x => atof (ftoa x)) M true) exportedVertices
          "Mesh-1-map1" M.mTexCoords M.mVertices.length v (M.mTexCoords.get ⟨v, hv⟩)
          rfl (List.get?_eq_get hv) (by omega)
        rw [this] at hp
        exact (Except.ok.inj hp).symm
      | false =>
        have hf : ¬ M.mTexCoords.length = M.mVertices.length := by
          intro e
          rw [decide_eq_true e] at hTdef
          exact absurd hTdef (by simp)
        simp only [exportedFlags, Bool.false_eq_true, if_false] at m3
        rw [m3, hT.resolve_left hf]
        rfl
    rw [hw, e1, e2, e3, e4]
  · have hn0 : M.mNormals = [] := hN.resolve_left hn
    obtain ⟨w, hw, hinv⟩ :=
      exportThenImport_bare_spec ftoa atof M hftoa hpos hn h31 hne hlen hidx
    generalize hTdef : decide (M.mTexCoords.length = M.mVertices.length) = hT' at hinv
    have ht : hT' = true → M.mTexCoords.length = M.mVertices.length := by
      intro h; rw [← hTdef] at h; exact of_decide_eq_true h
    have hfc : firsts (M.mIndices.map (bareTriple hT'))
        = (List.range M.mVertices.length).map (bareTriple hT') := by
      rw [firsts_map _ (bareTriple_injective _), hfirst]
    obtain ⟨_, hvec, _, m1, m2, m3⟩ := hinv
    rw [hfc] at hvec m1 m2 m3
    simp only [bareFlags, if_true, Bool.false_eq_true, if_false, List.forall₂_map_left_iff,
      bareTriple] at m1 m2
    have e1 : w.indexVector = M.mIndices := by
      rw [hvec, List.map_map]
      conv_rhs => rw [← List.map_id M.mIndices]
      apply List.map_congr_left
      intro v hv
      simp only [Function.comp, id]
      rw [indexOf_map_injective _ (bareTriple_injective _), indexOf_range _ _ (hidx v hv)]
    have e2 : w.attrs.vertVector = M.mVertices.map (Vector3.map fun x => atof (ftoa x)) := by
      apply forall₂_range_map_eq _ _ _ _ m1
      intro v hv p hp
      have := fetchVector3_of_source (fun x => atof (ftoa x))
        (bareSources (fun x => atof (ftoa x)) M hT') exportedVertices
        "Mesh-1-vertices" M.mVertices M.mVertices.length v (M.mVertices.get ⟨v, hv⟩)
        (by cases hT' <;> rfl) (List.get?_eq_get hv) (by omega)
      rw [this] at hp
      exact (Except.ok.inj hp).symm
    have e3 : w.attrs.normalVector = M.mNormals.map (Vector3.map fun x => atof (ftoa x)) := by
      rw [m2, hn0]
      rfl
    have e4 : w.attrs.texcoordVector
        = M.mTexCoords.map (Vector2.map fun x => atof (ftoa x)) := by
      cases hT' with
      | true =>
        have htl := ht rfl
        simp only [bareFlags, if_true, List.forall₂_map_left_iff, bareTriple] at m3
        rw [← htl] at m3
        apply forall₂_range_map_eq _ _ _ _ m3
        intro v hv p hp
        have := fetchVector2_of_source (fun x => atof (ftoa x))
          (bareSources (fun x => atof (ftoa x)) M true) exportedVertices
          "Mesh-1-map1" M.mTexCoords M.mVertices.length v (M.mTexCoords.get ⟨v, hv⟩)
          rfl (List.get?_eq_get hv) (by omega)
        rw [this] at hp
        exact (Except.ok.inj hp).symm
      | false =>
        have hf : ¬ M.mTexCoords.length = M.mVertices.length := by
          intro e
          rw [decide_eq_true e] at hTdef
          exact absurd hTdef (by simp)
        simp only [bareFlags, Bool.false_eq_true, if_false] at m3
        rw [m3, hT.resolve_left hf]
        rfl
    rw [hw, e1, e2, e3, e4]

/-- The mesh of a successful import of a document with one welded `<triangles>` element
that declares a VERTEX input is in the form that the welding loop produces. -/
theorem import_canonical {F : Type} [Zero F] (atof : List Char → F) (doc : TiXmlDocument)
    (tri : TiXmlNode) (M : Mesh F)
    (htri : trianglesOfDocument doc = [tri]) (hvert : declares "VERTEX" tri = true)
    (himp : Import_DAE atof (some doc) = .ok M) :
    firsts M.mIndices = List.range M.mVertices.length ∧ M.mVertices.length ≠ 0 ∧
      (M.mNormals.length = M.mVertices.length ∨ M.mNormals = []) ∧
      (M.mTexCoords.length = M.mVertices.length ∨ M.mTexCoords = []) := by
  obtain ⟨ws, hws, e1, e2, e3, e4⟩ := import_spec atof doc M himp
  rw [htri] at hws
  obtain ⟨p, ws', hp, hws', rfl⟩ := List.forall₂_cons_left_iff.mp hws
  have := List.forall₂_nil_left_iff.mp hws'
  subst this
  simp only [List.map_cons, List.map_nil, List.flatten_cons, List.flatten_nil,
    List.append_nil] at e1 e2 e3 e4
  obtain ⟨inputs, pArray, sources, vertices, hri, hpa, hw⟩ := hp
  obtain ⟨cs, hcs, hinv⟩ := weld_spec inputs pArray p.1 sources vertices p.2 hw
  obtain ⟨f1, _, _⟩ := ReadInputs_flags tri p.1 inputs hri
  have hv : p.1.hasVerts = true := f1.trans hvert
  have hcne := corners_ne_nil _ _ _ hcs (ReadIndexArray_ne_nil _ _ hpa)
  obtain ⟨_, hvec, _, m1, m2, m3⟩ := hinv
  rw [if_pos hv] at m1
  have hnv : M.mVertices.length = (firsts cs).length := by
    rw [e2]; exact m1.length_eq.symm
  refine ⟨?_, ?_, ?_, ?_⟩
  · rw [e1, hvec, firsts_ranks, hnv]
  · obtain ⟨c, rest, rfl⟩ := List.exists_cons_of_ne_nil hcne
    have hc : c ∈ firsts (c :: rest) := (mem_firsts _ c).mpr (List.mem_cons_self _ _)
    rw [hnv]
    exact fun h0 => List.not_mem_nil c (List.length_eq_zero.mp h0 ▸ hc)
  · by_cases hf : p.1.hasNormals = true
    · rw [if_pos hf] at m2
      left
      rw [e3, hnv]
      exact m2.length_eq.symm
    · rw [if_neg hf] at m2
      right
      rw [e3, m2]
  · by_cases hf : p.1.hasTexcoords = true
    · rw [if_pos hf] at m3
      left
      rw [e4, hnv]
      exact m3.length_eq.symm
    · rw [if_neg hf] at m3
      right
      rw [e4, m3]

/-- C24. For every document whose geometries hold one `<triangles>` element that is
welded (as a document with a single geometry does), whose `<triangles>` declares a
VERTEX input and on which `Import_DAE` succeeds with the mesh `M` (the array sizes of `M`
fitting an `int`, the text written for a float being one token): the document that
`Export_DAE` writes for `M` is imported without a failure, and the mesh it yields has the
index array of `M` and as many positions, normals and texcoords as `M`; each of its
attribute values is the value of `M` converted to text and back. -/
theorem welding_idempotent_through_exporter {F : Type} [Zero F] (ftoa : F → List Char)
    (atof : List Char → F) (doc : TiXmlDocument) (tri : TiXmlNode) (M : Mesh F)
    (hftoa : ∀ x, TokenOk (ftoa x))
    (htri : trianglesOfDocument doc = [tri]) (hvert : declares "VERTEX" tri = true)
    (himp : Import_DAE atof (some doc) = .ok M)
    (h31 : M.mVertices.length * 3 < 2 ^ 31) (hlen : M.mIndices.length < 2 ^ 31) :
    ∃ M' : Mesh F, exportThenImport ftoa atof M = .ok M' ∧
      M'.mIndices = M.mIndices ∧
      M'.mVertices.length = M.mVertices.length ∧
      M'.mNormals.length = M.mNormals.length ∧
      M'.mTexCoords.length = M.mTexCoords.length ∧
      M'.mVertices = M.mVertices.map (Vector3.map fun x => atof (ftoa x)) ∧
      M'.mNormals = M.mNormals.map (Vector3.map fun x => atof (ftoa x)) ∧
      M'.mTexCoords = M.mTexCoords.map (Vector2.map fun x => atof (ftoa x)) := by
  obtain ⟨hfirst, hpos, hN, hT⟩ := import_canonical atof doc tri M htri hvert himp
  exact ⟨_, export_import_canonical ftoa atof M hftoa hfirst hpos h31 hlen hN hT, rfl,
    by simp, by simp, by simp, rfl, rfl, rfl⟩

/-- C24, witness: the document of scenario S2, whose one normal is shared by the three
corners; the first import gives three normals, and the export and the second import
change nothing. -/
theorem welding_idempotent_through_exporter_witness :
    (∀ x, TokenOk (ftoaSmall x)) ∧
    trianglesOfDocument docTriangleNormal
      = [trianglesElement [inputElement "VERTEX" "#V" "0", inputElement "NORMAL" "#N" "1"]
          "0 0 1 0 2 0"] ∧
    declares "VERTEX"
      (trianglesElement [inputElement "VERTEX" "#V" "0", inputElement "NORMAL" "#N" "1"]
        "0 0 1 0 2 0") = true ∧
    Import_DAE atofSmall (some docTriangleNormal) = .ok meshS5 ∧
    meshS5.mVertices.length * 3 < 2 ^ 31 ∧ meshS5.mIndices.length < 2 ^ 31 ∧
    ∃ M' : Mesh Small, exportThenImport ftoaSmall atofSmall meshS5 = .ok M' ∧
      M'.mIndices = meshS5.mIndices ∧
      M'.mVertices.length = meshS5.mVertices.length ∧
      M'.mNormals.length = meshS5.mNormals.length ∧
      M'.mTexCoords.length = meshS5.mTexCoords.length ∧
      M'.mVertices = meshS5.mVertices.map (Vector3.map fun x => atofSmall (ftoaSmall x)) ∧
      M'.mNormals = meshS5.mNormals.map (Vector3.map fun x => atofSmall (ftoaSmall x)) ∧
      M'.mTexCoords = meshS5.mTexCoords.map (Vector2.map fun x => atofSmall (ftoaSmall x)) :=
  ⟨ftoaSmall_token, rfl, by decide, by decide, by decide, by decide,
    welding_idempotent_through_exporter ftoaSmall atofSmall docTriangleNormal _ meshS5
      ftoaSmall_token rfl (by decide) (by decide) (by decide) (by decide)⟩

end DAE
